import Mathlib

/-!
# `sjtu::vector` (src/vector.h): a shallow embedding

The container of `src/vector.h` is embedded over an explicit heap.

* `size_t` values are natural numbers taken modulo `2 ^ 64`, `int` values are
  integers in the 32-bit two's complement range; every implicit conversion of
  the source (`int i = curSize`, `i < curSize - 1`, `iterator(storage, ind)`)
  is written out with `toInt`, `toSize`, `subSize`, `wrapSize`.
* A `T*` is a block address together with a slot offset; the heap maps the
  address of each allocated block to its capacity and its slots, a slot being
  `none` while it is raw memory and `some x` while it holds a constructed `x`.
* Reading raw memory, touching a slot outside its block, using a block that
  is not allocated and overflowing an `int` counter are undefined behaviour
  and end the run with `Fault.undefined_behaviour`.
* `std::allocator` is a parameter: any function choosing the address of the
  next block from the addresses in use. Allocation always succeeds.
* The parameters `const T &value` and `const size_t &ind` of `push_back`,
  `insert` and `erase` are references: `Arg` and `Index` say whether the
  argument is bound to an object outside the heap or to a slot of a block, and
  the bodies read the argument at each place where the source uses it.
-/

namespace sjtu

/-- The exceptions of `exceptions.h` thrown by the container, and undefined behaviour. -/
inductive Fault where
  | index_out_of_bound
  | container_is_empty
  | invalid_iterator
  | undefined_behaviour
  deriving DecidableEq, Repr

deriving instance DecidableEq for Except

/-! ## Machine integers -/

/-- Conversion `size_t → int`: reduction modulo `2 ^ 32` into the signed range. -/
def toInt (n : Nat) : Int :=
  if n % 2 ^ 32 < 2 ^ 31 then ((n % 2 ^ 32 : Nat) : Int)
  else ((n % 2 ^ 32 : Nat) : Int) - 2 ^ 32

/-- Conversion `int → size_t`: reduction modulo `2 ^ 64`. -/
def toSize (i : Int) : Nat := (i % 2 ^ 64).toNat

/-- Result of a `size_t` computation whose mathematical value is `n`. -/
def wrapSize (n : Nat) : Nat := n % 2 ^ 64

/-- Subtraction `a - b` on `size_t`. -/
def subSize (a b : Nat) : Nat := (a % 2 ^ 64 + (2 ^ 64 - b % 2 ^ 64)) % 2 ^ 64

/-- Result of an `int` computation whose mathematical value is `i` (two's complement). -/
def wrapInt (i : Int) : Int := toInt (i % 2 ^ 32).toNat

/-! ## Memory -/

/-- One block handed out by `allocate`: its number of slots and their contents. -/
structure Block (T : Type) where
  cap : Nat
  cells : Nat → Option T

/-- The heap: the addresses of the blocks in use, and the block at each address. -/
structure Heap (T : Type) where
  live : List Nat
  blk : Nat → Block T

/-- Address policy of `std::allocator<T>::allocate`: from the addresses in use
and the requested number of slots to the address of the new block. -/
abbrev Allocator := List Nat → Nat → Nat

/-- An allocator never hands out the address of a block that is in use. -/
def Allocator.Fresh (A : Allocator) : Prop := ∀ live n, A live n ∉ live

/-- A concrete allocator: one past the largest address in use. -/
def bumpAllocator : Allocator := fun live _ => live.foldr max 0 + 1

variable {T : Type}

/-- The slot `p + i` lies inside an allocated block. -/
def Heap.inBounds (h : Heap T) (p : Nat) (i : Int) : Bool :=
  decide (p ∈ h.live) && decide (0 ≤ i) && decide (i < ((h.blk p).cap : Int))

/-- Replace the content of slot `i` of block `p`. -/
def Heap.store (h : Heap T) (p i : Nat) (c : Option T) : Heap T :=
  { live := h.live
    blk := fun q =>
      if q = p then
        { cap := (h.blk p).cap, cells := fun j => if j = i then c else (h.blk p).cells j }
      else h.blk q }

/-- `helper.allocate(n)`: a new block of `n` raw slots. -/
def Heap.allocate (A : Allocator) (h : Heap T) (n : Nat) : Nat × Heap T :=
  let p := A h.live n
  (p, { live := p :: h.live
        blk := fun q => if q = p then { cap := n, cells := fun _ => none } else h.blk q })

/-- `helper.deallocate(p, n)`: the block must be in use and `n` its size. -/
def Heap.deallocate (h : Heap T) (p n : Nat) : Except Fault (Heap T) :=
  if p ∈ h.live ∧ (h.blk p).cap = n then .ok { live := h.live.erase p, blk := h.blk }
  else .error .undefined_behaviour

/-- Read of `p[i]`: the slot must hold a constructed element. -/
def Heap.read (h : Heap T) (p : Nat) (i : Int) : Except Fault T :=
  if h.inBounds p i then
    match (h.blk p).cells i.toNat with
    | some x => .ok x
    | none => .error .undefined_behaviour
  else .error .undefined_behaviour

/-- `helper.construct(p + i, x)`: copy-construct `x` in the slot. -/
def Heap.construct (h : Heap T) (p : Nat) (i : Int) (x : T) : Except Fault (Heap T) :=
  if h.inBounds p i then .ok (h.store p i.toNat (some x)) else .error .undefined_behaviour

/-- `helper.destroy(p + i)`: the slot must hold an element; it becomes raw memory. -/
def Heap.destroy (h : Heap T) (p : Nat) (i : Int) : Except Fault (Heap T) :=
  if h.inBounds p i then
    match (h.blk p).cells i.toNat with
    | some _ => .ok (h.store p i.toNat none)
    | none => .error .undefined_behaviour
  else .error .undefined_behaviour

/-- Copy assignment `p[i] = x`: the slot must already hold an element. -/
def Heap.assign (h : Heap T) (p : Nat) (i : Int) (x : T) : Except Fault (Heap T) :=
  if h.inBounds p i then
    match (h.blk p).cells i.toNat with
    | some _ => .ok (h.store p i.toNat (some x))
    | none => .error .undefined_behaviour
  else .error .undefined_behaviour

/-! ## Arguments passed by reference -/

/-- An argument of type `const T &`. It is bound either to an object outside
every block (a temporary, a local variable), which keeps its value `x` during
the call, or to slot `i` of block `p`, which is read each time the callee uses
the argument. -/
inductive Arg (T : Type) where
  | val (x : T)
  | ref (p : Nat) (i : Int)

/-- The value of a `const T &` argument in the heap `h`. -/
def Arg.read (h : Heap T) : Arg T → Except Fault T
  | .val x => .ok x
  | .ref p i => h.read p i

/-- An argument of type `const size_t &`. It is bound either to an object
outside every block, or, where the elements are themselves of type `size_t`
(`asSize` gives their value), to slot `i` of block `p`. -/
inductive Index (T : Type) where
  | val (n : Nat)
  | ref (p : Nat) (i : Int) (asSize : T → Nat)

/-- The value of a `const size_t &` argument in the heap `h`. -/
def Index.read (h : Heap T) : Index T → Except Fault Nat
  | .val n => .ok n
  | .ref p i asSize =>
    match h.read p i with
    | .ok x => .ok (asSize x)
    | .error e => .error e

/-! ## Counting loops -/

/-- `for (int i = i0; cond(i); ++i) body(i)`. The first argument counts the
values of type `int` from `i0` upwards: when it is used up, `++i` has
overflowed. -/
def forUp (cond : Int → Bool) (body : Int → Heap T → Except Fault (Heap T)) :
    Nat → Int → Heap T → Except Fault (Heap T)
  | 0, _, _ => .error .undefined_behaviour
  | fuel + 1, i, h =>
    if cond i then
      match body i h with
      | .ok h1 => forUp cond body fuel (i + 1) h1
      | .error e => .error e
    else .ok h

/-- `for (int i = i0; cond(i); --i) body(i)`. The first argument counts the
values of type `int` from `i0` downwards: when it is used up, `--i` has
overflowed. -/
def forDown (cond : Int → Bool) (body : Int → Heap T → Except Fault (Heap T)) :
    Nat → Int → Heap T → Except Fault (Heap T)
  | 0, _, _ => .error .undefined_behaviour
  | fuel + 1, i, h =>
    if cond i then
      match body i h with
      | .ok h1 => forDown cond body fuel (i - 1) h1
      | .error e => .error e
    else .ok h

/-- `for (int i = i0; cond(i); --i) body(i)` where the test reads the heap, as
it does when it compares `i` with an argument passed by reference. -/
def forDownRead (cond : Int → Heap T → Except Fault Bool)
    (body : Int → Heap T → Except Fault (Heap T)) :
    Nat → Int → Heap T → Except Fault (Heap T)
  | 0, _, _ => .error .undefined_behaviour
  | fuel + 1, i, h =>
    match cond i h with
    | .error e => .error e
    | .ok true =>
      match body i h with
      | .ok h1 => forDownRead cond body fuel (i - 1) h1
      | .error e => .error e
    | .ok false => .ok h

/-- Number of `int` values from `i` up to `INT_MAX`. -/
def upTo (i : Int) : Nat := (2 ^ 31 - i).toNat

/-- Number of `int` values from `i` down to `INT_MIN`. -/
def downTo (i : Int) : Nat := (i + 2 ^ 31 + 1).toNat

/-! ## Cursors -/

/-- Class `vector::iterator`: the base address it was issued against and an offset. -/
structure iterator where
  beg : Nat
  num : Int
  deriving DecidableEq, Repr

/-- The member `getNum` of `iterator`. -/
def iterator.getNum (it : iterator) : Int := it.num

/-- `iterator::operator+(const int &n)`; the sum is taken in two's complement. -/
def iterator.add (it : iterator) (n : Int) : iterator := ⟨it.beg, wrapInt (it.num + n)⟩

/-- `iterator::operator*`: the element at `beg + num`, unchecked. -/
def iterator.deref (h : Heap T) (it : iterator) : Except Fault T := h.read it.beg it.num

/-- `iterator::operator==(const iterator&)`. -/
def iterator.eq (a b : iterator) : Bool := a.beg == b.beg && a.num == b.num

/-- `iterator::operator-(const int &n)`; the difference is taken in two's complement. -/
def iterator.sub (it : iterator) (n : Int) : iterator := ⟨it.beg, wrapInt (it.num - n)⟩

/-- `iterator::operator-(const iterator &rhs)`: the distance between two cursors. -/
def iterator.distance (a rhs : iterator) : Except Fault Int :=
  if a.beg = rhs.beg then .error .invalid_iterator else .ok (wrapInt (a.num - rhs.num))

/-- Class `vector::const_iterator`: the same two members as `iterator`. -/
structure const_iterator where
  beg : Nat
  num : Int
  deriving DecidableEq, Repr

/-- `const_iterator::operator+(const int &n)`. -/
def const_iterator.add (it : const_iterator) (n : Int) : const_iterator :=
  ⟨it.beg, wrapInt (it.num + n)⟩

/-- `const_iterator::operator-(const const_iterator &rhs)`. -/
def const_iterator.distance (a rhs : const_iterator) : Except Fault Int :=
  if a.beg = rhs.beg then .error .invalid_iterator else .ok (wrapInt (a.num - rhs.num))

/-- `const_iterator::operator*`: the element at `beg + num`, unchecked. -/
def const_iterator.deref (h : Heap T) (it : const_iterator) : Except Fault T :=
  h.read it.beg it.num

/-- `const_iterator::operator==(const const_iterator&)`. -/
def const_iterator.eq (a b : const_iterator) : Bool := a.beg == b.beg && a.num == b.num

/-- `iterator::operator==(const const_iterator&)`. -/
def iterator.eq_const (a : iterator) (b : const_iterator) : Bool :=
  a.beg == b.beg && a.num == b.num

/-- `const_iterator::operator==(const iterator&)`. -/
def const_iterator.eq_iter (a : const_iterator) (b : iterator) : Bool :=
  a.beg == b.beg && a.num == b.num

/-! ## The container -/

/-- The data members of `vector<T>`: `storage`, `curSize`, `maxSize`. -/
structure vector where
  storage : Nat
  curSize : Nat
  maxSize : Nat
  deriving DecidableEq, Repr

/-- `static const int initSize = 10`. -/
def initSize : Nat := 10

/-- What a member function leaves behind: the value it returns or the fault it
raises, the heap, and the object it was called on. -/
structure Outcome (T : Type) (α : Type) where
  result : Except Fault α
  heap : Heap T
  self : vector

/-- A run of the statements after the guards of a member function: on
undefined behaviour the state reported is the one before the call. -/
def Outcome.run {α : Type} (h : Heap T) (v : vector)
    (r : Except Fault (α × Heap T × vector)) : Outcome T α :=
  match r with
  | .ok (a, h1, v1) => ⟨.ok a, h1, v1⟩
  | .error e => ⟨.error e, h, v⟩

/-- `vector::doubleSpace`. -/
def vector.doubleSpace (A : Allocator) (h : Heap T) (v : vector) :
    Except Fault (Heap T × vector) :=
  let tmp := v.storage
  let maxSize := wrapSize (v.maxSize * 2)
  let (storage, h1) := h.allocate A maxSize
  match forUp (fun i => decide (toSize i < v.curSize))
      (fun i g => match g.read tmp i with
        | .ok x => g.construct storage i x
        | .error e => .error e) (upTo 0) 0 h1 with
  | .error e => .error e
  | .ok h2 =>
    match forUp (fun i => decide (toSize i < v.curSize))
        (fun i g => g.destroy tmp i) (upTo 0) 0 h2 with
    | .error e => .error e
    | .ok h3 =>
      match h3.deallocate tmp v.curSize with
      | .error e => .error e
      | .ok h4 => .ok (h4, { storage := storage, curSize := v.curSize, maxSize := maxSize })

/-- The growth step shared by `insert` and `push_back`:
`if (curSize == maxSize) doubleSpace();`. -/
def vector.growIfFull (A : Allocator) (h : Heap T) (v : vector) :
    Except Fault (Heap T × vector) :=
  if v.curSize = v.maxSize then v.doubleSpace A h else .ok (h, v)

/-- The default constructor `vector()`. -/
def vector.new (A : Allocator) (h : Heap T) : Heap T × vector :=
  let (storage, h1) := h.allocate A initSize
  (h1, { storage := storage, curSize := 0, maxSize := initSize })

/-- `vector::at(const size_t &pos)`. -/
def vector.at_ (h : Heap T) (v : vector) (pos : Nat) : Outcome T T :=
  if decide (pos < 0) || decide (pos ≥ v.curSize) then ⟨.error .index_out_of_bound, h, v⟩
  else ⟨h.read v.storage pos, h, v⟩

/-- `vector::operator[](const size_t &pos)`. -/
def vector.index (h : Heap T) (v : vector) (pos : Nat) : Outcome T T :=
  if decide (pos < 0) || decide (pos ≥ v.curSize) then ⟨.error .index_out_of_bound, h, v⟩
  else ⟨h.read v.storage pos, h, v⟩

/-- `vector::begin`. -/
def vector.begin (v : vector) : iterator := ⟨v.storage, 0⟩

/-- `vector::end`. -/
def vector.end_ (v : vector) : iterator := ⟨v.storage, toInt v.curSize⟩

/-- `vector::size`. -/
def vector.size (v : vector) : Nat := v.curSize

/-- `vector::empty`. -/
def vector.empty (v : vector) : Bool := v.curSize == 0

/-- `vector::insert(iterator pos, const T &value)`. The argument `value` is
read where the body uses it: in `construct(storage + curSize, value)` and in
`storage[theNum] = value`. -/
def vector.insert_pos (A : Allocator) (h : Heap T) (v : vector) (pos : iterator)
    (value : Arg T) : Outcome T iterator :=
  Outcome.run h v <|
    match v.growIfFull A h with
    | .error e => .error e
    | .ok (h1, v1) =>
      let theNum := pos.getNum
      match value.read h1 with
      | .error e => .error e
      | .ok x =>
        match h1.construct v1.storage v1.curSize x with
        | .error e => .error e
        | .ok h2 =>
          match forDown (fun i => decide (i > theNum))
              (fun i g => match g.read v1.storage (i - 1) with
                | .ok x => g.assign v1.storage i x
                | .error e => .error e)
              (downTo (toInt v1.curSize)) (toInt v1.curSize) h2 with
          | .error e => .error e
          | .ok h3 =>
            match value.read h3 with
            | .error e => .error e
            | .ok y =>
              match h3.assign v1.storage theNum y with
              | .error e => .error e
              | .ok h4 => .ok (pos, h4, { v1 with curSize := wrapSize (v1.curSize + 1) })

/-- `vector::insert(const size_t &ind, const T &value)`. The arguments are read
where the body uses them: `ind` in the guard, in every test `i > ind` of the
loop, in `storage[ind] = value` and in `return iterator(storage, ind)`; `value`
in `construct(storage + curSize, value)` and in `storage[ind] = value`. -/
def vector.insert_ind (A : Allocator) (h : Heap T) (v : vector) (ind : Index T)
    (value : Arg T) : Outcome T iterator :=
  match ind.read h with
  | .error e => ⟨.error e, h, v⟩
  | .ok n =>
    if n > v.curSize then ⟨.error .index_out_of_bound, h, v⟩
    else Outcome.run h v <|
      match v.growIfFull A h with
      | .error e => .error e
      | .ok (h1, v1) =>
        match value.read h1 with
        | .error e => .error e
        | .ok x =>
          match h1.construct v1.storage v1.curSize x with
          | .error e => .error e
          | .ok h2 =>
            match forDownRead
                (fun i g => match ind.read g with
                  | .ok m => .ok (decide (toSize i > m))
                  | .error e => .error e)
                (fun i g => match g.read v1.storage (i - 1) with
                  | .ok x => g.assign v1.storage i x
                  | .error e => .error e)
                (downTo (toInt v1.curSize)) (toInt v1.curSize) h2 with
            | .error e => .error e
            | .ok h3 =>
              match ind.read h3 with
              | .error e => .error e
              | .ok k =>
                match value.read h3 with
                | .error e => .error e
                | .ok y =>
                  match h3.assign v1.storage k y with
                  | .error e => .error e
                  | .ok h4 =>
                    match ind.read h4 with
                    | .error e => .error e
                    | .ok r =>
                      .ok (⟨v1.storage, toInt r⟩, h4,
                        { v1 with curSize := wrapSize (v1.curSize + 1) })

/-- `vector::erase(iterator pos)`. -/
def vector.erase_pos (h : Heap T) (v : vector) (pos : iterator) : Outcome T iterator :=
  Outcome.run h v <|
    let flag := decide (toSize pos.getNum = subSize v.curSize 1)
    match forUp (fun i => decide (toSize i < subSize v.curSize 1))
        (fun i g => match g.read v.storage (i + 1) with
          | .ok x => g.assign v.storage i x
          | .error e => .error e)
        (upTo pos.getNum) pos.getNum h with
    | .error e => .error e
    | .ok h1 =>
      match h1.destroy v.storage ((v.curSize : Int) - 1) with
      | .error e => .error e
      | .ok h2 =>
        let curSize := subSize v.curSize 1
        if flag then
          .ok (⟨v.storage, toInt (subSize curSize 1)⟩, h2, { v with curSize := curSize })
        else .ok (pos, h2, { v with curSize := curSize })

/-- `vector::erase(const size_t &ind)`. The argument `ind` is read where the
body uses it: in the guard, in `int i = ind`, and twice in the expression
`ind - (ind == curSize)` of the return statement, after the elements moved. -/
def vector.erase_ind (h : Heap T) (v : vector) (ind : Index T) : Outcome T iterator :=
  match ind.read h with
  | .error e => ⟨.error e, h, v⟩
  | .ok n =>
    if n ≥ v.curSize then ⟨.error .index_out_of_bound, h, v⟩
    else Outcome.run h v <|
      match forUp (fun i => decide (toSize i < subSize v.curSize 1))
          (fun i g => match g.read v.storage (i + 1) with
            | .ok x => g.assign v.storage i x
            | .error e => .error e)
          (upTo (toInt n)) (toInt n) h with
      | .error e => .error e
      | .ok h1 =>
        match h1.destroy v.storage ((v.curSize : Int) - 1) with
        | .error e => .error e
        | .ok h2 =>
          let curSize := subSize v.curSize 1
          match ind.read h2 with
          | .error e => .error e
          | .ok r =>
            .ok (⟨v.storage, toInt (subSize r (if r = curSize then 1 else 0))⟩, h2,
              { v with curSize := curSize })

/-- `vector::push_back(const T &value)`. The argument `value` is read in
`construct(storage + curSize, value)`, after the growth step. -/
def vector.push_back (A : Allocator) (h : Heap T) (v : vector) (value : Arg T) :
    Outcome T Unit :=
  Outcome.run h v <|
    match v.growIfFull A h with
    | .error e => .error e
    | .ok (h1, v1) =>
      match value.read h1 with
      | .error e => .error e
      | .ok x =>
        match h1.construct v1.storage v1.curSize x with
        | .error e => .error e
        | .ok h2 => .ok ((), h2, { v1 with curSize := wrapSize (v1.curSize + 1) })

/-- `vector::pop_back`. -/
def vector.pop_back (h : Heap T) (v : vector) : Outcome T Unit :=
  if v.curSize = 0 then ⟨.error .container_is_empty, h, v⟩
  else Outcome.run h v <|
    match h.destroy v.storage ((v.curSize : Int) - 1) with
    | .error e => .error e
    | .ok h1 => .ok ((), h1, { v with curSize := subSize v.curSize 1 })

/-- `vector::cbegin`. -/
def vector.cbegin (v : vector) : const_iterator := ⟨v.storage, 0⟩

/-- `vector::cend`. -/
def vector.cend (v : vector) : const_iterator := ⟨v.storage, toInt v.curSize⟩

/-- `vector::clear`. -/
def vector.clear (h : Heap T) (v : vector) : Outcome T Unit :=
  ⟨.ok (), h, { v with curSize := 0 }⟩

/-- The copy constructor `vector(const vector &other)`: the heap and the new object. -/
def vector.copy (A : Allocator) (h : Heap T) (other : vector) :
    Except Fault (Heap T × vector) :=
  let curSize := other.curSize
  let maxSize := other.maxSize
  let (storage, h1) := h.allocate A maxSize
  match forUp (fun i => decide (toSize i < curSize))
      (fun i g => match g.read other.storage i with
        | .ok x => g.construct storage i x
        | .error e => .error e) (upTo 0) 0 h1 with
  | .error e => .error e
  | .ok h2 => .ok (h2, { storage := storage, curSize := curSize, maxSize := maxSize })

/-- `vector::operator=(const vector &other)`; `same` is the test `this == &other`. -/
def vector.assign (A : Allocator) (h : Heap T) (v : vector) (other : vector) (same : Bool) :
    Outcome T Unit :=
  if same then ⟨.ok (), h, v⟩
  else Outcome.run h v <|
    match forUp (fun i => decide (toSize i < v.curSize))
        (fun i g => g.destroy v.storage i) (upTo 0) 0 h with
    | .error e => .error e
    | .ok h1 =>
      match h1.deallocate v.storage v.maxSize with
      | .error e => .error e
      | .ok h2 =>
        let curSize := other.curSize
        let maxSize := other.maxSize
        let (storage, h3) := h2.allocate A maxSize
        match forUp (fun i => decide (toSize i < curSize))
            (fun i g => match g.read other.storage i with
              | .ok x => g.construct storage i x
              | .error e => .error e) (upTo 0) 0 h3 with
        | .error e => .error e
        | .ok h4 =>
          .ok ((), h4, { storage := storage, curSize := curSize, maxSize := maxSize })

/-- The element overwrite `at(pos) = value`: the bounds check of `at`, then the
copy assignment through the reference it returns. -/
def vector.at_put (h : Heap T) (v : vector) (pos : Nat) (value : T) : Outcome T Unit :=
  if decide (pos < 0) || decide (pos ≥ v.curSize) then ⟨.error .index_out_of_bound, h, v⟩
  else Outcome.run h v <|
    match h.assign v.storage pos value with
    | .error e => .error e
    | .ok h1 => .ok ((), h1, v)

/-- The run did not end in undefined behaviour: the call returned normally or
raised one of the exceptions of the container. -/
def Defined {α : Type} (r : Except Fault α) : Prop := r ≠ .error .undefined_behaviour

/-- The outcome of a call with the value it returns forgotten. -/
def Outcome.void {α : Type} (o : Outcome T α) : Outcome T Unit :=
  ⟨o.result.map (fun _ => ()), o.heap, o.self⟩

/-- The public operations that change a vector in place, with their arguments
as the caller binds them. -/
inductive Op (T : Type) where
  | push_back (value : Arg T)
  | pop_back
  | insert_ind (ind : Index T) (value : Arg T)
  | insert_pos (pos : iterator) (value : Arg T)
  | erase_ind (ind : Index T)
  | erase_pos (pos : iterator)
  | clear

/-- Run one operation on the vector `v`. -/
def Op.run (A : Allocator) (h : Heap T) (v : vector) : Op T → Outcome T Unit
  | .push_back value => v.push_back A h value
  | .pop_back => v.pop_back h
  | .insert_ind ind value => (v.insert_ind A h ind value).void
  | .insert_pos pos value => (v.insert_pos A h pos value).void
  | .erase_ind ind => (v.erase_ind h ind).void
  | .erase_pos pos => (v.erase_pos h pos).void
  | .clear => v.clear h

/-- The states of a vector object reachable from a constructor through the
public operations, whatever else happens on the heap in between: the default
constructor, the copy constructor from a reachable vector, assignment from a
reachable vector, and every operation of `Op` with any arguments, as long as
the call returns normally or raises. -/
inductive Reachable (A : Allocator) (T : Type) : vector → Prop where
  | new (h : Heap T) : Reachable A T (vector.new A h).2
  | copy (h h1 : Heap T) (other v : vector) :
      Reachable A T other → other.copy A h = .ok (h1, v) → Reachable A T v
  | assign (h : Heap T) (v other : vector) (same : Bool) :
      Reachable A T v → Reachable A T other → Defined (v.assign A h other same).result →
      Reachable A T (v.assign A h other same).self
  | step (h : Heap T) (v : vector) (op : Op T) :
      Reachable A T v → Defined (op.run A h v).result → Reachable A T (op.run A h v).self

/-- The growth law between the object `v` before an insertion and the object `w`
after it: a full vector doubles its capacity, any other keeps capacity and buffer. -/
def GrowthLaw (v w : vector) : Prop :=
  (v.size = v.maxSize → w.maxSize = 2 * v.maxSize) ∧
  (v.size < v.maxSize → w.maxSize = v.maxSize ∧ w.storage = v.storage ∧ w.begin = v.begin)

/-- The heap `g` differs from the heap `h` at most in the slots of block `p`. -/
def Only (p : Nat) (h g : Heap T) : Prop :=
  g.live = h.live ∧ ∀ q, q ≠ p → g.blk q = h.blk q

/-- Every block in use other than `p` is still in use and untouched. -/
def Frame (h h1 : Heap T) (p : Nat) : Prop :=
  ∀ q, q ∈ h.live → q ≠ p → q ∈ h1.live ∧ h1.blk q = h.blk q

/-- A call on the vector `v` that left `o` kept away from the other blocks in
use: they are still in use and untouched, and the buffer of `v` afterwards is
none of them. -/
def Away {α : Type} (h : Heap T) (v : vector) (o : Outcome T α) : Prop :=
  Frame h o.heap v.storage ∧ ∀ q, q ∈ h.live → q ≠ v.storage → q ≠ o.self.storage

/-- Run a list of operations on a vector, one after the other, whatever they return. -/
def runAll (A : Allocator) : List (Op T) → Heap T → vector → Heap T × vector
  | [], h, v => (h, v)
  | op :: ops, h, v => runAll A ops (op.run A h v).heap (op.run A h v).self

/-- The sequence observed through `at(0)`, ..., `at(size() - 1)`. -/
def vector.contents (h : Heap T) (v : vector) : List (Except Fault T) :=
  (List.range v.size).map (fun i => (v.at_ h i).result)

/-- Run `f` on the state left by `o`, unless `o` raised. -/
def Outcome.next {α β : Type} (o : Outcome T α) (f : Heap T → vector → Outcome T β) :
    Outcome T β :=
  match o.result with
  | .ok _ => f o.heap o.self
  | .error e => ⟨.error e, o.heap, o.self⟩

/-- `push_back` of the elements of a list, in order. -/
def pushAll (A : Allocator) : List T → Heap T → vector → Outcome T Unit
  | [], h, v => ⟨.ok (), h, v⟩
  | x :: xs, h, v => (v.push_back A h (.val x)).next (pushAll A xs)

/-- The scenario `push_back(1)`, `push_back(2)`, `push_back(3)`, `insert(1, 9)`,
`erase(0)` on a freshly constructed vector. -/
def scenario (A : Allocator) (h : Heap Nat) : Outcome Nat iterator :=
  ((((((vector.new A h).2.push_back A (vector.new A h).1 (.val 1)).next
    (fun g v => v.push_back A g (.val 2))).next
    (fun g v => v.push_back A g (.val 3))).next
    (fun g v => v.insert_ind A g (.val 1) (.val 9))).next
    (fun g v => v.erase_ind g (.val 0)))

/-- A heap without blocks. -/
def emptyHeap : Heap Nat := { live := [], blk := fun _ => { cap := 0, cells := fun _ => none } }

/-- The run `vector<int> v; v.push_back(x)` for each `x` of `xs`, on the empty
heap with the concrete allocator. -/
def built (xs : List Nat) : Outcome Nat Unit :=
  pushAll bumpAllocator xs (vector.new bumpAllocator emptyHeap).1
    (vector.new bumpAllocator emptyHeap).2

/-- A heap whose only block, at address 1, has ten slots and holds 1, 2, 3. -/
def heap3 : Heap Nat :=
  { live := [1]
    blk := fun _ => { cap := 10, cells := fun i => if i < 3 then some (i + 1) else none } }

/-- The vector of `heap3`. -/
def vec3 : vector := { storage := 1, curSize := 3, maxSize := 10 }

/-- A heap whose only block, at address 1, has ten slots and holds 7. -/
def heap1 : Heap Nat :=
  { live := [1]
    blk := fun _ => { cap := 10, cells := fun i => if i < 1 then some 7 else none } }

/-- The vector of `heap1`. -/
def vec1 : vector := { storage := 1, curSize := 1, maxSize := 10 }

/-- A heap with two blocks of ten slots: block 1 holds 1, 2, 3 and block 2 holds 5. -/
def heap2 : Heap Nat :=
  { live := [1, 2]
    blk := fun q =>
      if q = 2 then { cap := 10, cells := fun i => if i < 1 then some 5 else none }
      else { cap := 10, cells := fun i => if i < 3 then some (i + 1) else none } }

/-- The second vector of `heap2`; the first one is `vec3`. -/
def vecB : vector := { storage := 2, curSize := 1, maxSize := 10 }

/-- A heap whose only block, at address 1, has `10 * 2 ^ 28` slots (the capacity
after 28 doublings) and holds 0, 1, ..., `n - 1`. -/
def heapN (n : Nat) : Heap Nat :=
  { live := [1]
    blk := fun _ => { cap := 10 * 2 ^ 28, cells := fun i => if i < n then some i else none } }

/-- The vector of `heapN n`. -/
def vecN (n : Nat) : vector := { storage := 1, curSize := n, maxSize := 10 * 2 ^ 28 }

/-- The call `v.insert(0, v[2])` on the vector `v` left by `push_back(1)`,
`push_back(2)`, `push_back(3)`: `value` is bound to slot 2 of the buffer of `v`. -/
def insertAliased : Outcome Nat iterator :=
  (built [1, 2, 3]).self.insert_ind bumpAllocator (built [1, 2, 3]).heap (.val 0)
    (.ref (built [1, 2, 3]).self.storage 2)

/-- The call `v.insert(v.begin(), v[2])` on the same vector. -/
def insertAliasedPos : Outcome Nat iterator :=
  (built [1, 2, 3]).self.insert_pos bumpAllocator (built [1, 2, 3]).heap
    (built [1, 2, 3]).self.begin (.ref (built [1, 2, 3]).self.storage 2)

/-- The call `v.insert(0, v[2])` on the full vector `v` left by ten `push_back`
calls: `value` is bound to slot 2 of the buffer of `v`. -/
def insertAliasedFull : Outcome Nat iterator :=
  (built (List.range 10)).self.insert_ind bumpAllocator (built (List.range 10)).heap (.val 0)
    (.ref (built (List.range 10)).self.storage 2)

/-- The call `v.erase(v[0])` on the `vector<size_t>` `v` left by `push_back(0)`,
`push_back(5)`, `push_back(6)`: `ind` is bound to slot 0 of the buffer of `v`. -/
def eraseAliased : Outcome Nat iterator :=
  (built [0, 5, 6]).self.erase_ind (built [0, 5, 6]).heap
    (.ref (built [0, 5, 6]).self.storage 0 id)

/-- The call `v.insert(v.begin(), 7)` on the vector of `heapN (2 ^ 31)`. -/
def insertLargePos : Outcome Nat iterator :=
  (vecN (2 ^ 31)).insert_pos bumpAllocator (heapN (2 ^ 31)) (vecN (2 ^ 31)).begin (.val 7)

/-- The call `v.insert(0, 7)` on the vector of `heapN (2 ^ 31)`. -/
def insertLarge : Outcome Nat iterator :=
  (vecN (2 ^ 31)).insert_ind bumpAllocator (heapN (2 ^ 31)) (.val 0) (.val 7)

/-- The call `v.erase(2 ^ 31 + 1)` on the vector of `heapN (2 ^ 31 + 5)`. -/
def eraseLarge : Outcome Nat iterator :=
  (vecN (2 ^ 31 + 5)).erase_ind (heapN (2 ^ 31 + 5)) (.val (2 ^ 31 + 1))

/-- The call `v.erase(v.begin() + 0)` on the vector of `heapN (2 ^ 31 + 5)`. -/
def eraseLargePos : Outcome Nat iterator :=
  (vecN (2 ^ 31 + 5)).erase_pos (heapN (2 ^ 31 + 5)) ((vecN (2 ^ 31 + 5)).begin.add 0)

/-! ## What a vector holds -/

/-- Block `p` of the heap with its slots replaced by `f`. -/
def Heap.withCells (h : Heap T) (p : Nat) (f : Nat → Option T) : Heap T :=
  { live := h.live
    blk := fun q => if q = p then { cap := (h.blk p).cap, cells := f } else h.blk q }

/-- The vector `v` is well formed in the heap `h` and holds the sequence `xs`:
its block is allocated with `maxSize` slots, `maxSize` is positive and a value
of `size_t`, and the first `curSize` slots hold the elements of `xs` in order. -/
structure Holds (h : Heap T) (v : vector) (xs : List T) : Prop where
  live : v.storage ∈ h.live
  cap : (h.blk v.storage).cap = v.maxSize
  size : v.curSize = xs.length
  le : v.curSize ≤ v.maxSize
  pos : 0 < v.maxSize
  fits : v.maxSize < 2 ^ 64
  cells : ∀ i, i < xs.length → (h.blk v.storage).cells i = xs[i]?

/-- Slots of a block after the slots `k .. n - 1` moved up by one. -/
def shiftUp (c : Nat → Option T) (k n : Nat) : Nat → Option T :=
  fun j => if k < j ∧ j ≤ n then c (j - 1) else c j

/-- Slots of a block after the slots `k + 1 .. m` moved down by one. -/
def shiftDown (c : Nat → Option T) (k m : Nat) : Nat → Option T :=
  fun j => if k ≤ j ∧ j < m then c (j + 1) else c j

/-- Slots of a block after slot `i` was overwritten with `x`. -/
def setCell (c : Nat → Option T) (i : Nat) (x : Option T) : Nat → Option T :=
  fun j => if j = i then x else c j

/-- Slots of a block after its first `m` slots were copied from the slots `src`. -/
def copyCells (src c : Nat → Option T) (m : Nat) : Nat → Option T :=
  fun j => if j < m then src j else c j

/-- Slots of a block after the elements in its first `m` slots were destroyed. -/
def clearCells (c : Nat → Option T) (m : Nat) : Nat → Option T :=
  fun j => if j < m then none else c j

/-- Slots of a block of `n` elements after `x` was inserted before slot `k`. -/
def insertCells (c : Nat → Option T) (k n : Nat) (x : T) : Nat → Option T :=
  setCell (shiftUp (setCell c n (some x)) k n) k (some x)

/-- Slots of a block of `n` elements after the element in slot `k` was erased. -/
def eraseCells (c : Nat → Option T) (k n : Nat) : Nat → Option T :=
  setCell (shiftDown c k (n - 1)) (n - 1) none

/-- Postcondition of an insertion of `x` at index `k` into a vector `v` holding `xs`. -/
def InsertedAt (h : Heap T) (v : vector) (xs : List T) (k : Nat) (x : T)
    (o : Outcome T iterator) : Prop :=
  (∃ it, o.result = .ok it) ∧
  Holds o.heap o.self (xs.take k ++ [x] ++ xs.drop k) ∧
  o.self.size = v.size + 1 ∧
  (o.self.at_ o.heap k).result = .ok x ∧
  (∀ i, i < k → (o.self.at_ o.heap i).result = (v.at_ h i).result) ∧
  (∀ i, k ≤ i → i < v.size → (o.self.at_ o.heap (i + 1)).result = (v.at_ h i).result)

/-- Postcondition of the removal of the element at index `k` of a vector `v` holding `xs`. -/
def ErasedAt (h : Heap T) (v : vector) (xs : List T) (k : Nat)
    (o : Outcome T iterator) : Prop :=
  (∃ it, o.result = .ok it) ∧
  Holds o.heap o.self (xs.eraseIdx k) ∧
  o.self.size + 1 = v.size ∧
  (∀ i, i < k → (o.self.at_ o.heap i).result = (v.at_ h i).result) ∧
  (∀ i, k < i → i < v.size → (o.self.at_ o.heap (i - 1)).result = (v.at_ h i).result)

/-- The vector `b`, which held `ys` in the heap `h`, is not affected by a call on
another vector that left `o`: it still holds `ys`, reads the same, and does
not share its buffer with the other vector. -/
def Independent {α : Type} (h : Heap T) (b : vector) (ys : List T) (o : Outcome T α) : Prop :=
  Holds o.heap b ys ∧ b.contents o.heap = b.contents h ∧ b.storage ≠ o.self.storage

/-- The vector `b` is a deep copy of the vector `a`, which held `xs` in the heap
`h`: in the heap `h1` both hold `xs` in different buffers, `b` has the size and
the capacity of `a`, and `a` reads as before. -/
def DeepCopy (h : Heap T) (a : vector) (xs : List T) (h1 : Heap T) (b : vector) : Prop :=
  b.size = a.size ∧ b.maxSize = a.maxSize ∧ Holds h1 b xs ∧ Holds h1 a xs ∧
  b.storage ≠ a.storage ∧ b.contents h1 = a.contents h ∧ a.contents h1 = a.contents h

/-! ## Machine integers: facts -/

theorem toInt_of_lt {n : Nat} (h : n < 2 ^ 31) : toInt n = (n : Int) := by
  unfold toInt
  have h1 : n % 2 ^ 32 = n := Nat.mod_eq_of_lt (by omega)
  rw [h1, if_pos h]

theorem toSize_natCast {n : Nat} (h : n < 2 ^ 64) : toSize (n : Int) = n := by
  unfold toSize
  have : ((n : Int) % 2 ^ 64) = (n : Int) := Int.emod_eq_of_lt (by omega) (by omega)
  rw [this]; simp

theorem toSize_of_nonneg {i : Int} (h0 : 0 ≤ i) (h1 : i < 2 ^ 31) : toSize i = i.toNat := by
  unfold toSize
  have : i % 2 ^ 64 = i := Int.emod_eq_of_lt h0 (by omega)
  rw [this]

theorem subSize_of_le {a b : Nat} (hb : b ≤ a) (ha : a < 2 ^ 64) : subSize a b = a - b := by
  unfold subSize
  have h1 : a % 2 ^ 64 = a := Nat.mod_eq_of_lt ha
  have h2 : b % 2 ^ 64 = b := Nat.mod_eq_of_lt (by omega)
  rw [h1, h2]
  have : a + (2 ^ 64 - b) = (a - b) + 2 ^ 64 := by omega
  rw [this, Nat.add_mod_right]
  exact Nat.mod_eq_of_lt (by omega)

theorem wrapSize_of_lt {n : Nat} (h : n < 2 ^ 64) : wrapSize n = n := Nat.mod_eq_of_lt h

theorem upTo_succ {i : Int} (h : i < 2 ^ 31) : upTo i = upTo (i + 1) + 1 := by
  unfold upTo; omega

theorem downTo_succ {i : Int} (h : -2 ^ 31 ≤ i) : downTo i = downTo (i - 1) + 1 := by
  unfold downTo; omega

/-! ## Memory: facts -/

theorem Heap.store_eq_withCells (h : Heap T) (p i : Nat) (c : Option T) :
    h.store p i c = h.withCells p (setCell (h.blk p).cells i c) := rfl

@[simp] theorem Heap.withCells_live (h : Heap T) (p : Nat) (f : Nat → Option T) :
    (h.withCells p f).live = h.live := rfl

@[simp] theorem Heap.withCells_blk_self (h : Heap T) (p : Nat) (f : Nat → Option T) :
    (h.withCells p f).blk p = { cap := (h.blk p).cap, cells := f } := by
  simp [Heap.withCells]

theorem Heap.withCells_blk_other (h : Heap T) {p q : Nat} (f : Nat → Option T) (hq : q ≠ p) :
    (h.withCells p f).blk q = h.blk q := by
  simp [Heap.withCells, hq]

@[simp] theorem Heap.withCells_withCells (h : Heap T) (p : Nat) (f g : Nat → Option T) :
    (h.withCells p f).withCells p g = h.withCells p g := by
  unfold Heap.withCells
  congr 1
  funext q
  by_cases hq : q = p <;> simp [hq]

theorem Heap.inBounds_iff (h : Heap T) (p : Nat) (i : Int) :
    h.inBounds p i = true ↔ p ∈ h.live ∧ 0 ≤ i ∧ i < ((h.blk p).cap : Int) := by
  simp [Heap.inBounds, and_assoc]

theorem Heap.read_ok (h : Heap T) {p : Nat} {i : Int} {x : T}
    (hb : h.inBounds p i = true) (hx : (h.blk p).cells i.toNat = some x) :
    h.read p i = .ok x := by
  simp [Heap.read, hb, hx]

theorem Heap.construct_ok (h : Heap T) {p : Nat} {i : Int} (x : T)
    (hb : h.inBounds p i = true) :
    h.construct p i x
      = .ok (h.withCells p (setCell (h.blk p).cells i.toNat (some x))) := by
  simp [Heap.construct, hb, Heap.store_eq_withCells]

theorem Heap.assign_ok (h : Heap T) {p : Nat} {i : Int} {y : T} (x : T)
    (hb : h.inBounds p i = true) (hy : (h.blk p).cells i.toNat = some y) :
    h.assign p i x
      = .ok (h.withCells p (setCell (h.blk p).cells i.toNat (some x))) := by
  simp [Heap.assign, hb, hy, Heap.store_eq_withCells]

theorem Heap.destroy_ok (h : Heap T) {p : Nat} {i : Int} {y : T}
    (hb : h.inBounds p i = true) (hy : (h.blk p).cells i.toNat = some y) :
    h.destroy p i
      = .ok (h.withCells p (setCell (h.blk p).cells i.toNat none)) := by
  simp [Heap.destroy, hb, hy, Heap.store_eq_withCells]

/-! ## Counting loops: invariant rules -/

/-- Invariant rule for an upward loop whose condition fails at the latest at `b`. -/
theorem forUp_inv (cond : Int → Bool) (body : Int → Heap T → Except Fault (Heap T))
    (Inv : Int → Heap T → Prop) (b : Int) (hb : b < 2 ^ 31)
    (hstep : ∀ i h, Inv i h → i ≤ b → cond i = true →
      i < b ∧ ∃ h1, body i h = .ok h1 ∧ Inv (i + 1) h1) :
    ∀ (n : Nat) (i : Int) (h : Heap T), i ≤ b → b - i = (n : Int) → Inv i h →
      ∃ j h1, forUp cond body (upTo i) i h = .ok h1 ∧ Inv j h1 ∧ cond j = false ∧
        i ≤ j ∧ j ≤ b := by
  intro n
  induction n with
  | zero =>
    intro i h hib hn hinv
    rw [upTo_succ (by omega)]
    cases hc : cond i with
    | false => exact ⟨i, h, by simp [forUp, hc], hinv, hc, le_refl _, hib⟩
    | true =>
      have := (hstep i h hinv hib hc).1
      omega
  | succ n ih =>
    intro i h hib hn hinv
    rw [upTo_succ (by omega)]
    cases hc : cond i with
    | false => exact ⟨i, h, by simp [forUp, hc], hinv, hc, le_refl _, hib⟩
    | true =>
      obtain ⟨hlt, h1, hbody, hinv1⟩ := hstep i h hinv hib hc
      obtain ⟨j, h2, hrun, hj, hcj, hij, hjb⟩ := ih (i + 1) h1 (by omega) (by omega) hinv1
      exact ⟨j, h2, by simp [forUp, hc, hbody, hrun], hj, hcj, by omega, hjb⟩

/-- Invariant rule for a downward loop whose condition fails at the latest at `b`. -/
theorem forDown_inv (cond : Int → Bool) (body : Int → Heap T → Except Fault (Heap T))
    (Inv : Int → Heap T → Prop) (b : Int) (hb : -2 ^ 31 ≤ b)
    (hstep : ∀ i h, Inv i h → b ≤ i → cond i = true →
      b < i ∧ ∃ h1, body i h = .ok h1 ∧ Inv (i - 1) h1) :
    ∀ (n : Nat) (i : Int) (h : Heap T), b ≤ i → i - b = (n : Int) → Inv i h →
      ∃ j h1, forDown cond body (downTo i) i h = .ok h1 ∧ Inv j h1 ∧ cond j = false ∧
        b ≤ j ∧ j ≤ i := by
  intro n
  induction n with
  | zero =>
    intro i h hib hn hinv
    rw [downTo_succ (by omega)]
    cases hc : cond i with
    | false => exact ⟨i, h, by simp [forDown, hc], hinv, hc, hib, le_refl _⟩
    | true =>
      have := (hstep i h hinv hib hc).1
      omega
  | succ n ih =>
    intro i h hib hn hinv
    rw [downTo_succ (by omega)]
    cases hc : cond i with
    | false => exact ⟨i, h, by simp [forDown, hc], hinv, hc, hib, le_refl _⟩
    | true =>
      obtain ⟨hlt, h1, hbody, hinv1⟩ := hstep i h hinv hib hc
      obtain ⟨j, h2, hrun, hj, hcj, hij, hjb⟩ := ih (i - 1) h1 (by omega) (by omega) hinv1
      exact ⟨j, h2, by simp [forDown, hc, hbody, hrun], hj, hcj, hij, by omega⟩

theorem Heap.withCells_self (h : Heap T) (p : Nat) :
    h.withCells p (h.blk p).cells = h := by
  cases h with
  | mk live blk =>
    unfold Heap.withCells
    congr 1
    funext q
    by_cases hq : q = p <;> simp [hq]

theorem Heap.inBounds_withCells (h : Heap T) (p : Nat) (f : Nat → Option T) (q : Nat) (i : Int) :
    (h.withCells p f).inBounds q i = h.inBounds q i := by
  unfold Heap.inBounds
  by_cases hq : q = p
  · subst hq; simp
  · rw [Heap.withCells_blk_other h f hq]; simp

theorem Heap.inBounds_of (h : Heap T) {p : Nat} {i : Nat} (hp : p ∈ h.live)
    (hi : i < (h.blk p).cap) : h.inBounds p (i : Int) = true := by
  rw [Heap.inBounds_iff]
  exact ⟨hp, by omega, by omega⟩

/-- The loop of `insert`: `for (i = n; i > k; --i) p[i] = p[i - 1];`. -/
theorem insert_loop (h : Heap T) (p n k : Nat) (cond : Int → Bool)
    (hcond : ∀ m : Nat, m ≤ n → (cond (m : Int) = true ↔ k < m))
    (hp : p ∈ h.live) (hn : n < (h.blk p).cap) (hk : k ≤ n)
    (hc : ∀ j, j ≤ n → ∃ y, (h.blk p).cells j = some y) :
    forDown cond (fun i g => match g.read p (i - 1) with
        | .ok x => g.assign p i x
        | .error e => .error e) (downTo (n : Int)) (n : Int) h
      = .ok (h.withCells p (shiftUp (h.blk p).cells k n)) := by
  have hstep : ∀ (i : Int) (g : Heap T),
      (∃ m : Nat, i = (m : Int) ∧ k ≤ m ∧ m ≤ n ∧
        g = h.withCells p (shiftUp (h.blk p).cells m n)) →
      (k : Int) ≤ i → cond i = true →
      (k : Int) < i ∧ ∃ g1, (match g.read p (i - 1) with
        | .ok x => g.assign p i x
        | .error e => .error e) = .ok g1 ∧
        (∃ m : Nat, i - 1 = (m : Int) ∧ k ≤ m ∧ m ≤ n ∧
          g1 = h.withCells p (shiftUp (h.blk p).cells m n)) := by
    rintro i g ⟨m, rfl, hkm, hmn, rfl⟩ _ hci
    have hlt := (hcond m hmn).1 hci
    refine ⟨by omega, ?_⟩
    obtain ⟨y, hy⟩ := hc (m - 1) (by omega)
    obtain ⟨z, hz⟩ := hc m hmn
    have e0 : ((m : Int) - 1) = ((m - 1 : Nat) : Int) := by omega
    have hr : (h.withCells p (shiftUp (h.blk p).cells m n)).read p ((m : Int) - 1) = .ok y := by
      rw [e0]
      apply Heap.read_ok
      · rw [Heap.inBounds_withCells]; exact Heap.inBounds_of h hp (by omega)
      · simp only [Heap.withCells_blk_self, Int.toNat_ofNat, shiftUp]
        rw [if_neg (by omega)]; exact hy
    have ha : (h.withCells p (shiftUp (h.blk p).cells m n)).assign p (m : Int) y
        = .ok (h.withCells p (shiftUp (h.blk p).cells (m - 1) n)) := by
      rw [Heap.assign_ok (y := z)]
      · rw [Heap.withCells_withCells]
        congr 2
        funext j
        simp only [Heap.withCells_blk_self, Int.toNat_ofNat, shiftUp, setCell]
        by_cases hj : j = m
        · subst hj
          rw [if_pos rfl, if_pos (by omega)]; exact hy.symm
        · rw [if_neg hj]
          by_cases hj2 : m < j ∧ j ≤ n
          · rw [if_pos hj2, if_pos (by omega)]
          · rw [if_neg hj2, if_neg (by omega)]
      · rw [Heap.inBounds_withCells]; exact Heap.inBounds_of h hp (by omega)
      · simp only [Heap.withCells_blk_self, Int.toNat_ofNat, shiftUp]
        rw [if_neg (by omega)]; exact hz
    rw [hr]
    exact ⟨_, ha, m - 1, by omega, by omega, by omega, rfl⟩
  have hinit : ∃ m : Nat, (n : Int) = (m : Int) ∧ k ≤ m ∧ m ≤ n ∧
      h = h.withCells p (shiftUp (h.blk p).cells m n) := by
    refine ⟨n, rfl, hk, le_refl _, ?_⟩
    have : shiftUp (h.blk p).cells n n = (h.blk p).cells := by
      funext j
      unfold shiftUp
      rw [if_neg (by omega)]
    rw [this, Heap.withCells_self]
  obtain ⟨j, g1, hrun, ⟨m, rfl, hkm, hmn, rfl⟩, hcj, _, _⟩ :=
    forDown_inv cond _ _ (k : Int) (by omega) hstep (n - k) (n : Int) h (by omega) (by omega)
      hinit
  rw [hrun]
  have h1 : ¬ k < m := by
    rw [← hcond m hmn]; simp [hcj]
  have h2 : m = k := by omega
  subst h2; rfl

/-- The loop of `erase`: `for (i = k; i < n - 1; ++i) p[i] = p[i + 1];`. -/
theorem erase_loop (h : Heap T) (p n k : Nat) (cond : Int → Bool)
    (hcond : ∀ m : Nat, m < n → (cond (m : Int) = true ↔ m + 1 < n))
    (hp : p ∈ h.live) (hn : n ≤ (h.blk p).cap) (hn31 : n ≤ 2 ^ 31) (hk : k < n)
    (hc : ∀ j, j < n → ∃ y, (h.blk p).cells j = some y) :
    forUp cond (fun i g => match g.read p (i + 1) with
        | .ok x => g.assign p i x
        | .error e => .error e) (upTo (k : Int)) (k : Int) h
      = .ok (h.withCells p (shiftDown (h.blk p).cells k (n - 1))) := by
  have hstep : ∀ (i : Int) (g : Heap T),
      (∃ m : Nat, i = (m : Int) ∧ k ≤ m ∧ m < n ∧
        g = h.withCells p (shiftDown (h.blk p).cells k m)) →
      i ≤ ((n - 1 : Nat) : Int) → cond i = true →
      i < ((n - 1 : Nat) : Int) ∧ ∃ g1, (match g.read p (i + 1) with
        | .ok x => g.assign p i x
        | .error e => .error e) = .ok g1 ∧
        (∃ m : Nat, i + 1 = (m : Int) ∧ k ≤ m ∧ m < n ∧
          g1 = h.withCells p (shiftDown (h.blk p).cells k m)) := by
    rintro i g ⟨m, rfl, hkm, hmn, rfl⟩ _ hci
    have hlt := (hcond m hmn).1 hci
    refine ⟨by omega, ?_⟩
    obtain ⟨y, hy⟩ := hc (m + 1) hlt
    obtain ⟨z, hz⟩ := hc m hmn
    have e0 : ((m : Int) + 1) = ((m + 1 : Nat) : Int) := by omega
    have hr : (h.withCells p (shiftDown (h.blk p).cells k m)).read p ((m : Int) + 1)
        = .ok y := by
      rw [e0]
      apply Heap.read_ok
      · rw [Heap.inBounds_withCells]; exact Heap.inBounds_of h hp (by omega)
      · simp only [Heap.withCells_blk_self, Int.toNat_ofNat, shiftDown]
        rw [if_neg (by omega)]; exact hy
    have ha : (h.withCells p (shiftDown (h.blk p).cells k m)).assign p (m : Int) y
        = .ok (h.withCells p (shiftDown (h.blk p).cells k (m + 1))) := by
      rw [Heap.assign_ok (y := z)]
      · rw [Heap.withCells_withCells]
        congr 2
        funext j
        simp only [Heap.withCells_blk_self, Int.toNat_ofNat, shiftDown, setCell]
        by_cases hj : j = m
        · subst hj
          rw [if_pos rfl, if_pos (by omega)]; exact hy.symm
        · rw [if_neg hj]
          by_cases hj2 : k ≤ j ∧ j < m
          · rw [if_pos hj2, if_pos (by omega)]
          · rw [if_neg hj2, if_neg (by omega)]
      · rw [Heap.inBounds_withCells]; exact Heap.inBounds_of h hp (by omega)
      · simp only [Heap.withCells_blk_self, Int.toNat_ofNat, shiftDown]
        rw [if_neg (by omega)]; exact hz
    rw [hr]
    exact ⟨_, ha, m + 1, by omega, by omega, by omega, rfl⟩
  have hinit : ∃ m : Nat, (k : Int) = (m : Int) ∧ k ≤ m ∧ m < n ∧
      h = h.withCells p (shiftDown (h.blk p).cells k m) := by
    refine ⟨k, rfl, le_refl _, hk, ?_⟩
    have : shiftDown (h.blk p).cells k k = (h.blk p).cells := by
      funext j
      unfold shiftDown
      rw [if_neg (by omega)]
    rw [this, Heap.withCells_self]
  obtain ⟨j, g1, hrun, ⟨m, rfl, hkm, hmn, rfl⟩, hcj, _, _⟩ :=
    forUp_inv cond _ _ ((n - 1 : Nat) : Int) (by omega) hstep (n - 1 - k) (k : Int) h
      (by omega) (by omega) hinit
  rw [hrun]
  have h1 : ¬ m + 1 < n := by
    rw [← hcond m hmn]; simp [hcj]
  have h2 : m = n - 1 := by omega
  subst h2; rfl

theorem cond_lt_iff {n : Nat} (hn : n < 2 ^ 31) (m : Nat) (hm : m ≤ n) :
    decide (toSize (m : Int) < n) = true ↔ m < n := by
  rw [toSize_natCast (by omega)]; simp

/-- The first loop of `doubleSpace`:
`for (i = 0; i < n; ++i) construct(q + i, p[i]);`. -/
theorem copy_loop (h : Heap T) (p q n : Nat) (hp : p ∈ h.live) (hq : q ∈ h.live)
    (hpq : p ≠ q) (hnp : n ≤ (h.blk p).cap) (hnq : n ≤ (h.blk q).cap) (hn31 : n < 2 ^ 31)
    (hc : ∀ j, j < n → ∃ y, (h.blk p).cells j = some y) :
    forUp (fun i => decide (toSize i < n)) (fun i g => match g.read p i with
        | .ok x => g.construct q i x
        | .error e => .error e) (upTo 0) 0 h
      = .ok (h.withCells q (copyCells (h.blk p).cells (h.blk q).cells n)) := by
  have hstep : ∀ (i : Int) (g : Heap T),
      (∃ m : Nat, i = (m : Int) ∧ m ≤ n ∧
        g = h.withCells q (copyCells (h.blk p).cells (h.blk q).cells m)) →
      i ≤ (n : Int) → decide (toSize i < n) = true →
      i < (n : Int) ∧ ∃ g1, (match g.read p i with
        | .ok x => g.construct q i x
        | .error e => .error e) = .ok g1 ∧
        (∃ m : Nat, i + 1 = (m : Int) ∧ m ≤ n ∧
          g1 = h.withCells q (copyCells (h.blk p).cells (h.blk q).cells m)) := by
    rintro i g ⟨m, rfl, hmn, rfl⟩ _ hci
    have hlt := (cond_lt_iff hn31 m hmn).1 hci
    refine ⟨by omega, ?_⟩
    obtain ⟨y, hy⟩ := hc m hlt
    have hr : (h.withCells q (copyCells (h.blk p).cells (h.blk q).cells m)).read p (m : Int)
        = .ok y := by
      apply Heap.read_ok
      · rw [Heap.inBounds_withCells]; exact Heap.inBounds_of h hp (by omega)
      · rw [Heap.withCells_blk_other h _ hpq]; simpa using hy
    have ha : (h.withCells q (copyCells (h.blk p).cells (h.blk q).cells m)).construct q
        (m : Int) y = .ok (h.withCells q (copyCells (h.blk p).cells (h.blk q).cells (m + 1))) := by
      rw [Heap.construct_ok]
      · rw [Heap.withCells_withCells]
        congr 2
        funext j
        simp only [Heap.withCells_blk_self, Int.toNat_ofNat, copyCells, setCell]
        by_cases hj : j = m
        · subst hj
          rw [if_pos rfl, if_pos (by omega)]; exact hy.symm
        · rw [if_neg hj]
          by_cases hj2 : j < m
          · rw [if_pos hj2, if_pos (by omega)]
          · rw [if_neg hj2, if_neg (by omega)]
      · rw [Heap.inBounds_withCells]; exact Heap.inBounds_of h hq (by omega)
    rw [hr]
    exact ⟨_, ha, m + 1, by omega, by omega, rfl⟩
  have hinit : ∃ m : Nat, (0 : Int) = (m : Int) ∧ m ≤ n ∧
      h = h.withCells q (copyCells (h.blk p).cells (h.blk q).cells m) := by
    refine ⟨0, rfl, Nat.zero_le _, ?_⟩
    have : copyCells (h.blk p).cells (h.blk q).cells 0 = (h.blk q).cells := by
      funext j
      unfold copyCells
      rw [if_neg (by omega)]
    rw [this, Heap.withCells_self]
  obtain ⟨j, g1, hrun, ⟨m, rfl, hmn, rfl⟩, hcj, _, _⟩ :=
    forUp_inv _ _ _ (n : Int) (by omega) hstep n 0 h (by omega) (by omega) hinit
  rw [hrun]
  have h1 : ¬ m < n := by
    rw [← cond_lt_iff hn31 m hmn]; simp [hcj]
  have h2 : m = n := by omega
  subst h2; rfl

/-- The second loop of `doubleSpace`: `for (i = 0; i < n; ++i) destroy(p + i);`. -/
theorem destroy_loop (h : Heap T) (p n : Nat) (hp : p ∈ h.live)
    (hnp : n ≤ (h.blk p).cap) (hn31 : n < 2 ^ 31)
    (hc : ∀ j, j < n → ∃ y, (h.blk p).cells j = some y) :
    forUp (fun i => decide (toSize i < n)) (fun i g => g.destroy p i) (upTo 0) 0 h
      = .ok (h.withCells p (clearCells (h.blk p).cells n)) := by
  have hstep : ∀ (i : Int) (g : Heap T),
      (∃ m : Nat, i = (m : Int) ∧ m ≤ n ∧
        g = h.withCells p (clearCells (h.blk p).cells m)) →
      i ≤ (n : Int) → decide (toSize i < n) = true →
      i < (n : Int) ∧ ∃ g1, g.destroy p i = .ok g1 ∧
        (∃ m : Nat, i + 1 = (m : Int) ∧ m ≤ n ∧
          g1 = h.withCells p (clearCells (h.blk p).cells m)) := by
    rintro i g ⟨m, rfl, hmn, rfl⟩ _ hci
    have hlt := (cond_lt_iff hn31 m hmn).1 hci
    refine ⟨by omega, ?_⟩
    obtain ⟨y, hy⟩ := hc m hlt
    have ha : (h.withCells p (clearCells (h.blk p).cells m)).destroy p (m : Int)
        = .ok (h.withCells p (clearCells (h.blk p).cells (m + 1))) := by
      rw [Heap.destroy_ok (y := y)]
      · rw [Heap.withCells_withCells]
        congr 2
        funext j
        simp only [Heap.withCells_blk_self, Int.toNat_ofNat, clearCells, setCell]
        by_cases hj : j = m
        · subst hj
          rw [if_pos rfl, if_pos (by omega)]
        · rw [if_neg hj]
          by_cases hj2 : j < m
          · rw [if_pos hj2, if_pos (by omega)]
          · rw [if_neg hj2, if_neg (by omega)]
      · rw [Heap.inBounds_withCells]; exact Heap.inBounds_of h hp (by omega)
      · simp only [Heap.withCells_blk_self, Int.toNat_ofNat, clearCells]
        rw [if_neg (by omega)]; exact hy
    exact ⟨_, ha, m + 1, by omega, by omega, rfl⟩
  have hinit : ∃ m : Nat, (0 : Int) = (m : Int) ∧ m ≤ n ∧
      h = h.withCells p (clearCells (h.blk p).cells m) := by
    refine ⟨0, rfl, Nat.zero_le _, ?_⟩
    have : clearCells (h.blk p).cells 0 = (h.blk p).cells := by
      funext j
      unfold clearCells
      rw [if_neg (by omega)]
    rw [this, Heap.withCells_self]
  obtain ⟨j, g1, hrun, ⟨m, rfl, hmn, rfl⟩, hcj, _, _⟩ :=
    forUp_inv _ _ _ (n : Int) (by omega) hstep n 0 h (by omega) (by omega) hinit
  rw [hrun]
  have h1 : ¬ m < n := by
    rw [← cond_lt_iff hn31 m hmn]; simp [hcj]
  have h2 : m = n := by omega
  subst h2; rfl

theorem Holds.cell_some {h : Heap T} {v : vector} {xs : List T} (hv : Holds h v xs)
    {j : Nat} (hj : j < v.curSize) : ∃ y, (h.blk v.storage).cells j = some y := by
  have hj1 : j < xs.length := hv.size ▸ hj
  exact ⟨xs[j], by rw [hv.cells j hj1, List.getElem?_eq_getElem hj1]⟩

/-- Effect of `doubleSpace` on a full vector: a new block of twice the capacity
holds the same sequence, the old block is released, other blocks are untouched. -/
theorem doubleSpace_spec (A : Allocator) (hA : A.Fresh) (h : Heap T) (v : vector) (xs : List T)
    (hv : Holds h v xs) (hfull : v.curSize = v.maxSize) (h31 : v.curSize < 2 ^ 31) :
    ∃ h1, v.doubleSpace A h
        = .ok (h1, ⟨A h.live (v.maxSize * 2), v.curSize, v.maxSize * 2⟩) ∧
      Holds h1 ⟨A h.live (v.maxSize * 2), v.curSize, v.maxSize * 2⟩ xs ∧
      A h.live (v.maxSize * 2) ∉ h.live ∧
      h1.live = (A h.live (v.maxSize * 2) :: h.live).erase v.storage ∧
      (∀ q, q ≠ v.storage → q ≠ A h.live (v.maxSize * 2) → h1.blk q = h.blk q) := by
  have hw : wrapSize (v.maxSize * 2) = v.maxSize * 2 := wrapSize_of_lt (by omega)
  have hfresh : A h.live (v.maxSize * 2) ∉ h.live := hA _ _
  have hne : v.storage ≠ A h.live (v.maxSize * 2) := fun e => hfresh (e ▸ hv.live)
  generalize hq : A h.live (v.maxSize * 2) = q at hfresh hne ⊢
  -- the heap after `allocate`
  obtain ⟨g0, hg0⟩ : ∃ g0 : Heap T, g0 = (h.allocate A (v.maxSize * 2)).2 := ⟨_, rfl⟩
  have hg0live : g0.live = q :: h.live := by rw [hg0, ← hq]; rfl
  have hg0q : g0.blk q = { cap := v.maxSize * 2, cells := fun _ => none } := by
    rw [hg0, ← hq]; simp [Heap.allocate]
  have hg0o : ∀ r, r ≠ q → g0.blk r = h.blk r := by
    intro r hr; rw [hg0]; rw [← hq] at hr; simp [Heap.allocate, hr]
  have hg0p : g0.blk v.storage = h.blk v.storage := hg0o _ hne
  have hunf : v.doubleSpace A h =
      match forUp (fun i => decide (toSize i < v.curSize))
        (fun i g => match g.read v.storage i with
          | .ok x => g.construct q i x
          | .error e => .error e) (upTo 0) 0 g0 with
      | .error e => .error e
      | .ok h2 =>
        match forUp (fun i => decide (toSize i < v.curSize))
            (fun i g => g.destroy v.storage i) (upTo 0) 0 h2 with
        | .error e => .error e
        | .ok h3 =>
          match h3.deallocate v.storage v.curSize with
          | .error e => .error e
          | .ok h4 => .ok (h4, { storage := q, curSize := v.curSize, maxSize := v.maxSize * 2 }) := by
    rw [hg0, ← hq]
    unfold vector.doubleSpace
    rw [hw]
    rfl
  rw [hunf]
  have hcs : ∀ j, j < v.curSize → ∃ y, (g0.blk v.storage).cells j = some y := by
    intro j hj; rw [hg0p]; exact hv.cell_some hj
  have hne2 : q ≠ v.storage := fun e => hne e.symm
  have hm0 : v.storage ∈ g0.live := by
    rw [hg0live]; exact List.mem_cons_of_mem _ hv.live
  have hmq : q ∈ g0.live := by
    rw [hg0live]; exact List.mem_cons_self _ _
  rw [copy_loop g0 v.storage q v.curSize hm0 hmq hne
    (by rw [hg0p, hv.cap]; exact hv.le) (by rw [hg0q]; have := hv.le; simp; omega) h31 hcs]
  simp only
  rw [destroy_loop _ v.storage v.curSize (by rw [Heap.withCells_live]; exact hm0)
    (by rw [Heap.withCells_blk_other _ _ hne, hg0p, hv.cap]; exact hv.le) h31
    (by rw [Heap.withCells_blk_other _ _ hne]; exact hcs)]
  simp only
  have hd : ∀ g : Heap T, v.storage ∈ g.live → (g.blk v.storage).cap = v.curSize →
      g.deallocate v.storage v.curSize = .ok { live := g.live.erase v.storage, blk := g.blk } := by
    intro g h1 h2
    simp [Heap.deallocate, h1, h2]
  rw [hd _ (by simp only [Heap.withCells_live]; exact hm0)
    (by simp only [Heap.withCells_blk_self]; rw [Heap.withCells_blk_other _ _ hne, hg0p, hv.cap,
      hfull])]
  simp only
  refine ⟨_, rfl, ?_, hfresh, ?_, ?_⟩
  · constructor
    · simp only [Heap.withCells_live, hg0live]
      rw [List.erase_cons_tail (by simpa using hne2)]
      exact List.mem_cons_self _ _
    · simp only
      rw [Heap.withCells_blk_other _ _ hne2]
      simp [hg0q]
    · exact hv.size
    · have := hv.le; simp only; omega
    · have := hv.pos; simp only; omega
    · have := hv.le; simp only; omega
    · intro i hi
      simp only
      rw [Heap.withCells_blk_other _ _ hne2]
      simp only [Heap.withCells_blk_self, copyCells]
      rw [if_pos (by rw [hv.size]; exact hi), hg0p]
      exact hv.cells i hi
  · simp only [Heap.withCells_live, hg0live]
  · intro r hr1 hr2
    simp only
    rw [Heap.withCells_blk_other _ _ hr1, Heap.withCells_blk_other _ _ hr2]
    exact hg0o r hr2

/-- Effect of `if (curSize == maxSize) doubleSpace();`: afterwards there is a
free slot, and the sequence held is the same. -/
theorem growIfFull_spec (A : Allocator) (hA : A.Fresh) (h : Heap T) (v : vector) (xs : List T)
    (hv : Holds h v xs) (h31 : v.curSize < 2 ^ 31) :
    ∃ h1 v1, v.growIfFull A h = .ok (h1, v1) ∧ Holds h1 v1 xs ∧ v1.curSize = v.curSize ∧
      v1.curSize < v1.maxSize ∧
      ((v.curSize < v.maxSize ∧ h1 = h ∧ v1 = v) ∨
        (v.curSize = v.maxSize ∧ v1 = ⟨A h.live (v.maxSize * 2), v.curSize, v.maxSize * 2⟩ ∧
          A h.live (v.maxSize * 2) ∉ h.live ∧
          h1.live = (A h.live (v.maxSize * 2) :: h.live).erase v.storage ∧
          (∀ q, q ≠ v.storage → q ≠ A h.live (v.maxSize * 2) → h1.blk q = h.blk q))) := by
  by_cases hfull : v.curSize = v.maxSize
  · obtain ⟨h1, hrun, hh, hf, hl, hb⟩ := doubleSpace_spec A hA h v xs hv hfull h31
    refine ⟨h1, _, ?_, hh, rfl, ?_, Or.inr ⟨hfull, rfl, hf, hl, hb⟩⟩
    · unfold vector.growIfFull; rw [if_pos hfull]; exact hrun
    · have := hv.pos; simp only; omega
  · have hlt : v.curSize < v.maxSize := lt_of_le_of_ne hv.le hfull
    refine ⟨h, v, ?_, hv, rfl, hlt, Or.inl ⟨hlt, rfl, rfl⟩⟩
    unfold vector.growIfFull; rw [if_neg hfull]

theorem getElem?_insert (xs : List T) (k : Nat) (hk : k ≤ xs.length) (x : T) (j : Nat) :
    (xs.take k ++ x :: xs.drop k)[j]? =
      if j < k then xs[j]? else if j = k then some x else xs[j - 1]? := by
  have hl : (xs.take k).length = k := by simp [hk]
  by_cases h1 : j < k
  · rw [if_pos h1, List.getElem?_append_left (by omega), List.getElem?_take_of_lt h1]
  · rw [if_neg h1, List.getElem?_append_right (by omega), hl]
    by_cases h2 : j = k
    · subst h2; simp
    · rw [if_neg h2]
      obtain ⟨d, hd⟩ : ∃ d, j - k = d + 1 := ⟨j - k - 1, by omega⟩
      rw [hd, List.getElem?_cons_succ, List.getElem?_drop]
      congr 1; omega

theorem length_insert (xs : List T) (k : Nat) (hk : k ≤ xs.length) (x : T) :
    (xs.take k ++ x :: xs.drop k).length = xs.length + 1 := by
  simp; omega

/-- The statements of `insert` after the growth step, on a vector with a free slot. -/
theorem insert_steps (h : Heap T) (v : vector) (xs : List T) (hv : Holds h v xs)
    (hlt : v.curSize < v.maxSize) (k : Nat) (hk : k ≤ v.curSize) (x : T)
    (cond : Int → Bool)
    (hcond : ∀ m : Nat, m ≤ v.curSize → (cond (m : Int) = true ↔ k < m)) :
    h.construct v.storage (v.curSize : Int) x
        = .ok (h.withCells v.storage (setCell (h.blk v.storage).cells v.curSize (some x))) ∧
    forDown cond (fun i g => match g.read v.storage (i - 1) with
        | .ok y => g.assign v.storage i y
        | .error e => .error e) (downTo (v.curSize : Int)) (v.curSize : Int)
        (h.withCells v.storage (setCell (h.blk v.storage).cells v.curSize (some x)))
      = .ok (h.withCells v.storage
          (shiftUp (setCell (h.blk v.storage).cells v.curSize (some x)) k v.curSize)) ∧
    (h.withCells v.storage
        (shiftUp (setCell (h.blk v.storage).cells v.curSize (some x)) k v.curSize)).assign
        v.storage (k : Int) x
      = .ok (h.withCells v.storage (insertCells (h.blk v.storage).cells k v.curSize x)) ∧
    Holds (h.withCells v.storage (insertCells (h.blk v.storage).cells k v.curSize x))
      { v with curSize := v.curSize + 1 } (xs.take k ++ x :: xs.drop k) := by
  have hcap := hv.cap
  have hsz := hv.size
  have hcs : ∀ j, j ≤ v.curSize →
      ∃ y, setCell (h.blk v.storage).cells v.curSize (some x) j = some y := by
    intro j hj
    unfold setCell
    by_cases hjn : j = v.curSize
    · rw [if_pos hjn]; exact ⟨x, rfl⟩
    · rw [if_neg hjn]; exact hv.cell_some (by omega)
  refine ⟨?_, ?_, ?_, ?_⟩
  · rw [Heap.construct_ok _ _ (Heap.inBounds_of h hv.live (by omega))]
    simp
  · have := insert_loop (h.withCells v.storage
        (setCell (h.blk v.storage).cells v.curSize (some x))) v.storage v.curSize k cond hcond
      hv.live (by simp only [Heap.withCells_blk_self]; omega) hk
      (by simpa only [Heap.withCells_blk_self] using hcs)
    rw [this]
    simp only [Heap.withCells_blk_self, Heap.withCells_withCells]
  · obtain ⟨y, hy⟩ : ∃ y, shiftUp (setCell (h.blk v.storage).cells v.curSize (some x)) k
        v.curSize k = some y := by
      unfold shiftUp
      rw [if_neg (by omega)]
      exact hcs k hk
    rw [Heap.assign_ok (y := y) _ _
      (by rw [Heap.inBounds_withCells]; exact Heap.inBounds_of h hv.live (by omega))
      (by simpa using hy)]
    simp only [Heap.withCells_blk_self, Heap.withCells_withCells, Int.toNat_ofNat]
    rfl
  · constructor
    · exact hv.live
    · simpa using hcap
    · simp only [length_insert xs k (hsz ▸ hk) x]; omega
    · simp only; omega
    · exact hv.pos
    · exact hv.fits
    · intro j hj
      rw [length_insert xs k (hsz ▸ hk) x] at hj
      rw [getElem?_insert xs k (hsz ▸ hk) x j]
      simp only [Heap.withCells_blk_self, insertCells, setCell, shiftUp]
      by_cases h1 : j < k
      · rw [if_neg (by omega), if_neg (by omega), if_neg (by omega), if_pos h1]
        exact hv.cells j (by omega)
      · rw [if_neg h1]
        by_cases h2 : j = k
        · rw [if_pos h2, if_pos h2]
        · rw [if_neg h2, if_neg h2, if_pos (by omega), if_neg (by omega)]
          exact hv.cells (j - 1) (by omega)

theorem wrapInt_of_lt {k : Nat} (hk : k < 2 ^ 31) : wrapInt (k : Int) = (k : Int) := by
  unfold wrapInt
  have : ((k : Int) % 2 ^ 32).toNat = k := by omega
  rw [this, toInt_of_lt hk]

theorem begin_add_num (v : vector) {k : Nat} (hk : k < 2 ^ 31) :
    (v.begin.add (k : Int)).num = (k : Int) := by
  simp only [vector.begin, iterator.add, zero_add]
  exact wrapInt_of_lt hk

theorem begin_add_beg (v : vector) (n : Int) : (v.begin.add n).beg = v.storage := rfl

theorem arg_read_val (h : Heap T) (x : T) : Arg.read h (Arg.val x) = .ok x := rfl

theorem index_read_val (h : Heap T) (n : Nat) :
    Index.read h (Index.val n : Index T) = .ok n := rfl

/-- A loop whose test does not read the heap. -/
theorem forDownRead_pure (c : Int → Bool) (body : Int → Heap T → Except Fault (Heap T)) :
    forDownRead (fun i _ => .ok (c i)) body = forDown c body := by
  funext fuel
  induction fuel with
  | zero => rfl
  | succ n ih =>
    funext i h
    unfold forDownRead forDown
    cases hc : c i with
    | true =>
      simp only [if_true]
      cases hb : body i h with
      | ok h1 => simp only; rw [ih]
      | error e => rfl
    | false => simp

/-- Effect of `insert(ind, value)` for `ind ≤ size`, with arguments bound outside the heap. -/
theorem insert_ind_spec (A : Allocator) (hA : A.Fresh) (h : Heap T) (v : vector) (xs : List T)
    (hv : Holds h v xs) (h31 : v.curSize < 2 ^ 31) (k : Nat) (hk : k ≤ v.curSize) (x : T) :
    ∃ h1 v1, v.growIfFull A h = .ok (h1, v1) ∧ Holds h1 v1 xs ∧ v1.curSize = v.curSize ∧
      v.insert_ind A h (.val k) (.val x) =
        ⟨.ok ⟨v1.storage, (k : Int)⟩,
          h1.withCells v1.storage (insertCells (h1.blk v1.storage).cells k v.curSize x),
          { v1 with curSize := v.curSize + 1 }⟩ ∧
      Holds (h1.withCells v1.storage (insertCells (h1.blk v1.storage).cells k v.curSize x))
        { v1 with curSize := v.curSize + 1 } (xs.take k ++ x :: xs.drop k) := by
  obtain ⟨h1, v1, hgrow, hh1, hsz, hlt, _⟩ := growIfFull_spec A hA h v xs hv h31
  have hcond : ∀ m : Nat, m ≤ v1.curSize →
      ((fun i : Int => decide (toSize i > k)) (m : Int) = true ↔ k < m) := by
    intro m hm
    simp only [toSize_natCast (show m < 2 ^ 64 by omega), gt_iff_lt, decide_eq_true_eq]
  obtain ⟨e1, e2, e3, e4⟩ := insert_steps h1 v1 xs hh1 hlt k (hsz ▸ hk) x
    (fun i : Int => decide (toSize i > k)) hcond
  rw [hsz] at e4
  refine ⟨h1, v1, hgrow, hh1, hsz, ?_, e4⟩
  unfold vector.insert_ind
  simp only [Index.read, Arg.read]
  rw [if_neg (by omega), hgrow]
  simp only
  rw [forDownRead_pure (fun i : Int => decide (toSize i > k)),
    toInt_of_lt (show v1.curSize < 2 ^ 31 by omega), e1]
  simp only
  rw [e2]
  simp only
  rw [e3]
  simp only [Outcome.run]
  rw [wrapSize_of_lt (by omega), toInt_of_lt (by omega), hsz]

/-- Effect of `insert(pos, value)` for a cursor with offset `k ≤ size`, with `value` bound
outside the heap. -/
theorem insert_pos_spec (A : Allocator) (hA : A.Fresh) (h : Heap T) (v : vector) (xs : List T)
    (hv : Holds h v xs) (h31 : v.curSize < 2 ^ 31) (k : Nat) (hk : k ≤ v.curSize) (x : T)
    (pos : iterator) (hpos : pos.num = (k : Int)) :
    ∃ h1 v1, v.growIfFull A h = .ok (h1, v1) ∧ Holds h1 v1 xs ∧ v1.curSize = v.curSize ∧
      v.insert_pos A h pos (.val x) =
        ⟨.ok pos,
          h1.withCells v1.storage (insertCells (h1.blk v1.storage).cells k v.curSize x),
          { v1 with curSize := v.curSize + 1 }⟩ ∧
      Holds (h1.withCells v1.storage (insertCells (h1.blk v1.storage).cells k v.curSize x))
        { v1 with curSize := v.curSize + 1 } (xs.take k ++ x :: xs.drop k) := by
  obtain ⟨h1, v1, hgrow, hh1, hsz, hlt, _⟩ := growIfFull_spec A hA h v xs hv h31
  have hcond : ∀ m : Nat, m ≤ v1.curSize →
      ((fun i : Int => decide (i > (k : Int))) (m : Int) = true ↔ k < m) := by
    intro m hm
    simp only [gt_iff_lt, decide_eq_true_eq]; omega
  obtain ⟨e1, e2, e3, e4⟩ := insert_steps h1 v1 xs hh1 hlt k (hsz ▸ hk) x
    (fun i : Int => decide (i > (k : Int))) hcond
  rw [hsz] at e4
  refine ⟨h1, v1, hgrow, hh1, hsz, ?_, e4⟩
  unfold vector.insert_pos
  rw [hgrow]
  simp only [iterator.getNum, hpos, Arg.read]
  rw [toInt_of_lt (show v1.curSize < 2 ^ 31 by omega), e1]
  simp only
  rw [e2]
  simp only
  rw [e3]
  simp only [Outcome.run]
  rw [wrapSize_of_lt (by omega), hsz]

theorem toInt_subSize_one {k : Nat} (hk : k < 2 ^ 31) :
    toInt (subSize k 1) = (k : Int) - 1 := by
  rcases Nat.eq_zero_or_pos k with h0 | h0
  · subst h0; decide
  · rw [subSize_of_le (by omega) (by omega), toInt_of_lt (by omega)]
    omega

/-- The statements of `erase` on a vector holding an element at index `k`. -/
theorem erase_steps (h : Heap T) (v : vector) (xs : List T) (hv : Holds h v xs)
    (h31 : v.curSize ≤ 2 ^ 31) (k : Nat) (hk : k < v.curSize) :
    forUp (fun i => decide (toSize i < subSize v.curSize 1))
        (fun i g => match g.read v.storage (i + 1) with
          | .ok y => g.assign v.storage i y
          | .error e => .error e) (upTo (k : Int)) (k : Int) h
      = .ok (h.withCells v.storage (shiftDown (h.blk v.storage).cells k (v.curSize - 1))) ∧
    (h.withCells v.storage (shiftDown (h.blk v.storage).cells k (v.curSize - 1))).destroy
        v.storage ((v.curSize : Int) - 1)
      = .ok (h.withCells v.storage (eraseCells (h.blk v.storage).cells k v.curSize)) ∧
    Holds (h.withCells v.storage (eraseCells (h.blk v.storage).cells k v.curSize))
      { v with curSize := v.curSize - 1 } (xs.eraseIdx k) := by
  have hcap := hv.cap
  have hsz := hv.size
  have hle := hv.le
  have hcond : ∀ m : Nat, m < v.curSize →
      ((fun i : Int => decide (toSize i < subSize v.curSize 1)) (m : Int) = true
        ↔ m + 1 < v.curSize) := by
    intro m hm
    simp only [toSize_natCast (show m < 2 ^ 64 by omega),
      subSize_of_le (show 1 ≤ v.curSize by omega) (show v.curSize < 2 ^ 64 by omega),
      decide_eq_true_eq]
    omega
  refine ⟨?_, ?_, ?_⟩
  · exact erase_loop h v.storage v.curSize k _ hcond hv.live (by omega) h31 hk
      (fun j hj => hv.cell_some hj)
  · have e0 : ((v.curSize : Int) - 1) = ((v.curSize - 1 : Nat) : Int) := by omega
    obtain ⟨y, hy⟩ : ∃ y, shiftDown (h.blk v.storage).cells k (v.curSize - 1)
        (v.curSize - 1) = some y := by
      unfold shiftDown
      rw [if_neg (by omega)]
      exact hv.cell_some (by omega)
    rw [e0, Heap.destroy_ok (y := y) _
      (by rw [Heap.inBounds_withCells]; exact Heap.inBounds_of h hv.live (by omega))
      (by simpa using hy)]
    simp only [Heap.withCells_blk_self, Heap.withCells_withCells, Int.toNat_ofNat]
    rfl
  · have hlen : (xs.eraseIdx k).length = xs.length - 1 := by
      rw [List.length_eraseIdx, if_pos (by omega)]
    constructor
    · exact hv.live
    · simpa using hcap
    · simp only [hlen]; omega
    · simp only; omega
    · exact hv.pos
    · exact hv.fits
    · intro j hj
      rw [hlen] at hj
      rw [List.getElem?_eraseIdx]
      simp only [Heap.withCells_blk_self, eraseCells, setCell, shiftDown]
      rw [if_neg (by omega)]
      by_cases h1 : j < k
      · rw [if_neg (by omega), if_pos h1]
        exact hv.cells j (by omega)
      · rw [if_neg h1, if_pos (by omega)]
        exact hv.cells (j + 1) (by omega)

/-- Effect of `erase(ind)` for `ind < size`, with `ind` bound outside the heap. -/
theorem erase_ind_spec (h : Heap T) (v : vector) (xs : List T) (hv : Holds h v xs)
    (h31 : v.curSize ≤ 2 ^ 31) (k : Nat) (hk : k < v.curSize) :
    v.erase_ind h (.val k) =
        ⟨.ok ⟨v.storage, if k + 1 = v.curSize then (k : Int) - 1 else (k : Int)⟩,
          h.withCells v.storage (eraseCells (h.blk v.storage).cells k v.curSize),
          { v with curSize := v.curSize - 1 }⟩ ∧
      Holds (h.withCells v.storage (eraseCells (h.blk v.storage).cells k v.curSize))
        { v with curSize := v.curSize - 1 } (xs.eraseIdx k) := by
  obtain ⟨e1, e2, e3⟩ := erase_steps h v xs hv h31 k hk
  refine ⟨?_, e3⟩
  unfold vector.erase_ind
  simp only [Index.read]
  rw [if_neg (by omega), toInt_of_lt (show k < 2 ^ 31 by omega), e1]
  simp only
  rw [e2]
  simp only [Outcome.run]
  rw [subSize_of_le (show 1 ≤ v.curSize by omega) (show v.curSize < 2 ^ 64 by omega)]
  by_cases hl : k + 1 = v.curSize
  · rw [if_pos (by omega), if_pos hl, toInt_subSize_one (by omega)]
  · rw [if_neg (by omega), if_neg hl, subSize_of_le (Nat.zero_le _) (by omega),
      toInt_of_lt (by omega)]
    rfl

/-- Effect of `erase(pos)` for a cursor with offset `k < size`. -/
theorem erase_pos_spec (h : Heap T) (v : vector) (xs : List T) (hv : Holds h v xs)
    (h31 : v.curSize ≤ 2 ^ 31) (k : Nat) (hk : k < v.curSize)
    (pos : iterator) (hpos : pos.num = (k : Int)) :
    v.erase_pos h pos =
        ⟨.ok (if k + 1 = v.curSize then ⟨v.storage, (k : Int) - 1⟩ else pos),
          h.withCells v.storage (eraseCells (h.blk v.storage).cells k v.curSize),
          { v with curSize := v.curSize - 1 }⟩ ∧
      Holds (h.withCells v.storage (eraseCells (h.blk v.storage).cells k v.curSize))
        { v with curSize := v.curSize - 1 } (xs.eraseIdx k) := by
  obtain ⟨e1, e2, e3⟩ := erase_steps h v xs hv h31 k hk
  refine ⟨?_, e3⟩
  unfold vector.erase_pos
  simp only [iterator.getNum, hpos]
  rw [e1]
  simp only
  rw [e2]
  simp only [Outcome.run]
  rw [subSize_of_le (show 1 ≤ v.curSize by omega) (show v.curSize < 2 ^ 64 by omega),
    toSize_natCast (show k < 2 ^ 64 by omega)]
  by_cases hl : k + 1 = v.curSize
  · have hd : decide (k = v.curSize - 1) = true := decide_eq_true (by omega)
    have hc : ((v.curSize - 1 : Nat) : Int) = (k : Int) := by omega
    rw [hd, if_pos rfl, if_pos hl, toInt_subSize_one (by omega), hc]
  · have hd : decide (k = v.curSize - 1) = false := decide_eq_false (by omega)
    rw [hd, if_neg (by simp), if_neg hl]

/-- The default constructor yields a well-formed empty vector of capacity 10. -/
theorem new_spec (A : Allocator) (h : Heap T) :
    Holds (vector.new A h).1 (vector.new A h).2 ([] : List T) ∧
      (vector.new A h).2 = ⟨A h.live initSize, 0, initSize⟩ := by
  refine ⟨?_, rfl⟩
  constructor
  · exact List.mem_cons_self _ _
  · simp [vector.new, Heap.allocate]
  · rfl
  · exact Nat.zero_le _
  · simp [vector.new, initSize]
  · simp [vector.new, initSize]
  · intro i hi; simp at hi

/-- Effect of `push_back(value)`, with `value` bound outside the heap. -/
theorem push_back_spec (A : Allocator) (hA : A.Fresh) (h : Heap T) (v : vector) (xs : List T)
    (hv : Holds h v xs) (h31 : v.curSize < 2 ^ 31) (x : T) :
    ∃ h1 v1, v.growIfFull A h = .ok (h1, v1) ∧ Holds h1 v1 xs ∧ v1.curSize = v.curSize ∧
      v.push_back A h (.val x) =
        ⟨.ok (), h1.withCells v1.storage (setCell (h1.blk v1.storage).cells v.curSize (some x)),
          { v1 with curSize := v.curSize + 1 }⟩ ∧
      Holds (h1.withCells v1.storage (setCell (h1.blk v1.storage).cells v.curSize (some x)))
        { v1 with curSize := v.curSize + 1 } (xs ++ [x]) := by
  obtain ⟨h1, v1, hgrow, hh1, hsz, hlt, _⟩ := growIfFull_spec A hA h v xs hv h31
  refine ⟨h1, v1, hgrow, hh1, hsz, ?_, ?_⟩
  · unfold vector.push_back
    rw [hgrow]
    simp only [Arg.read]
    rw [Heap.construct_ok _ _ (Heap.inBounds_of h1 hh1.live (by rw [hh1.cap]; exact hlt))]
    simp only [Outcome.run, Int.toNat_ofNat]
    rw [wrapSize_of_lt (by omega), hsz]
  · have hs := hh1.size
    constructor
    · exact hh1.live
    · simpa using hh1.cap
    · simp only [List.length_append, List.length_singleton]; omega
    · simp only; omega
    · exact hh1.pos
    · exact hh1.fits
    · intro j hj
      simp only [List.length_append, List.length_singleton] at hj
      simp only [Heap.withCells_blk_self, setCell]
      by_cases hjn : j = v.curSize
      · rw [if_pos hjn, List.getElem?_append_right (by omega)]
        have : j - xs.length = 0 := by omega
        rw [this]; rfl
      · rw [if_neg hjn, List.getElem?_append_left (by omega)]
        exact hh1.cells j (by omega)

/-- Effect of `pop_back()` on a non-empty vector. -/
theorem pop_back_spec (h : Heap T) (v : vector) (xs : List T) (hv : Holds h v xs)
    (hne : v.curSize ≠ 0) :
    v.pop_back h =
        ⟨.ok (), h.withCells v.storage (setCell (h.blk v.storage).cells (v.curSize - 1) none),
          { v with curSize := v.curSize - 1 }⟩ ∧
      Holds (h.withCells v.storage (setCell (h.blk v.storage).cells (v.curSize - 1) none))
        { v with curSize := v.curSize - 1 } xs.dropLast := by
  have hle := hv.le
  have hfit := hv.fits
  have hs := hv.size
  constructor
  · have e0 : ((v.curSize : Int) - 1) = ((v.curSize - 1 : Nat) : Int) := by omega
    obtain ⟨y, hy⟩ := hv.cell_some (show v.curSize - 1 < v.curSize by omega)
    unfold vector.pop_back
    rw [if_neg hne, e0, Heap.destroy_ok (y := y) _
      (Heap.inBounds_of h hv.live (by rw [hv.cap]; omega)) (by simpa using hy)]
    simp only [Outcome.run, Int.toNat_ofNat]
    rw [subSize_of_le (by omega) (by omega)]
  · constructor
    · exact hv.live
    · simpa using hv.cap
    · simp only [List.length_dropLast]; omega
    · simp only; omega
    · exact hv.pos
    · exact hv.fits
    · intro j hj
      simp only [List.length_dropLast] at hj
      simp only [Heap.withCells_blk_self, setCell]
      rw [if_neg (by omega), List.dropLast_eq_take, List.getElem?_take_of_lt (by omega)]
      exact hv.cells j (by omega)

/-- Effect of `at(pos)` and `operator[](pos)`. -/
theorem at_spec (h : Heap T) (v : vector) (xs : List T) (hv : Holds h v xs) (i : Nat) :
    v.at_ h i = ⟨(match xs[i]? with
        | some x => .ok x
        | none => .error .index_out_of_bound), h, v⟩ ∧
      v.index h i = v.at_ h i := by
  refine ⟨?_, rfl⟩
  have hs := hv.size
  have hle := hv.le
  unfold vector.at_
  by_cases hi : i < v.curSize
  · have hx : xs[i]? = some xs[i] := List.getElem?_eq_getElem (by omega)
    have hd : (decide (i < 0) || decide (i ≥ v.curSize)) = false := by simp [hi]
    rw [hd, hx]
    simp only [Bool.false_eq_true, if_false]
    rw [Heap.read_ok (x := xs[i]) h (Heap.inBounds_of h hv.live (by rw [hv.cap]; omega))
      (by rw [Int.toNat_ofNat, hv.cells i (by omega), hx])]
  · have hx : xs[i]? = none := List.getElem?_eq_none (by omega)
    have hd : (decide (i < 0) || decide (i ≥ v.curSize)) = true := by simp; omega
    rw [hd, hx]
    simp

theorem at_result (h : Heap T) (v : vector) (xs : List T) (hv : Holds h v xs) (i : Nat) :
    (v.at_ h i).result = (match xs[i]? with
      | some x => .ok x
      | none => .error .index_out_of_bound) := by
  rw [(at_spec h v xs hv i).1]

theorem at_result_some (h : Heap T) (v : vector) (xs : List T) (hv : Holds h v xs) {i : Nat}
    {x : T} (hx : xs[i]? = some x) : (v.at_ h i).result = .ok x := by
  rw [at_result h v xs hv i, hx]

theorem contents_of_holds (h : Heap T) (v : vector) (xs : List T) (hv : Holds h v xs) :
    v.contents h = xs.map .ok := by
  apply List.ext_getElem?
  intro i
  unfold vector.contents
  rw [List.getElem?_map, List.getElem?_map]
  have hs : v.size = xs.length := hv.size
  by_cases hi : i < xs.length
  · rw [List.getElem?_range (by omega), List.getElem?_eq_getElem hi]
    simp only [Option.map_some']
    rw [at_result_some h v xs hv (List.getElem?_eq_getElem hi)]
  · rw [List.getElem?_eq_none (by simp; omega), List.getElem?_eq_none (by omega)]
    rfl

theorem bump_le (live : List Nat) : ∀ a, a ∈ live → a ≤ live.foldr max 0 := by
  induction live with
  | nil => intro a ha; simp at ha
  | cons b l ih =>
    intro a ha
    simp only [List.foldr_cons]
    rcases List.mem_cons.1 ha with h1 | h1
    · subst h1; exact le_max_left _ _
    · exact le_trans (ih a h1) (le_max_right _ _)

theorem bump_fresh : Allocator.Fresh bumpAllocator := by
  intro live n hmem
  have := bump_le live _ hmem
  simp only [bumpAllocator] at this
  omega

theorem holds3 : Holds heap3 vec3 [1, 2, 3] :=
  ⟨by decide, by decide, by decide, by decide, by decide, by decide, by decide⟩

theorem holds2A : Holds heap2 vec3 [1, 2, 3] :=
  ⟨by decide, by decide, by decide, by decide, by decide, by decide, by decide⟩

theorem holds2B : Holds heap2 vecB [5] :=
  ⟨by decide, by decide, by decide, by decide, by decide, by decide, by decide⟩

theorem holds1 : Holds heap1 vec1 [7] :=
  ⟨by decide, by decide, by decide, by decide, by decide, by decide, by decide⟩

theorem insertedAt_intro {h : Heap T} {v : vector} {xs : List T} (hv : Holds h v xs)
    {k : Nat} (hk : k ≤ v.curSize) {x : T} (o : Outcome T iterator)
    (hr : ∃ it, o.result = .ok it)
    (ho : Holds o.heap o.self (xs.take k ++ x :: xs.drop k)) :
    InsertedAt h v xs k x o := by
  have hs := hv.size
  have hkl : k ≤ xs.length := hs ▸ hk
  have hl : (xs.take k ++ [x] ++ xs.drop k) = (xs.take k ++ x :: xs.drop k) := by simp
  refine ⟨hr, hl ▸ ho, ?_, ?_, ?_, ?_⟩
  · have := ho.size
    rw [length_insert xs k hkl x] at this
    simp only [vector.size]; omega
  · apply at_result_some _ _ _ ho
    rw [getElem?_insert xs k hkl x k, if_neg (by omega), if_pos rfl]
  · intro i hi
    rw [at_result _ _ _ ho i, at_result _ _ _ hv i, getElem?_insert xs k hkl x i, if_pos hi]
  · intro i hki _
    rw [at_result _ _ _ ho (i + 1), at_result _ _ _ hv i, getElem?_insert xs k hkl x (i + 1),
      if_neg (by omega), if_neg (by omega), Nat.add_sub_cancel]

theorem erasedAt_intro {h : Heap T} {v : vector} {xs : List T} (hv : Holds h v xs)
    {k : Nat} (hk : k < v.curSize) (o : Outcome T iterator)
    (hr : ∃ it, o.result = .ok it) (ho : Holds o.heap o.self (xs.eraseIdx k)) :
    ErasedAt h v xs k o := by
  have hs := hv.size
  refine ⟨hr, ho, ?_, ?_, ?_⟩
  · have := ho.size
    rw [List.length_eraseIdx, if_pos (by omega)] at this
    simp only [vector.size]; omega
  · intro i hi
    rw [at_result _ _ _ ho i, at_result _ _ _ hv i, List.getElem?_eraseIdx, if_pos hi]
  · intro i hki _
    rw [at_result _ _ _ ho (i - 1), at_result _ _ _ hv i, List.getElem?_eraseIdx,
      if_neg (by omega), Nat.sub_add_cancel (by omega)]

theorem deref_of_holds {h : Heap T} {v : vector} {xs : List T} (hv : Holds h v xs)
    {i : Nat} {y : T} (hy : xs[i]? = some y) :
    iterator.deref h ⟨v.storage, (i : Int)⟩ = .ok y := by
  have hi : i < xs.length := by
    by_contra hc
    rw [List.getElem?_eq_none (by omega)] at hy
    cases hy
  have hs := hv.size
  have hle := hv.le
  unfold iterator.deref
  exact Heap.read_ok h (Heap.inBounds_of h hv.live (by rw [hv.cap]; omega))
    (by rw [Int.toNat_ofNat, hv.cells i hi, hy])

/-! ## Chaining calls -/

theorem next_ok {α β : Type} (a : α) (h : Heap T) (v : vector)
    (f : Heap T → vector → Outcome T β) :
    (Outcome.mk (.ok a) h v).next f = f h v := rfl

theorem push_back_ok (A : Allocator) (hA : A.Fresh) (h : Heap T) (v : vector) (xs : List T)
    (hv : Holds h v xs) (h31 : xs.length < 2 ^ 31) (x : T) :
    ∃ h1 v1, v.push_back A h (.val x) = ⟨.ok (), h1, v1⟩ ∧ Holds h1 v1 (xs ++ [x]) := by
  obtain ⟨h1, v1, _, _, _, e, ho⟩ := push_back_spec A hA h v xs hv (hv.size ▸ h31) x
  exact ⟨_, _, e, ho⟩

theorem insert_ind_ok (A : Allocator) (hA : A.Fresh) (h : Heap T) (v : vector) (xs : List T)
    (hv : Holds h v xs) (h31 : xs.length < 2 ^ 31) (k : Nat) (hk : k ≤ xs.length) (x : T) :
    ∃ it h1 v1, v.insert_ind A h (.val k) (.val x) = ⟨.ok it, h1, v1⟩ ∧
      Holds h1 v1 (xs.take k ++ x :: xs.drop k) := by
  obtain ⟨h1, v1, _, _, _, e, ho⟩ :=
    insert_ind_spec A hA h v xs hv (hv.size ▸ h31) k (hv.size ▸ hk) x
  exact ⟨_, _, _, e, ho⟩

theorem erase_ind_ok (h : Heap T) (v : vector) (xs : List T)
    (hv : Holds h v xs) (h31 : xs.length ≤ 2 ^ 31) (k : Nat) (hk : k < xs.length) :
    ∃ it h1 v1, v.erase_ind h (.val k) = ⟨.ok it, h1, v1⟩ ∧ Holds h1 v1 (xs.eraseIdx k) := by
  obtain ⟨e, ho⟩ := erase_ind_spec h v xs hv (hv.size ▸ h31) k (hv.size ▸ hk)
  exact ⟨_, _, _, e, ho⟩

theorem pop_back_ok (h : Heap T) (v : vector) (xs : List T)
    (hv : Holds h v xs) (hne : xs ≠ []) :
    ∃ h1 v1, v.pop_back h = ⟨.ok (), h1, v1⟩ ∧ Holds h1 v1 xs.dropLast := by
  have hn : v.curSize ≠ 0 := by
    rw [hv.size]
    exact fun hc => hne (List.length_eq_zero.1 hc)
  obtain ⟨e, ho⟩ := pop_back_spec h v xs hv hn
  exact ⟨_, _, e, ho⟩

/-- Effect of pushing the elements of `xs` onto a vector holding `ys`. -/
theorem pushAll_spec (A : Allocator) (hA : A.Fresh) (xs : List T) :
    ∀ (h : Heap T) (v : vector) (ys : List T), Holds h v ys →
      ys.length + xs.length ≤ 2 ^ 31 →
      (pushAll A xs h v).result = .ok () ∧
        Holds (pushAll A xs h v).heap (pushAll A xs h v).self (ys ++ xs) := by
  induction xs with
  | nil =>
    intro h v ys hv _
    simp only [pushAll, List.append_nil]
    exact ⟨trivial, hv⟩
  | cons x xs ih =>
    intro h v ys hv hlen
    simp only [List.length_cons] at hlen
    obtain ⟨h1, v1, e, ho⟩ := push_back_ok A hA h v ys hv (by omega) x
    have hl : (ys ++ [x]).length + xs.length ≤ 2 ^ 31 := by
      simp only [List.length_append, List.length_singleton]; omega
    have := ih h1 v1 (ys ++ [x]) ho hl
    simp only [pushAll, e, next_ok]
    simpa using this

/-! ## Where faults come from -/

theorem Heap.read_error {h : Heap T} {p : Nat} {i : Int} {e : Fault}
    (he : h.read p i = .error e) : e = .undefined_behaviour := by
  unfold Heap.read at he
  split at he
  · split at he
    · cases he
    · cases he; rfl
  · cases he; rfl

theorem Heap.construct_error {h : Heap T} {p : Nat} {i : Int} {x : T} {e : Fault}
    (he : h.construct p i x = .error e) : e = .undefined_behaviour := by
  unfold Heap.construct at he
  split at he
  · cases he
  · cases he; rfl

theorem Heap.destroy_error {h : Heap T} {p : Nat} {i : Int} {e : Fault}
    (he : h.destroy p i = .error e) : e = .undefined_behaviour := by
  unfold Heap.destroy at he
  split at he
  · split at he
    · cases he
    · cases he; rfl
  · cases he; rfl

theorem Heap.assign_error {h : Heap T} {p : Nat} {i : Int} {x : T} {e : Fault}
    (he : h.assign p i x = .error e) : e = .undefined_behaviour := by
  unfold Heap.assign at he
  split at he
  · split at he
    · cases he
    · cases he; rfl
  · cases he; rfl

theorem Heap.deallocate_error {h : Heap T} {p n : Nat} {e : Fault}
    (he : h.deallocate p n = .error e) : e = .undefined_behaviour := by
  unfold Heap.deallocate at he
  split at he
  · cases he
  · cases he; rfl

theorem forUp_error (cond : Int → Bool) (body : Int → Heap T → Except Fault (Heap T))
    (hbody : ∀ i g e, body i g = .error e → e = .undefined_behaviour) :
    ∀ (fuel : Nat) (i : Int) (g : Heap T) (e : Fault),
      forUp cond body fuel i g = .error e → e = .undefined_behaviour := by
  intro fuel
  induction fuel with
  | zero => intro i g e he; simp only [forUp] at he; cases he; rfl
  | succ n ih =>
    intro i g e he
    simp only [forUp] at he
    split at he
    · split at he
      · exact ih _ _ _ he
      · rename_i e1 hb
        cases he
        exact hbody _ _ _ hb
    · cases he

theorem forDown_error (cond : Int → Bool) (body : Int → Heap T → Except Fault (Heap T))
    (hbody : ∀ i g e, body i g = .error e → e = .undefined_behaviour) :
    ∀ (fuel : Nat) (i : Int) (g : Heap T) (e : Fault),
      forDown cond body fuel i g = .error e → e = .undefined_behaviour := by
  intro fuel
  induction fuel with
  | zero => intro i g e he; simp only [forDown] at he; cases he; rfl
  | succ n ih =>
    intro i g e he
    simp only [forDown] at he
    split at he
    · split at he
      · exact ih _ _ _ he
      · rename_i e1 hb
        cases he
        exact hbody _ _ _ hb
    · cases he

theorem move_error {p : Nat} {d : Int} (i : Int) (g : Heap T) (e : Fault)
    (he : (match g.read p (i + d) with
      | .ok y => g.assign p i y
      | .error e => .error e) = .error e) : e = .undefined_behaviour := by
  split at he
  · exact Heap.assign_error he
  · rename_i e1 hb
    cases he
    exact Heap.read_error hb

theorem doubleSpace_error {A : Allocator} {h : Heap T} {v : vector} {e : Fault}
    (he : v.doubleSpace A h = .error e) : e = .undefined_behaviour := by
  unfold vector.doubleSpace at he
  simp only at he
  split at he
  · rename_i e1 hb
    cases he
    refine forUp_error _ _ ?_ _ _ _ _ hb
    intro i g e2 h2
    split at h2
    · exact Heap.construct_error h2
    · rename_i e3 h3
      cases h2
      exact Heap.read_error h3
  · split at he
    · rename_i e1 hb
      cases he
      exact forUp_error _ _ (fun i g e2 h2 => Heap.destroy_error h2) _ _ _ _ hb
    · split at he
      · rename_i e1 hb
        cases he
        exact Heap.deallocate_error hb
      · cases he

theorem growIfFull_error {A : Allocator} {h : Heap T} {v : vector} {e : Fault}
    (he : v.growIfFull A h = .error e) : e = .undefined_behaviour := by
  unfold vector.growIfFull at he
  split at he
  · exact doubleSpace_error he
  · cases he

theorem run_result_error {α : Type} {h : Heap T} {v : vector}
    {r : Except Fault (α × Heap T × vector)} {e : Fault}
    (he : (Outcome.run h v r).result = .error e) : r = .error e := by
  unfold Outcome.run at he
  split at he
  · cases he
  · cases he; rfl

theorem arg_read_error {h : Heap T} {a : Arg T} {e : Fault}
    (he : a.read h = .error e) : e = .undefined_behaviour := by
  cases a with
  | val x => cases he
  | ref p i => exact Heap.read_error he

theorem index_read_error {h : Heap T} {a : Index T} {e : Fault}
    (he : a.read h = .error e) : e = .undefined_behaviour := by
  cases a with
  | val n => cases he
  | ref p i f =>
    simp only [Index.read] at he
    split at he
    · cases he
    · rename_i e1 hb
      cases he
      exact Heap.read_error hb

theorem forDownRead_error (cond : Int → Heap T → Except Fault Bool)
    (body : Int → Heap T → Except Fault (Heap T))
    (hcond : ∀ i g e, cond i g = .error e → e = .undefined_behaviour)
    (hbody : ∀ i g e, body i g = .error e → e = .undefined_behaviour) :
    ∀ (fuel : Nat) (i : Int) (g : Heap T) (e : Fault),
      forDownRead cond body fuel i g = .error e → e = .undefined_behaviour := by
  intro fuel
  induction fuel with
  | zero => intro i g e he; simp only [forDownRead] at he; cases he; rfl
  | succ n ih =>
    intro i g e he
    simp only [forDownRead] at he
    split at he
    · rename_i e1 hb
      cases he
      exact hcond _ _ _ hb
    · split at he
      · exact ih _ _ _ he
      · rename_i e1 hb
        cases he
        exact hbody _ _ _ hb
    · cases he

/-- The test `i > ind` of the loop of `insert(ind, value)` faults only with
undefined behaviour. -/
theorem test_error {ind : Index T} (i : Int) (g : Heap T) (e : Fault)
    (he : (match ind.read g with
      | .ok m => (.ok (decide (toSize i > m)) : Except Fault Bool)
      | .error e => .error e) = .error e) : e = .undefined_behaviour := by
  split at he
  · cases he
  · rename_i e1 hb
    cases he
    exact index_read_error hb

/-- The only fault `insert(ind, value)` raises past its guard is undefined behaviour. -/
theorem insert_ind_error {A : Allocator} {h : Heap T} {v : vector} {ind : Index T}
    {value : Arg T} {e : Fault} (hi : ∀ n, ind.read h = .ok n → ¬ n > v.curSize)
    (he : (v.insert_ind A h ind value).result = .error e) :
    e = .undefined_behaviour := by
  unfold vector.insert_ind at he
  split at he
  · rename_i e1 hb
    cases he
    exact index_read_error hb
  · rename_i n hn
    rw [if_neg (hi n hn)] at he
    have hr := run_result_error he
    split at hr
    · rename_i e1 hb
      cases hr
      exact growIfFull_error hb
    · split at hr
      · rename_i e1 hb
        cases hr
        exact arg_read_error hb
      · split at hr
        · rename_i e1 hb
          cases hr
          exact Heap.construct_error hb
        · split at hr
          · rename_i e1 hb
            cases hr
            refine forDownRead_error _ _ ?_ ?_ _ _ _ _ hb
            · intro j g e2 h2
              exact test_error j g e2 h2
            · intro j g e2 h2
              exact move_error (d := -1) j g e2 h2
          · split at hr
            · rename_i e1 hb
              cases hr
              exact index_read_error hb
            · split at hr
              · rename_i e1 hb
                cases hr
                exact arg_read_error hb
              · split at hr
                · rename_i e1 hb
                  cases hr
                  exact Heap.assign_error hb
                · split at hr
                  · rename_i e1 hb
                    cases hr
                    exact index_read_error hb
                  · cases hr

/-- The only fault `erase(ind)` raises past its guard is undefined behaviour. -/
theorem erase_ind_error {h : Heap T} {v : vector} {ind : Index T}
    {e : Fault} (hi : ∀ n, ind.read h = .ok n → ¬ n ≥ v.curSize)
    (he : (v.erase_ind h ind).result = .error e) :
    e = .undefined_behaviour := by
  unfold vector.erase_ind at he
  split at he
  · rename_i e1 hb
    cases he
    exact index_read_error hb
  · rename_i n hn
    rw [if_neg (hi n hn)] at he
    have hr := run_result_error he
    split at hr
    · rename_i e1 hb
      cases hr
      refine forUp_error _ _ ?_ _ _ _ _ hb
      intro j g e2 h2
      exact move_error (d := 1) j g e2 h2
    · split at hr
      · rename_i e1 hb
        cases hr
        exact Heap.destroy_error hb
      · split at hr
        · rename_i e1 hb
          cases hr
          exact index_read_error hb
        · cases hr

theorem pop_back_error {h : Heap T} {v : vector} {e : Fault} (hn : v.curSize ≠ 0)
    (he : (v.pop_back h).result = .error e) : e = .undefined_behaviour := by
  unfold vector.pop_back at he
  rw [if_neg hn] at he
  have hr := run_result_error he
  split at hr
  · rename_i e1 hb
    cases hr
    exact Heap.destroy_error hb
  · cases hr

/-! ## The cursor returned when the last element is erased -/

/-- On every non-empty vector, `erase(begin() + (size - 1))` returns the cursor
at offset `size - 2`, and `end()` is afterwards at offset `size - 1`. -/
theorem erase_pos_last_result (h : Heap T) (v : vector) (xs : List T) (hv : Holds h v xs)
    (h31 : v.curSize ≤ 2 ^ 31) (hn : 0 < v.curSize) :
    (v.erase_pos h (v.begin.add ((v.curSize - 1 : Nat) : Int))).result
        = .ok ⟨v.storage, (v.curSize : Int) - 2⟩ ∧
      (v.erase_pos h (v.begin.add ((v.curSize - 1 : Nat) : Int))).self.end_
        = ⟨v.storage, (v.curSize : Int) - 1⟩ := by
  obtain ⟨e, _⟩ := erase_pos_spec h v xs hv h31 (v.curSize - 1) (by omega)
    (v.begin.add ((v.curSize - 1 : Nat) : Int)) (begin_add_num v (by omega))
  rw [e]
  simp only [vector.end_]
  rw [if_pos (by omega), toInt_of_lt (by omega)]
  constructor
  · congr 2; omega
  · congr 1; omega

/-- On every non-empty vector, `erase(size - 1)` returns the cursor at offset
`size - 2`, and `end()` is afterwards at offset `size - 1`. -/
theorem erase_ind_last_result (h : Heap T) (v : vector) (xs : List T) (hv : Holds h v xs)
    (h31 : v.curSize ≤ 2 ^ 31) (hn : 0 < v.curSize) :
    (v.erase_ind h (.val (v.curSize - 1))).result = .ok ⟨v.storage, (v.curSize : Int) - 2⟩ ∧
      (v.erase_ind h (.val (v.curSize - 1))).self.end_
        = ⟨v.storage, (v.curSize : Int) - 1⟩ := by
  obtain ⟨e, _⟩ := erase_ind_spec h v xs hv h31 (v.curSize - 1) (by omega)
  rw [e]
  simp only [vector.end_]
  rw [if_pos (by omega), toInt_of_lt (by omega)]
  constructor
  · congr 2; omega
  · congr 1; omega

/-! ## Cursors: facts -/

theorem wrapInt_of_range {i : Int} (h0 : -2 ^ 31 ≤ i) (h1 : i < 2 ^ 31) : wrapInt i = i := by
  unfold wrapInt toInt
  have hm : ((i % 2 ^ 32).toNat : Int) = i % 2 ^ 32 :=
    Int.toNat_of_nonneg (Int.emod_nonneg _ (by norm_num))
  have hmod : ((i % 2 ^ 32).toNat % 2 ^ 32 : Nat) = (i % 2 ^ 32).toNat := by
    apply Nat.mod_eq_of_lt
    have := Int.emod_lt_of_pos i (show (0 : Int) < 2 ^ 32 by norm_num)
    omega
  rw [hmod]
  split
  · rename_i hlt
    rw [hm]
    omega
  · rename_i hge
    rw [hm]
    omega

theorem begin_add (v : vector) {k : Nat} (hk : k < 2 ^ 31) :
    v.begin.add (k : Int) = ⟨v.storage, (k : Int)⟩ := by
  simp only [vector.begin, iterator.add, zero_add, wrapInt_of_lt hk]

theorem eraseIdx_insert (xs : List T) (k : Nat) (hk : k ≤ xs.length) (x : T) :
    (xs.take k ++ x :: xs.drop k).eraseIdx k = xs := by
  apply List.ext_getElem?
  intro j
  rw [List.getElem?_eraseIdx, getElem?_insert xs k hk x, getElem?_insert xs k hk x]
  by_cases h1 : j < k
  · rw [if_pos h1, if_pos h1]
  · rw [if_neg h1, if_neg (by omega), if_neg (by omega), Nat.add_sub_cancel]

/-! ## What a call that returns has done -/

theorem forUp_ok_exit (cond : Int → Bool) (body : Int → Heap T → Except Fault (Heap T)) :
    ∀ (fuel : Nat) (i : Int) (h h1 : Heap T), forUp cond body fuel i h = .ok h1 →
      ∃ j, i ≤ j ∧ j < i + (fuel : Int) ∧ cond j = false := by
  intro fuel
  induction fuel with
  | zero => intro i h h1 he; simp only [forUp] at he; cases he
  | succ n ih =>
    intro i h h1 he
    simp only [forUp] at he
    split at he
    · split at he
      · obtain ⟨j, h1j, h2j, h3j⟩ := ih _ _ _ he
        exact ⟨j, by omega, by push_cast; omega, h3j⟩
      · cases he
    · rename_i hc
      exact ⟨i, le_refl _, by push_cast; omega, by simpa using hc⟩

theorem Heap.store_cap (h : Heap T) (p i : Nat) (c : Option T) (q : Nat) :
    ((h.store p i c).blk q).cap = (h.blk q).cap := by
  unfold Heap.store
  by_cases hq : q = p
  · subst hq; simp
  · simp [hq]

theorem Heap.construct_cap {h g : Heap T} {p : Nat} {i : Int} {x : T}
    (he : h.construct p i x = .ok g) (q : Nat) : (g.blk q).cap = (h.blk q).cap := by
  unfold Heap.construct at he
  split at he
  · cases he; exact Heap.store_cap _ _ _ _ _
  · cases he

theorem Heap.destroy_cap {h g : Heap T} {p : Nat} {i : Int}
    (he : h.destroy p i = .ok g) (q : Nat) : (g.blk q).cap = (h.blk q).cap := by
  unfold Heap.destroy at he
  split at he
  · split at he
    · cases he; exact Heap.store_cap _ _ _ _ _
    · cases he
  · cases he

theorem Heap.assign_cap {h g : Heap T} {p : Nat} {i : Int} {x : T}
    (he : h.assign p i x = .ok g) (q : Nat) : (g.blk q).cap = (h.blk q).cap := by
  unfold Heap.assign at he
  split at he
  · split at he
    · cases he; exact Heap.store_cap _ _ _ _ _
    · cases he
  · cases he

theorem forUp_cap (cond : Int → Bool) (body : Int → Heap T → Except Fault (Heap T))
    (hbody : ∀ i g g1, body i g = .ok g1 → ∀ q, (g1.blk q).cap = (g.blk q).cap) :
    ∀ (fuel : Nat) (i : Int) (h h1 : Heap T), forUp cond body fuel i h = .ok h1 →
      ∀ q, (h1.blk q).cap = (h.blk q).cap := by
  intro fuel
  induction fuel with
  | zero => intro i h h1 he; simp only [forUp] at he; cases he
  | succ n ih =>
    intro i h h1 he q
    simp only [forUp] at he
    split at he
    · split at he
      · rename_i g hb
        rw [ih _ _ _ he q, hbody _ _ _ hb q]
      · cases he
    · cases he; rfl

theorem copy_body_cap {p s : Nat} (i : Int) (g g1 : Heap T)
    (he : (match g.read p i with
      | .ok x => g.construct s i x
      | .error e => .error e) = .ok g1) (q : Nat) : (g1.blk q).cap = (g.blk q).cap := by
  split at he
  · exact Heap.construct_cap he q
  · cases he

/-- What `doubleSpace` has done when it returns: the new capacity is the old one
doubled on `size_t`, the new block has that many slots, and the size was an `int`. -/
theorem doubleSpace_ok {A : Allocator} {h h1 : Heap T} {v v1 : vector}
    (he : v.doubleSpace A h = .ok (h1, v1)) :
    v1.curSize = v.curSize ∧ v1.maxSize = wrapSize (v.maxSize * 2) ∧
      v1.storage = A h.live (wrapSize (v.maxSize * 2)) ∧
      (h1.blk v1.storage).cap = v1.maxSize ∧ v.curSize < 2 ^ 31 := by
  unfold vector.doubleSpace at he
  simp only at he
  split at he
  · cases he
  · rename_i h2 hl1
    split at he
    · cases he
    · rename_i h3 hl2
      split at he
      · cases he
      · rename_i h4 hd
        have c3 : h4.blk = h3.blk := by
          unfold Heap.deallocate at hd
          split at hd
          · cases hd; rfl
          · cases hd
        cases he
        refine ⟨rfl, rfl, rfl, ?_, ?_⟩
        · have c1 := forUp_cap _ _ (fun i g g1 hb => copy_body_cap i g g1 hb) _ _ _ _ hl1
            (A h.live (wrapSize (v.maxSize * 2)))
          have c2 := forUp_cap _ _ (fun i g g1 hb => Heap.destroy_cap hb) _ _ _ _ hl2
            (A h.live (wrapSize (v.maxSize * 2)))
          simp only
          rw [c3]
          show (h3.blk (A h.live (wrapSize (v.maxSize * 2)))).cap = wrapSize (v.maxSize * 2)
          rw [c2, c1]
          simp [Heap.allocate]
        · obtain ⟨j, h0, hj, hc⟩ := forUp_ok_exit _ _ _ _ _ _ hl1
          have hup : ((upTo 0 : Nat) : Int) = 2 ^ 31 := by unfold upTo; norm_num
          rw [hup] at hj
          have hts : toSize j = j.toNat := toSize_of_nonneg h0 (by omega)
          simp only [hts, decide_eq_false_iff_not, not_lt] at hc
          omega

/-- What the growth step has done when it returns. -/
theorem growIfFull_ok {A : Allocator} {h h1 : Heap T} {v v1 : vector}
    (he : v.growIfFull A h = .ok (h1, v1)) :
    (v.curSize ≠ v.maxSize ∧ h1 = h ∧ v1 = v) ∨
      (v.curSize = v.maxSize ∧ v.doubleSpace A h = .ok (h1, v1)) := by
  unfold vector.growIfFull at he
  split at he
  · rename_i hf; exact Or.inr ⟨hf, he⟩
  · rename_i hf; cases he; exact Or.inl ⟨hf, rfl, rfl⟩

theorem run_ok {α : Type} {h : Heap T} {v : vector}
    {r : Except Fault (α × Heap T × vector)} {a : α}
    (he : (Outcome.run h v r).result = .ok a) :
    ∃ h1 v1, r = .ok (a, h1, v1) ∧ (Outcome.run h v r).heap = h1 ∧
      (Outcome.run h v r).self = v1 := by
  unfold Outcome.run at he ⊢
  split at he
  · rename_i a1 h1 v1
    cases he
    exact ⟨h1, v1, rfl, rfl, rfl⟩
  · cases he

theorem run_error {α : Type} {h : Heap T} {v : vector}
    {r : Except Fault (α × Heap T × vector)} {e : Fault}
    (he : (Outcome.run h v r).result = .error e) :
    (Outcome.run h v r).heap = h ∧ (Outcome.run h v r).self = v := by
  unfold Outcome.run at he ⊢
  split at he
  · cases he
  · exact ⟨rfl, rfl⟩

theorem Heap.construct_inBounds {h g : Heap T} {p : Nat} {i : Int} {x : T}
    (he : h.construct p i x = .ok g) : h.inBounds p i = true := by
  unfold Heap.construct at he
  split at he
  · assumption
  · cases he

theorem Heap.destroy_inBounds {h g : Heap T} {p : Nat} {i : Int}
    (he : h.destroy p i = .ok g) : h.inBounds p i = true := by
  unfold Heap.destroy at he
  split at he
  · assumption
  · cases he

/-- What `push_back` has done to the object when it returns normally. -/
theorem push_back_ok_self {A : Allocator} {h : Heap T} {v : vector} {x : Arg T} {r : Unit}
    (he : (v.push_back A h x).result = .ok r) :
    ∃ h1 v1, v.growIfFull A h = .ok (h1, v1) ∧
      h1.inBounds v1.storage (v1.curSize : Int) = true ∧
      (v.push_back A h x).self = { v1 with curSize := wrapSize (v1.curSize + 1) } := by
  unfold vector.push_back at he ⊢
  obtain ⟨g, w, hr, _, hs⟩ := run_ok he
  rw [hs]
  split at hr
  · cases hr
  · rename_i h1 v1 hg
    split at hr
    · cases hr
    · split at hr
      · cases hr
      · rename_i h2 hc
        cases hr
        exact ⟨h1, v1, hg, Heap.construct_inBounds hc, rfl⟩

/-- What `insert(ind, value)` has done to the object when it returns normally. -/
theorem insert_ind_ok_self {A : Allocator} {h : Heap T} {v : vector} {k : Index T}
    {x : Arg T} {r : iterator} (he : (v.insert_ind A h k x).result = .ok r) :
    ∃ h1 v1, v.growIfFull A h = .ok (h1, v1) ∧
      h1.inBounds v1.storage (v1.curSize : Int) = true ∧
      (v.insert_ind A h k x).self = { v1 with curSize := wrapSize (v1.curSize + 1) } := by
  unfold vector.insert_ind at he ⊢
  split at he
  · cases he
  · rename_i n hn
    split at he
    · cases he
    · rename_i hk
      rw [if_neg hk]
      obtain ⟨g, w, hr, _, hs⟩ := run_ok he
      rw [hs]
      split at hr
      · cases hr
      · rename_i h1 v1 hg
        split at hr
        · cases hr
        · split at hr
          · cases hr
          · rename_i h2 hc
            split at hr
            · cases hr
            · split at hr
              · cases hr
              · split at hr
                · cases hr
                · split at hr
                  · cases hr
                  · split at hr
                    · cases hr
                    · cases hr
                      exact ⟨h1, v1, hg, Heap.construct_inBounds hc, rfl⟩

/-- What `insert(pos, value)` has done to the object when it returns normally. -/
theorem insert_pos_ok_self {A : Allocator} {h : Heap T} {v : vector} {pos : iterator}
    {x : Arg T} {r : iterator} (he : (v.insert_pos A h pos x).result = .ok r) :
    ∃ h1 v1, v.growIfFull A h = .ok (h1, v1) ∧
      h1.inBounds v1.storage (v1.curSize : Int) = true ∧
      (v.insert_pos A h pos x).self = { v1 with curSize := wrapSize (v1.curSize + 1) } ∧
      r = pos := by
  unfold vector.insert_pos at he ⊢
  obtain ⟨g, w, hr, _, hs⟩ := run_ok he
  rw [hs]
  split at hr
  · cases hr
  · rename_i h1 v1 hg
    simp only at hr
    split at hr
    · cases hr
    · split at hr
      · cases hr
      · rename_i h2 hc
        split at hr
        · cases hr
        · split at hr
          · cases hr
          · split at hr
            · cases hr
            · cases hr
              exact ⟨h1, v1, hg, Heap.construct_inBounds hc, rfl, rfl⟩

/-- What `erase(ind)` has done to the object when it returns normally. -/
theorem erase_ind_ok_self {h : Heap T} {v : vector} {k : Index T} {r : iterator}
    (he : (v.erase_ind h k).result = .ok r) :
    0 < v.curSize ∧ (v.erase_ind h k).self = { v with curSize := subSize v.curSize 1 } := by
  unfold vector.erase_ind at he ⊢
  split at he
  · cases he
  · rename_i n hn
    split at he
    · cases he
    · rename_i hk
      rw [if_neg hk]
      obtain ⟨g, w, hr, _, hs⟩ := run_ok he
      rw [hs]
      split at hr
      · cases hr
      · split at hr
        · cases hr
        · split at hr
          · cases hr
          · cases hr
            exact ⟨by omega, rfl⟩

/-- What `erase(pos)` has done to the object when it returns normally. -/
theorem erase_pos_ok_self {h : Heap T} {v : vector} {pos : iterator} {r : iterator}
    (he : (v.erase_pos h pos).result = .ok r) :
    0 < v.curSize ∧ (v.erase_pos h pos).self = { v with curSize := subSize v.curSize 1 } := by
  unfold vector.erase_pos at he ⊢
  obtain ⟨g, w, hr, _, hs⟩ := run_ok he
  rw [hs]
  simp only at hr
  split at hr
  · cases hr
  · split at hr
    · cases hr
    · rename_i h2 hd
      have hb := (Heap.inBounds_iff _ _ _).1 (Heap.destroy_inBounds hd)
      split at hr
      · cases hr
        exact ⟨by omega, rfl⟩
      · cases hr
        exact ⟨by omega, rfl⟩

/-- What `pop_back` has done to the object when it returns normally. -/
theorem pop_back_ok_self {h : Heap T} {v : vector} {r : Unit}
    (he : (v.pop_back h).result = .ok r) :
    0 < v.curSize ∧ (v.pop_back h).self = { v with curSize := subSize v.curSize 1 } := by
  unfold vector.pop_back at he ⊢
  split at he
  · cases he
  · rename_i hk
    rw [if_neg hk]
    obtain ⟨g, w, hr, _, hs⟩ := run_ok he
    rw [hs]
    split at hr
    · cases hr
    · cases hr
      exact ⟨by omega, rfl⟩

/-- The object after the growth step, given that the slot at `curSize` could be
constructed afterwards. -/
theorem grow_facts {A : Allocator} {h h1 : Heap T} {v v1 : vector}
    (hg : v.growIfFull A h = .ok (h1, v1))
    (hb : h1.inBounds v1.storage (v1.curSize : Int) = true) (hle : v.curSize ≤ v.maxSize) :
    v1.curSize = v.curSize ∧ v1.curSize < v1.maxSize ∧
      (v.curSize ≠ v.maxSize → v1 = v ∧ h1 = h) ∧
      (v.curSize = v.maxSize → v1.maxSize = 2 * v.maxSize ∧ v.curSize < 2 ^ 31 ∧
        v1.storage = A h.live (2 * v.maxSize)) := by
  rcases growIfFull_ok hg with ⟨hne, rfl, rfl⟩ | ⟨hfull, hd⟩
  · exact ⟨rfl, lt_of_le_of_ne hle hne, fun _ => ⟨rfl, rfl⟩, fun hf => absurd hf hne⟩
  · obtain ⟨hc, hm, hs, hcap, h31⟩ := doubleSpace_ok hd
    have hw : wrapSize (v.maxSize * 2) = 2 * v.maxSize := by
      rw [wrapSize_of_lt (by omega)]; omega
    rw [hw] at hm hs
    have hb2 := (Heap.inBounds_iff _ _ _).1 hb
    refine ⟨hc, ?_, fun hne => absurd hfull hne, fun _ => ⟨hm, h31, hs⟩⟩
    rw [← hcap]
    omega

theorem void_result_ok {α : Type} {o : Outcome T α} {r : Unit}
    (he : o.void.result = .ok r) : ∃ a, o.result = .ok a := by
  unfold Outcome.void at he
  simp only at he
  cases hr : o.result with
  | ok a => exact ⟨a, rfl⟩
  | error e => rw [hr] at he; cases he

theorem void_result_error {α : Type} {o : Outcome T α} {e : Fault}
    (he : o.void.result = .error e) : o.result = .error e := by
  unfold Outcome.void at he
  simp only at he
  cases hr : o.result with
  | ok a => rw [hr] at he; cases he
  | error e1 => rw [hr] at he; cases he; rfl

/-- An operation that does not return normally leaves the object as it was. -/
theorem op_error_self {A : Allocator} {h : Heap T} {v : vector} {op : Op T} {e : Fault}
    (he : (op.run A h v).result = .error e) : (op.run A h v).self = v := by
  cases op with
  | push_back x => exact (run_error he).2
  | pop_back =>
    simp only [Op.run] at he ⊢
    unfold vector.pop_back at he ⊢
    split
    · rfl
    · rename_i hk; rw [if_neg hk] at he; exact (run_error he).2
  | insert_ind k x =>
    have he1 := void_result_error he
    simp only [Op.run, Outcome.void]
    unfold vector.insert_ind at he1 ⊢
    cases hi : Index.read h k with
    | error e1 => simp only [hi]
    | ok n =>
      simp only [hi] at he1 ⊢
      split
      · rfl
      · rename_i hk; rw [if_neg hk] at he1; exact (run_error he1).2
  | insert_pos pos x => exact (run_error (void_result_error he)).2
  | erase_ind k =>
    have he1 := void_result_error he
    simp only [Op.run, Outcome.void]
    unfold vector.erase_ind at he1 ⊢
    cases hi : Index.read h k with
    | error e1 => simp only [hi]
    | ok n =>
      simp only [hi] at he1 ⊢
      split
      · rfl
      · rename_i hk; rw [if_neg hk] at he1; exact (run_error he1).2
  | erase_pos pos => exact (run_error (void_result_error he)).2
  | clear => simp only [Op.run, vector.clear] at he; cases he

/-- The object after an operation that returned normally: an insertion grew the
vector if it was full and added one element, a removal took one element of a
non-empty vector, `clear` set the size to zero. -/
theorem op_ok_self {A : Allocator} {h : Heap T} {v : vector} {op : Op T} {r : Unit}
    (he : (op.run A h v).result = .ok r) :
    (∃ h1 v1, v.growIfFull A h = .ok (h1, v1) ∧
        h1.inBounds v1.storage (v1.curSize : Int) = true ∧
        (op.run A h v).self = { v1 with curSize := wrapSize (v1.curSize + 1) }) ∨
      (0 < v.curSize ∧ (op.run A h v).self = { v with curSize := subSize v.curSize 1 }) ∨
      (op.run A h v).self = { v with curSize := 0 } := by
  cases op with
  | push_back x => exact Or.inl (push_back_ok_self he)
  | pop_back => exact Or.inr (Or.inl (pop_back_ok_self he))
  | insert_ind k x =>
    obtain ⟨a, ha⟩ := void_result_ok he
    exact Or.inl (insert_ind_ok_self ha)
  | insert_pos pos x =>
    obtain ⟨a, ha⟩ := void_result_ok he
    obtain ⟨h1, v1, e1, e2, e3, _⟩ := insert_pos_ok_self ha
    exact Or.inl ⟨h1, v1, e1, e2, e3⟩
  | erase_ind k =>
    obtain ⟨a, ha⟩ := void_result_ok he
    exact Or.inr (Or.inl (erase_ind_ok_self ha))
  | erase_pos pos =>
    obtain ⟨a, ha⟩ := void_result_ok he
    exact Or.inr (Or.inl (erase_pos_ok_self ha))
  | clear => exact Or.inr (Or.inr rfl)

/-- Every operation keeps `size ≤ capacity`, for a capacity that is a `size_t`. -/
theorem op_keeps_le (A : Allocator) (h : Heap T) (v : vector) (op : Op T)
    (hle : v.curSize ≤ v.maxSize) (hfit : v.maxSize < 2 ^ 64) :
    (op.run A h v).self.curSize ≤ (op.run A h v).self.maxSize ∧
      (op.run A h v).self.maxSize < 2 ^ 64 := by
  cases hr : (op.run A h v).result with
  | error e => rw [op_error_self hr]; exact ⟨hle, hfit⟩
  | ok r =>
    rcases op_ok_self hr with ⟨h1, v1, hg, hb, hs⟩ | ⟨hp, hs⟩ | hs
    · obtain ⟨hc, hlt, hne, hfull⟩ := grow_facts hg hb hle
      rw [hs]
      simp only
      have hw : wrapSize (v1.curSize + 1) ≤ v1.curSize + 1 := Nat.mod_le _ _
      refine ⟨by omega, ?_⟩
      by_cases hf : v.curSize = v.maxSize
      · obtain ⟨hm, h31, _⟩ := hfull hf
        omega
      · rw [(hne hf).1]; exact hfit
    · rw [hs]
      simp only
      rw [subSize_of_le (by omega) (by omega)]
      exact ⟨by omega, hfit⟩
    · rw [hs]
      exact ⟨Nat.zero_le _, hfit⟩

/-- What the copy constructor has built when it returns. -/
theorem copy_ok {A : Allocator} {h h1 : Heap T} {other v : vector}
    (he : other.copy A h = .ok (h1, v)) :
    v = ⟨A h.live other.maxSize, other.curSize, other.maxSize⟩ := by
  unfold vector.copy at he
  simp only at he
  split at he
  · cases he
  · cases he; rfl

/-- The object after an assignment: the fields of `other`, or the object as it was. -/
theorem assign_self (A : Allocator) (h : Heap T) (v other : vector) (same : Bool) :
    (v.assign A h other same).self = v ∨
      ((v.assign A h other same).self.curSize = other.curSize ∧
        (v.assign A h other same).self.maxSize = other.maxSize) := by
  unfold vector.assign
  split
  · exact Or.inl rfl
  · cases hr : (Outcome.run h v _).result with
    | error e => exact Or.inl (run_error hr).2
    | ok r =>
      obtain ⟨g, w, hrr, _, hs⟩ := run_ok hr
      rw [hs]
      split at hrr
      · cases hrr
      · split at hrr
        · cases hrr
        · simp only at hrr
          split at hrr
          · cases hrr
          · cases hrr
            exact Or.inr ⟨rfl, rfl⟩

theorem void_error_of {α : Type} {o : Outcome T α} {e : Fault}
    (he : o.result = .error e) : o.void.result = .error e := by
  unfold Outcome.void
  simp only [he]
  rfl

/-- A removal and `clear` keep the capacity, whatever they return. -/
theorem removal_keeps_capacity (h : Heap T) (v : vector) (k : Index T) (pos : iterator) :
    (v.erase_ind h k).self.maxSize = v.maxSize ∧
      (v.erase_pos h pos).self.maxSize = v.maxSize ∧
      (v.pop_back h).self.maxSize = v.maxSize ∧
      (v.clear h).self.maxSize = v.maxSize := by
  refine ⟨?_, ?_, ?_, rfl⟩
  · cases hr : (v.erase_ind h k).result with
    | error e =>
      have := @op_error_self T bumpAllocator h v (Op.erase_ind k) e (void_error_of hr)
      simp only [Op.run, Outcome.void] at this
      rw [this]
    | ok r => rw [(erase_ind_ok_self hr).2]
  · cases hr : (v.erase_pos h pos).result with
    | error e =>
      have := @op_error_self T bumpAllocator h v (Op.erase_pos pos) e (void_error_of hr)
      simp only [Op.run, Outcome.void] at this
      rw [this]
    | ok r => rw [(erase_pos_ok_self hr).2]
  · cases hr : (v.pop_back h).result with
    | error e =>
      have := @op_error_self T bumpAllocator h v Op.pop_back e hr
      simp only [Op.run] at this
      rw [this]
    | ok r => rw [(pop_back_ok_self hr).2]

/-- The invariant of the reachable states: `size ≤ capacity`, the capacity is
`10 * 2 ^ j`, and it is below `2 ^ 32`. -/
theorem reachable_inv (A : Allocator) :
    ∀ v, Reachable A T v →
      v.curSize ≤ v.maxSize ∧ (∃ j, v.maxSize = 10 * 2 ^ j) ∧ v.maxSize < 2 ^ 32 := by
  intro v hv
  induction hv with
  | new h =>
    refine ⟨Nat.zero_le _, ⟨0, ?_⟩, ?_⟩
    · simp [vector.new, initSize]
    · simp [vector.new, initSize]
  | copy h h1 other v _ hc ih =>
    rw [copy_ok hc]
    exact ih
  | assign h v other same _ _ _ ihv iho =>
    rcases assign_self A h v other same with hs | ⟨hc, hm⟩
    · rw [hs]; exact ihv
    · rw [hc, hm]; exact iho
  | step h v op _ _ ih =>
    obtain ⟨hle, ⟨j, hj⟩, h32⟩ := ih
    cases hr : (op.run A h v).result with
    | error e => rw [op_error_self hr]; exact ⟨hle, ⟨j, hj⟩, h32⟩
    | ok r =>
      rcases op_ok_self hr with ⟨h1, v1, hg, hb, hs⟩ | ⟨hp, hs⟩ | hs
      · obtain ⟨hc, hlt, hne, hfull⟩ := grow_facts hg hb hle
        rw [hs]
        simp only
        have hw : wrapSize (v1.curSize + 1) ≤ v1.curSize + 1 := Nat.mod_le _ _
        refine ⟨by omega, ?_⟩
        by_cases hf : v.curSize = v.maxSize
        · obtain ⟨hm, h31, _⟩ := hfull hf
          refine ⟨⟨j + 1, ?_⟩, by omega⟩
          rw [hm, hj, pow_succ]
          ring
        · rw [(hne hf).1]; exact ⟨⟨j, hj⟩, h32⟩
      · rw [hs]
        simp only
        rw [subSize_of_le (by omega) (by omega)]
        exact ⟨by omega, ⟨j, hj⟩, h32⟩
      · rw [hs]
        exact ⟨Nat.zero_le _, ⟨j, hj⟩, h32⟩

/-! ## The cursor returned by `insert(pos, value)` on a full vector -/

/-- On every full vector, `insert(begin() + k, x)` returns the cursor it was given,
tagged with the old buffer, while the vector has moved to a new buffer. -/
theorem insert_pos_full_stale (A : Allocator) (hA : A.Fresh) (h : Heap T) (v : vector)
    (xs : List T) (hv : Holds h v xs) (h31 : v.curSize < 2 ^ 31)
    (hfull : v.curSize = v.maxSize) (k : Nat) (hk : k ≤ v.curSize) (x : T) :
    (v.insert_pos A h (v.begin.add k) (.val x)).result = .ok ⟨v.storage, (k : Int)⟩ ∧
      (v.insert_pos A h (v.begin.add k) (.val x)).self.storage = A h.live (v.maxSize * 2) ∧
      A h.live (v.maxSize * 2) ≠ v.storage := by
  have hk31 : k < 2 ^ 31 := lt_of_le_of_lt hk h31
  obtain ⟨h1, v1, hg, _, _, e, _⟩ := insert_pos_spec A hA h v xs hv h31 k hk x
    (v.begin.add k) (begin_add_num v hk31)
  obtain ⟨h2, v2, hg2, _, _, _, hd⟩ := growIfFull_spec A hA h v xs hv h31
  rw [hg] at hg2
  cases hg2
  rcases hd with ⟨hlt, _, _⟩ | ⟨_, hv1, hfresh, _, _⟩
  · omega
  · rw [e, begin_add v hk31, hv1]
    exact ⟨rfl, rfl, fun hc => hfresh (hc ▸ hv.live)⟩

/-! ## Which blocks a call touches -/

theorem Only.refl (p : Nat) (h : Heap T) : Only p h h := ⟨rfl, fun _ _ => rfl⟩

theorem Only.trans {p : Nat} {h g k : Heap T} (h1 : Only p h g) (h2 : Only p g k) :
    Only p h k :=
  ⟨h2.1.trans h1.1, fun q hq => (h2.2 q hq).trans (h1.2 q hq)⟩

theorem Heap.store_only (h : Heap T) (p i : Nat) (c : Option T) : Only p h (h.store p i c) := by
  refine ⟨rfl, fun q hq => ?_⟩
  simp [Heap.store, hq]

theorem Heap.construct_only {h g : Heap T} {p : Nat} {i : Int} {x : T}
    (he : h.construct p i x = .ok g) : Only p h g := by
  unfold Heap.construct at he
  split at he
  · cases he; exact Heap.store_only _ _ _ _
  · cases he

theorem Heap.destroy_only {h g : Heap T} {p : Nat} {i : Int}
    (he : h.destroy p i = .ok g) : Only p h g := by
  unfold Heap.destroy at he
  split at he
  · split at he
    · cases he; exact Heap.store_only _ _ _ _
    · cases he
  · cases he

theorem Heap.assign_only {h g : Heap T} {p : Nat} {i : Int} {x : T}
    (he : h.assign p i x = .ok g) : Only p h g := by
  unfold Heap.assign at he
  split at he
  · split at he
    · cases he; exact Heap.store_only _ _ _ _
    · cases he
  · cases he

theorem forUp_only (p : Nat) (cond : Int → Bool)
    (body : Int → Heap T → Except Fault (Heap T))
    (hbody : ∀ i g g1, body i g = .ok g1 → Only p g g1) :
    ∀ (fuel : Nat) (i : Int) (h h1 : Heap T), forUp cond body fuel i h = .ok h1 →
      Only p h h1 := by
  intro fuel
  induction fuel with
  | zero => intro i h h1 he; simp only [forUp] at he; cases he
  | succ n ih =>
    intro i h h1 he
    simp only [forUp] at he
    split at he
    · split at he
      · rename_i g hb
        exact (hbody _ _ _ hb).trans (ih _ _ _ he)
      · cases he
    · cases he; exact Only.refl _ _

theorem forDown_only (p : Nat) (cond : Int → Bool)
    (body : Int → Heap T → Except Fault (Heap T))
    (hbody : ∀ i g g1, body i g = .ok g1 → Only p g g1) :
    ∀ (fuel : Nat) (i : Int) (h h1 : Heap T), forDown cond body fuel i h = .ok h1 →
      Only p h h1 := by
  intro fuel
  induction fuel with
  | zero => intro i h h1 he; simp only [forDown] at he; cases he
  | succ n ih =>
    intro i h h1 he
    simp only [forDown] at he
    split at he
    · split at he
      · rename_i g hb
        exact (hbody _ _ _ hb).trans (ih _ _ _ he)
      · cases he
    · cases he; exact Only.refl _ _

theorem move_only {p : Nat} {d : Int} (i : Int) (g g1 : Heap T)
    (he : (match g.read p (i + d) with
      | .ok y => g.assign p i y
      | .error e => .error e) = .ok g1) : Only p g g1 := by
  split at he
  · exact Heap.assign_only he
  · cases he

theorem copy_body_only {p s : Nat} (i : Int) (g g1 : Heap T)
    (he : (match g.read p i with
      | .ok x => g.construct s i x
      | .error e => .error e) = .ok g1) : Only s g g1 := by
  split at he
  · exact Heap.construct_only he
  · cases he

theorem Frame.only {h h1 g : Heap T} {p s : Nat} (hf : Frame h h1 p) (ho : Only s h1 g)
    (hs : ∀ q, q ∈ h.live → q ≠ p → q ≠ s) : Frame h g p := by
  intro q hq hne
  obtain ⟨h1q, h2q⟩ := hf q hq hne
  exact ⟨by rw [ho.1]; exact h1q, by rw [ho.2 q (hs q hq hne), h2q]⟩

/-- A doubling that returns has left every other block in use alone, and the
new buffer is none of them. -/
theorem doubleSpace_frame {A : Allocator} (hA : A.Fresh) {h h1 : Heap T} {v v1 : vector}
    (he : v.doubleSpace A h = .ok (h1, v1)) :
    Frame h h1 v.storage ∧ v1.storage ∉ h.live := by
  have hfresh : A h.live (wrapSize (v.maxSize * 2)) ∉ h.live := hA _ _
  unfold vector.doubleSpace at he
  simp only at he
  split at he
  · cases he
  · rename_i h2 hl1
    split at he
    · cases he
    · rename_i h3 hl2
      split at he
      · cases he
      · rename_i h4 hd
        have o1 := forUp_only _ _ _ (fun i g g1 hb => copy_body_only i g g1 hb) _ _ _ _ hl1
        have o2 := forUp_only _ _ _ (fun i g g1 hb => Heap.destroy_only hb) _ _ _ _ hl2
        have c3 : h4.blk = h3.blk ∧ h4.live = h3.live.erase v.storage := by
          unfold Heap.deallocate at hd
          split at hd
          · cases hd; exact ⟨rfl, rfl⟩
          · cases hd
        cases he
        refine ⟨?_, hfresh⟩
        intro q hq hne
        have hqp : q ≠ A h.live (wrapSize (v.maxSize * 2)) := fun hc => hfresh (hc ▸ hq)
        constructor
        · rw [c3.2, o2.1, o1.1]
          exact (List.mem_erase_of_ne hne).2 (List.mem_cons_of_mem _ hq)
        · rw [c3.1, o2.2 q hne, o1.2 q hqp]
          simp [Heap.allocate, hqp]

/-- A growth step that returns has left every other block in use alone, and
the buffer afterwards is the old one or a block that was not in use. -/
theorem growIfFull_frame {A : Allocator} (hA : A.Fresh) {h h1 : Heap T} {v v1 : vector}
    (he : v.growIfFull A h = .ok (h1, v1)) :
    Frame h h1 v.storage ∧ ∀ q, q ∈ h.live → q ≠ v.storage → q ≠ v1.storage := by
  rcases growIfFull_ok he with ⟨_, rfl, rfl⟩ | ⟨_, hd⟩
  · exact ⟨fun _ hq _ => ⟨hq, rfl⟩, fun q _ hq => hq⟩
  · obtain ⟨hf, hn⟩ := doubleSpace_frame hA hd
    exact ⟨hf, fun q hq _ hc => hn (hc ▸ hq)⟩

theorem away_unchanged {α : Type} (h : Heap T) (v : vector) (r : Except Fault α) :
    Away h v (Outcome.mk r h v) :=
  ⟨fun _ hq _ => ⟨hq, rfl⟩, fun _ _ hq => hq⟩

theorem away_run {α : Type} (h : Heap T) (v : vector) (r : Except Fault (α × Heap T × vector))
    (hr : ∀ a h1 v1, r = .ok (a, h1, v1) →
      Frame h h1 v.storage ∧ ∀ q, q ∈ h.live → q ≠ v.storage → q ≠ v1.storage) :
    Away h v (Outcome.run h v r) := by
  cases r with
  | error e => exact away_unchanged h v _
  | ok t =>
    obtain ⟨a, h1, v1⟩ := t
    exact hr a h1 v1 rfl

theorem push_back_away {A : Allocator} (hA : A.Fresh) (h : Heap T) (v : vector) (x : Arg T) :
    Away h v (v.push_back A h x) := by
  unfold vector.push_back
  apply away_run
  intro a h1 v1 hr
  split at hr
  · cases hr
  · rename_i g1 w1 hg
    split at hr
    · cases hr
    · split at hr
      · cases hr
      · rename_i g2 hc
        cases hr
        obtain ⟨hf, hq⟩ := growIfFull_frame hA hg
        exact ⟨hf.only (Heap.construct_only hc) hq, hq⟩

theorem forDownRead_only (p : Nat) (cond : Int → Heap T → Except Fault Bool)
    (body : Int → Heap T → Except Fault (Heap T))
    (hbody : ∀ i g g1, body i g = .ok g1 → Only p g g1) :
    ∀ (fuel : Nat) (i : Int) (h h1 : Heap T), forDownRead cond body fuel i h = .ok h1 →
      Only p h h1 := by
  intro fuel
  induction fuel with
  | zero => intro i h h1 he; simp only [forDownRead] at he; cases he
  | succ n ih =>
    intro i h h1 he
    simp only [forDownRead] at he
    split at he
    · cases he
    · split at he
      · rename_i g hb
        exact (hbody _ _ _ hb).trans (ih _ _ _ he)
      · cases he
    · cases he; exact Only.refl _ _

theorem insert_ind_away {A : Allocator} (hA : A.Fresh) (h : Heap T) (v : vector)
    (k : Index T) (x : Arg T) : Away h v (v.insert_ind A h k x) := by
  unfold vector.insert_ind
  split
  · exact away_unchanged h v _
  · split
    · exact away_unchanged h v _
    · apply away_run
      intro a h1 v1 hr
      split at hr
      · cases hr
      · rename_i g1 w1 hg
        split at hr
        · cases hr
        · split at hr
          · cases hr
          · rename_i g2 hc
            split at hr
            · cases hr
            · rename_i g3 hl
              split at hr
              · cases hr
              · split at hr
                · cases hr
                · split at hr
                  · cases hr
                  · rename_i g4 hs
                    split at hr
                    · cases hr
                    · cases hr
                      obtain ⟨hf, hq⟩ := growIfFull_frame hA hg
                      have o2 := forDownRead_only w1.storage _ _
                        (fun i g g1 hb => move_only (d := -1) i g g1 hb) _ _ _ _ hl
                      exact ⟨hf.only (((Heap.construct_only hc).trans o2).trans
                        (Heap.assign_only hs)) hq, hq⟩

theorem insert_pos_away {A : Allocator} (hA : A.Fresh) (h : Heap T) (v : vector)
    (pos : iterator) (x : Arg T) : Away h v (v.insert_pos A h pos x) := by
  unfold vector.insert_pos
  apply away_run
  intro a h1 v1 hr
  split at hr
  · cases hr
  · rename_i g1 w1 hg
    simp only at hr
    split at hr
    · cases hr
    · split at hr
      · cases hr
      · rename_i g2 hc
        split at hr
        · cases hr
        · rename_i g3 hl
          split at hr
          · cases hr
          · split at hr
            · cases hr
            · rename_i g4 hs
              cases hr
              obtain ⟨hf, hq⟩ := growIfFull_frame hA hg
              have o2 := forDown_only w1.storage _ _
                (fun i g g1 hb => move_only (d := -1) i g g1 hb) _ _ _ _ hl
              exact ⟨hf.only (((Heap.construct_only hc).trans o2).trans
                (Heap.assign_only hs)) hq, hq⟩

theorem frame_of_only {h g : Heap T} {p : Nat} (ho : Only p h g) : Frame h g p :=
  fun q hq hne => ⟨by rw [ho.1]; exact hq, ho.2 q hne⟩

theorem erase_ind_away (h : Heap T) (v : vector) (k : Index T) :
    Away h v (v.erase_ind h k) := by
  unfold vector.erase_ind
  split
  · exact away_unchanged h v _
  · split
    · exact away_unchanged h v _
    · apply away_run
      intro a h1 v1 hr
      split at hr
      · cases hr
      · rename_i g1 hl
        split at hr
        · cases hr
        · rename_i g2 hd
          split at hr
          · cases hr
          · cases hr
            have o1 := forUp_only v.storage _ _
              (fun i g g1 hb => move_only (d := 1) i g g1 hb) _ _ _ _ hl
            exact ⟨frame_of_only (o1.trans (Heap.destroy_only hd)), fun q _ hq => hq⟩

theorem erase_pos_away (h : Heap T) (v : vector) (pos : iterator) :
    Away h v (v.erase_pos h pos) := by
  unfold vector.erase_pos
  apply away_run
  intro a h1 v1 hr
  simp only at hr
  split at hr
  · cases hr
  · rename_i g1 hl
    split at hr
    · cases hr
    · rename_i g2 hd
      have o1 := forUp_only v.storage _ _
        (fun i g g1 hb => move_only (d := 1) i g g1 hb) _ _ _ _ hl
      split at hr
      · cases hr
        exact ⟨frame_of_only (o1.trans (Heap.destroy_only hd)), fun q _ hq => hq⟩
      · cases hr
        exact ⟨frame_of_only (o1.trans (Heap.destroy_only hd)), fun q _ hq => hq⟩

theorem pop_back_away (h : Heap T) (v : vector) : Away h v (v.pop_back h) := by
  unfold vector.pop_back
  split
  · exact away_unchanged h v _
  · apply away_run
    intro a h1 v1 hr
    split at hr
    · cases hr
    · rename_i g1 hd
      cases hr
      exact ⟨frame_of_only (Heap.destroy_only hd), fun q _ hq => hq⟩

theorem at_put_away (h : Heap T) (v : vector) (k : Nat) (x : T) :
    Away h v (v.at_put h k x) := by
  unfold vector.at_put
  split
  · exact away_unchanged h v _
  · apply away_run
    intro a h1 v1 hr
    split at hr
    · cases hr
    · rename_i g1 hs
      cases hr
      exact ⟨frame_of_only (Heap.assign_only hs), fun q _ hq => hq⟩

/-- Every operation on a vector keeps away from the other blocks in use,
whatever its arguments and whatever it returns. -/
theorem op_away {A : Allocator} (hA : A.Fresh) (h : Heap T) (v : vector) (op : Op T) :
    Away h v (op.run A h v) := by
  cases op with
  | push_back x => exact push_back_away hA h v x
  | pop_back => exact pop_back_away h v
  | insert_ind k x => exact insert_ind_away hA h v k x
  | insert_pos pos x => exact insert_pos_away hA h v pos x
  | erase_ind k => exact erase_ind_away h v k
  | erase_pos pos => exact erase_pos_away h v pos
  | clear => exact away_unchanged h _ _

/-! ## Two vectors in one heap -/

theorem Holds.frame {h h1 : Heap T} {b : vector} {ys : List T} {p : Nat}
    (hb : Holds h b ys) (hf : Frame h h1 p) (hne : b.storage ≠ p) : Holds h1 b ys := by
  obtain ⟨h1q, h2q⟩ := hf b.storage hb.live hne
  exact ⟨h1q, by rw [h2q]; exact hb.cap, hb.size, hb.le, hb.pos, hb.fits,
    fun i hi => by rw [h2q]; exact hb.cells i hi⟩

theorem independent_intro {α : Type} {h : Heap T} {b : vector} {ys : List T} {p : Nat}
    (hb : Holds h b ys) (hne : b.storage ≠ p) (o : Outcome T α) (hf : Frame h o.heap p)
    (hs : b.storage ≠ o.self.storage) : Independent h b ys o := by
  have hb1 := hb.frame hf hne
  exact ⟨hb1, by rw [contents_of_holds _ _ _ hb1, contents_of_holds _ _ _ hb], hs⟩

theorem independent_of_away {α : Type} {h : Heap T} {a b : vector} {ys : List T}
    (hb : Holds h b ys) (hne : b.storage ≠ a.storage) (o : Outcome T α) (ho : Away h a o) :
    Independent h b ys o :=
  independent_intro hb hne o ho.1 (ho.2 _ hb.live hne)

/-- A vector is not affected by any sequence of operations on another vector. -/
theorem runAll_independent {A : Allocator} (hA : A.Fresh) (b : vector) (ys : List T)
    (ops : List (Op T)) :
    ∀ (h : Heap T) (a : vector), Holds h b ys → b.storage ≠ a.storage →
      Holds (runAll A ops h a).1 b ys ∧ b.storage ≠ (runAll A ops h a).2.storage := by
  induction ops with
  | nil => intro h a hb hne; exact ⟨hb, hne⟩
  | cons op ops ih =>
    intro h a hb hne
    obtain ⟨h1, _, h3⟩ := independent_of_away hb hne _ (op_away hA h a op)
    exact ih _ _ h1 h3

/-- Allocation of a block for a copy of `src` and the copy loop, as they occur
in the copy constructor and in `operator=`. -/
theorem alloc_copy (A : Allocator) (hA : A.Fresh) (g : Heap T) (src : vector) (xs : List T)
    (hs : Holds g src xs) (h31 : src.curSize < 2 ^ 31) :
    ∃ g1, forUp (fun i => decide (toSize i < src.curSize))
        (fun i g2 => match g2.read src.storage i with
          | .ok x => g2.construct (g.allocate A src.maxSize).1 i x
          | .error e => .error e) (upTo 0) 0 (g.allocate A src.maxSize).2 = .ok g1 ∧
      Holds g1 ⟨A g.live src.maxSize, src.curSize, src.maxSize⟩ xs ∧
      A g.live src.maxSize ∉ g.live ∧
      g1.live = A g.live src.maxSize :: g.live ∧
      (∀ r, r ≠ A g.live src.maxSize → g1.blk r = g.blk r) := by
  have hfresh : A g.live src.maxSize ∉ g.live := hA _ _
  have hne : src.storage ≠ A g.live src.maxSize := fun e => hfresh (e ▸ hs.live)
  have e1 : (g.allocate A src.maxSize).1 = A g.live src.maxSize := rfl
  rw [e1]
  generalize hq : A g.live src.maxSize = q at hfresh hne ⊢
  obtain ⟨g0, hg0⟩ : ∃ g0 : Heap T, g0 = (g.allocate A src.maxSize).2 := ⟨_, rfl⟩
  rw [← hg0]
  have hg0live : g0.live = q :: g.live := by rw [hg0, ← hq]; rfl
  have hg0q : g0.blk q = { cap := src.maxSize, cells := fun _ => none } := by
    rw [hg0, ← hq]; simp [Heap.allocate]
  have hg0o : ∀ r, r ≠ q → g0.blk r = g.blk r := by
    intro r hr; rw [hg0]; rw [← hq] at hr; simp [Heap.allocate, hr]
  have hg0p : g0.blk src.storage = g.blk src.storage := hg0o _ hne
  have hcs : ∀ j, j < src.curSize → ∃ y, (g0.blk src.storage).cells j = some y := by
    intro j hj; rw [hg0p]; exact hs.cell_some hj
  have hne2 : q ≠ src.storage := fun e => hne e.symm
  have hm0 : src.storage ∈ g0.live := by
    rw [hg0live]; exact List.mem_cons_of_mem _ hs.live
  have hmq : q ∈ g0.live := by
    rw [hg0live]; exact List.mem_cons_self _ _
  rw [copy_loop g0 src.storage q src.curSize hm0 hmq hne
    (by rw [hg0p, hs.cap]; exact hs.le) (by rw [hg0q]; exact hs.le) h31 hcs]
  refine ⟨_, rfl, ?_, hfresh, ?_, ?_⟩
  · constructor
    · simp only [Heap.withCells_live, hg0live]
      exact List.mem_cons_self _ _
    · simp [hg0q]
    · exact hs.size
    · exact hs.le
    · exact hs.pos
    · exact hs.fits
    · intro i hi
      simp only [Heap.withCells_blk_self, copyCells]
      rw [if_pos (by rw [hs.size]; exact hi), hg0p]
      exact hs.cells i hi
  · simp only [Heap.withCells_live, hg0live]
  · intro r hr
    rw [Heap.withCells_blk_other _ _ hr]
    exact hg0o r hr

/-- Effect of the copy constructor. -/
theorem copy_spec (A : Allocator) (hA : A.Fresh) (h : Heap T) (a : vector) (xs : List T)
    (ha : Holds h a xs) (h31 : a.curSize < 2 ^ 31) :
    ∃ h1, a.copy A h = .ok (h1, ⟨A h.live a.maxSize, a.curSize, a.maxSize⟩) ∧
      Holds h1 ⟨A h.live a.maxSize, a.curSize, a.maxSize⟩ xs ∧
      A h.live a.maxSize ∉ h.live ∧ (∀ p, Frame h h1 p) := by
  obtain ⟨g1, e, hb, hfresh, hlive, hblk⟩ := alloc_copy A hA h a xs ha h31
  refine ⟨g1, ?_, hb, hfresh, ?_⟩
  · unfold vector.copy
    simp only
    rw [e]
    rfl
  · intro p q hq _
    refine ⟨by rw [hlive]; exact List.mem_cons_of_mem _ hq, hblk q ?_⟩
    exact fun hc => hfresh (hc ▸ hq)

/-- Effect of `operator=` between two different vectors. -/
theorem assign_spec (A : Allocator) (hA : A.Fresh) (h : Heap T) (a b : vector)
    (xs ys : List T) (ha : Holds h a xs) (hb : Holds h b ys) (hne : b.storage ≠ a.storage)
    (ha31 : a.curSize < 2 ^ 31) (hb31 : b.curSize < 2 ^ 31) :
    ∃ h1, b.assign A h a false =
        ⟨.ok (), h1, ⟨A (h.live.erase b.storage) a.maxSize, a.curSize, a.maxSize⟩⟩ ∧
      Holds h1 ⟨A (h.live.erase b.storage) a.maxSize, a.curSize, a.maxSize⟩ xs ∧
      A (h.live.erase b.storage) a.maxSize ≠ a.storage ∧
      Frame h h1 b.storage := by
  -- the heap after the destroy loop and `deallocate`
  obtain ⟨g, hg⟩ : ∃ g : Heap T, g = Heap.mk (h.live.erase b.storage)
      (h.withCells b.storage (clearCells (h.blk b.storage).cells b.curSize)).blk := ⟨_, rfl⟩
  have hgf : Frame h g b.storage := by
    intro q hq hqb
    rw [hg]
    exact ⟨(List.mem_erase_of_ne hqb).2 hq, Heap.withCells_blk_other _ _ hqb⟩
  have hga : Holds g a xs := ha.frame hgf (fun e => hne e.symm)
  obtain ⟨g1, e, hb1, hfresh, hlive, hblk⟩ := alloc_copy A hA g a xs hga ha31
  have hglive : g.live = h.live.erase b.storage := by rw [hg]
  rw [hglive] at hb1 hfresh hlive hblk
  have hqa : A (h.live.erase b.storage) a.maxSize ≠ a.storage := by
    intro hc
    apply hfresh
    rw [hc]
    exact (List.mem_erase_of_ne (fun e => hne e.symm)).2 ha.live
  refine ⟨g1, ?_, hb1, hqa, ?_⟩
  · unfold vector.assign
    simp only [Bool.false_eq_true, if_false]
    rw [destroy_loop h b.storage b.curSize hb.live (by rw [hb.cap]; exact hb.le) hb31
      (fun j hj => hb.cell_some hj)]
    simp only
    have hd : (h.withCells b.storage (clearCells (h.blk b.storage).cells b.curSize)).deallocate
        b.storage b.maxSize = .ok g := by
      rw [hg]
      simp [Heap.deallocate, hb.live, hb.cap]
    rw [hd]
    simp only
    rw [e]
    simp only [Outcome.run]
    rw [show (g.allocate A a.maxSize).1 = A (h.live.erase b.storage) a.maxSize from by
      rw [← hglive]; rfl]
  · intro q hq hqb
    obtain ⟨h1q, h2q⟩ := hgf q hq hqb
    rw [hglive] at h1q
    refine ⟨by rw [hlive]; exact List.mem_cons_of_mem _ h1q, ?_⟩
    rw [hblk q (fun hc => hfresh (hc ▸ h1q)), h2q]

/-! ## Beyond the range of the `int` counters -/

theorem holdsN (n : Nat) (hn : n ≤ 10 * 2 ^ 28) : Holds (heapN n) (vecN n) (List.range n) := by
  refine ⟨by simp [heapN, vecN], rfl, by simp [vecN], hn,
    (by show 0 < 10 * 2 ^ 28; decide), (by show 10 * 2 ^ 28 < 2 ^ 64; decide), ?_⟩
  intro i hi
  rw [List.length_range] at hi
  rw [List.getElem?_range hi]
  simp [heapN, vecN, hi]

/-- A loop `for (int i = 0; i < n; ++i)` returns only if `n < 2 ^ 31`. -/
theorem count_ok_bound (n : Nat) (body : Int → Heap T → Except Fault (Heap T))
    (h h1 : Heap T)
    (he : forUp (fun i => decide (toSize i < n)) body (upTo 0) 0 h = .ok h1) :
    n < 2 ^ 31 := by
  obtain ⟨j, h0, hj, hc⟩ := forUp_ok_exit _ _ _ _ _ _ he
  have hup : ((upTo 0 : Nat) : Int) = 2 ^ 31 := by unfold upTo; norm_num
  rw [hup] at hj
  have hts : toSize j = j.toNat := toSize_of_nonneg h0 (by omega)
  simp only [hts, decide_eq_false_iff_not, not_lt] at hc
  omega

/-- The copy constructor returns only if the source has fewer than `2 ^ 31` elements. -/
theorem copy_ok_bound {A : Allocator} {h h1 : Heap T} {other v : vector}
    (he : other.copy A h = .ok (h1, v)) : other.curSize < 2 ^ 31 := by
  unfold vector.copy at he
  simp only at he
  split at he
  · cases he
  · rename_i h2 hl
    exact count_ok_bound _ _ _ _ hl

theorem copy_error {A : Allocator} {h : Heap T} {other : vector} {e : Fault}
    (he : other.copy A h = .error e) : e = .undefined_behaviour := by
  unfold vector.copy at he
  simp only at he
  split at he
  · rename_i e1 hb
    cases he
    refine forUp_error _ _ ?_ _ _ _ _ hb
    intro i g e2 h2
    split at h2
    · exact Heap.construct_error h2
    · rename_i e3 h3
      cases h2
      exact Heap.read_error h3
  · cases he

/-- An assignment from another object returns only if that object has fewer
than `2 ^ 31` elements. -/
theorem assign_ok_bound {A : Allocator} {h : Heap T} {v other : vector} {r : Unit}
    (he : (v.assign A h other false).result = .ok r) : other.curSize < 2 ^ 31 := by
  unfold vector.assign at he
  rw [if_neg (by decide)] at he
  obtain ⟨g, w, hrr, _, _⟩ := run_ok he
  split at hrr
  · cases hrr
  · split at hrr
    · cases hrr
    · simp only at hrr
      split at hrr
      · cases hrr
      · rename_i h4 hl
        exact count_ok_bound _ _ _ _ hl

/-- A removal through a cursor with a non-negative offset returns only if the
vector has at most `2 ^ 31` elements. -/
theorem erase_pos_ok_bound {h : Heap T} {v : vector} {pos : iterator} {r : iterator}
    (hp : 0 ≤ pos.num) (hfit : v.curSize < 2 ^ 64)
    (he : (v.erase_pos h pos).result = .ok r) : v.curSize ≤ 2 ^ 31 := by
  have hpos := (erase_pos_ok_self he).1
  unfold vector.erase_pos at he
  obtain ⟨g, w, hrr, _, _⟩ := run_ok he
  simp only at hrr
  split at hrr
  · cases hrr
  · rename_i g1 hl
    obtain ⟨j, h0, hj, hc⟩ := forUp_ok_exit _ _ _ _ _ _ hl
    simp only [iterator.getNum] at h0 hj
    have hup : ((upTo pos.num : Nat) : Int) = 2 ^ 31 - pos.num ∨ upTo pos.num = 0 := by
      unfold upTo
      omega
    have hj31 : j < 2 ^ 31 := by omega
    have hts : toSize j = j.toNat := toSize_of_nonneg (by omega) (by omega)
    rw [hts, subSize_of_le (by omega) hfit] at hc
    simp only [decide_eq_false_iff_not, not_lt] at hc
    omega

theorem size_curSize (v : vector) : v.size = v.curSize := rfl

theorem erase_pos_error {h : Heap T} {v : vector} {pos : iterator} {e : Fault}
    (he : (v.erase_pos h pos).result = .error e) : e = .undefined_behaviour := by
  unfold vector.erase_pos at he
  have hr := run_result_error he
  simp only at hr
  split at hr
  · rename_i e1 hb
    cases hr
    refine forUp_error _ _ ?_ _ _ _ _ hb
    intro j g e2 h2
    exact move_error (d := 1) j g e2 h2
  · split at hr
    · rename_i e1 hb
      cases hr
      exact Heap.destroy_error hb
    · split at hr
      · cases hr
      · cases hr

theorem operator_assign_error {A : Allocator} {h : Heap T} {v other : vector} {same : Bool}
    {e : Fault} (he : (v.assign A h other same).result = .error e) :
    e = .undefined_behaviour := by
  unfold vector.assign at he
  split at he
  · cases he
  · have hr := run_result_error he
    split at hr
    · rename_i e1 hb
      cases hr
      exact forUp_error _ _ (fun i g e2 h2 => Heap.destroy_error h2) _ _ _ _ hb
    · split at hr
      · rename_i e1 hb
        cases hr
        exact Heap.deallocate_error hb
      · simp only at hr
        split at hr
        · rename_i e1 hb
          cases hr
          refine forUp_error _ _ ?_ _ _ _ _ hb
          intro i g e2 h2
          split at h2
          · exact Heap.construct_error h2
          · rename_i e3 h3
            cases h2
            exact Heap.read_error h3
        · cases hr

/-- The capacity of a reachable vector is at most `10 * 2 ^ 28`. -/
theorem capacity_bound (A : Allocator) (v : vector) (hv : Reachable A T v) :
    v.maxSize ≤ 10 * 2 ^ 28 := by
  obtain ⟨_, ⟨j, hj⟩, h32⟩ := reachable_inv A v hv
  have hj28 : j ≤ 28 := by
    by_contra hlt
    have : 2 ^ 29 ≤ 2 ^ j := Nat.pow_le_pow_right (by norm_num) (by omega)
    omega
  have : 2 ^ j ≤ 2 ^ 28 := Nat.pow_le_pow_right (by norm_num) hj28
  omega

theorem push_back_error {A : Allocator} {h : Heap T} {v : vector} {x : Arg T} {e : Fault}
    (he : (v.push_back A h x).result = .error e) : e = .undefined_behaviour := by
  unfold vector.push_back at he
  have hr := run_result_error he
  split at hr
  · rename_i e1 hb
    cases hr
    exact growIfFull_error hb
  · split at hr
    · rename_i e1 hb
      cases hr
      exact arg_read_error hb
    · split at hr
      · rename_i e1 hb
        cases hr
        exact Heap.construct_error hb
      · cases hr

theorem next_push (A : Allocator) (xs : List T) (o : Outcome T Unit) (r : Unit)
    (hr : o.result = .ok r) : o.next (pushAll A xs) = pushAll A xs o.heap o.self := by
  simp only [Outcome.next, hr]

/-- A run of `push_back` calls that fails has met undefined behaviour. -/
theorem pushAll_error (A : Allocator) (xs : List T) :
    ∀ (h : Heap T) (v : vector) (e : Fault), (pushAll A xs h v).result = .error e →
      e = .undefined_behaviour := by
  induction xs with
  | nil => intro h v e he; cases he
  | cons x xs ih =>
    intro h v e he
    simp only [pushAll] at he
    cases hr : (v.push_back A h (.val x)).result with
    | error e1 =>
      simp only [Outcome.next, hr] at he
      cases he
      exact push_back_error hr
    | ok r =>
      rw [next_push A xs _ r hr] at he
      exact ih _ _ _ he

/-- A run of `push_back` calls on a reachable vector that returns normally every
time has added one element per call and ends in a reachable vector. -/
theorem pushAll_ok_size (A : Allocator) (xs : List T) :
    ∀ (h : Heap T) (v : vector), Reachable A T v → (pushAll A xs h v).result = .ok () →
      Reachable A T (pushAll A xs h v).self ∧
        (pushAll A xs h v).self.curSize = v.curSize + xs.length := by
  induction xs with
  | nil => intro h v hv _; exact ⟨hv, rfl⟩
  | cons x xs ih =>
    intro h v hv he
    simp only [pushAll] at he ⊢
    cases hr : (v.push_back A h (.val x)).result with
    | error e =>
      simp only [Outcome.next, hr] at he
      cases he
    | ok r =>
      have hdef : Defined ((Op.push_back (Arg.val x)).run A h v).result := by
        unfold Defined
        simp only [Op.run]
        rw [hr]
        exact fun hc => by cases hc
      have hreach : Reachable A T (v.push_back A h (.val x)).self :=
        Reachable.step h v (Op.push_back (.val x)) hv hdef
      obtain ⟨h1, v1, hg, hb, hs⟩ := push_back_ok_self hr
      obtain ⟨hle, _, _⟩ := reachable_inv A v hv
      obtain ⟨hc, hlt, _, _⟩ := grow_facts hg hb hle
      obtain ⟨_, _, h32⟩ := reachable_inv A _ hreach
      have hsz : (v.push_back A h (.val x)).self.curSize = v.curSize + 1 := by
        rw [hs] at h32 ⊢
        simp only at h32 ⊢
        rw [wrapSize_of_lt (by omega), hc]
      rw [next_push A xs _ r hr] at he ⊢
      obtain ⟨r1, r2⟩ := ih _ _ hreach he
      exact ⟨r1, by rw [r2, hsz, List.length_cons]; omega⟩

/-! ## The claims -/

/-- Insertion within the range of the `int` counters, with arguments bound
outside the heap: for a vector holding `xs` with `size < 2 ^ 31`, an index
`k ≤ size` and a value `x`, both `insert(k, x)` and `insert(begin() + k, x)`
return normally and leave the vector holding `xs[0..k) ++ [x] ++ xs[k..size)`,
whether or not the vector was full. -/
theorem insert_inserts (A : Allocator) (hA : A.Fresh) (h : Heap T) (v : vector) (xs : List T)
    (hv : Holds h v xs) (h31 : v.size < 2 ^ 31) (k : Nat) (hk : k ≤ v.size) (x : T) :
    InsertedAt h v xs k x (v.insert_ind A h (.val k) (.val x)) ∧
      InsertedAt h v xs k x (v.insert_pos A h (v.begin.add k) (.val x)) := by
  constructor
  · obtain ⟨h1, v1, _, _, _, e, ho⟩ := insert_ind_spec A hA h v xs hv h31 k hk x
    apply insertedAt_intro hv hk
    · rw [e]; exact ⟨_, rfl⟩
    · rw [e]; exact ho
  · obtain ⟨h1, v1, _, _, _, e, ho⟩ := insert_pos_spec A hA h v xs hv h31 k hk x
      (v.begin.add k) (begin_add_num v (lt_of_le_of_lt hk h31))
    apply insertedAt_intro hv hk
    · rw [e]; exact ⟨_, rfl⟩
    · rw [e]; exact ho

/-- C1, on the code, at two inputs. After `push_back(1)`, `push_back(2)`,
`push_back(3)` on a new vector `v`, the calls `v.insert(0, v[2])` and
`v.insert(v.begin(), v[2])`, whose value argument is 3 at the call, return
normally and leave 2, 1, 2, 3 instead of 3, 1, 2, 3: `value` refers to slot 2,
which the shift overwrites before `storage[0] = value` reads it. On a
well-formed vector of `2 ^ 31` elements 0, 1, 2, ... the call
`insert(begin(), 7)` returns normally with nothing shifted (index 1 still holds
1, not the former first element 0), and `insert(0, 7)` is undefined behaviour:
the counter `int i = curSize` starts negative. -/
theorem insert_not_inserted :
    ((built [1, 2, 3]).self.at_ (built [1, 2, 3]).heap 2).result = .ok 3 ∧
      insertAliased.result = .ok ⟨1, 0⟩ ∧
      insertAliased.self.contents insertAliased.heap = [.ok 2, .ok 1, .ok 2, .ok 3] ∧
      insertAliasedPos.result = .ok ⟨1, 0⟩ ∧
      insertAliasedPos.self.contents insertAliasedPos.heap = [.ok 2, .ok 1, .ok 2, .ok 3] ∧
      ¬ InsertedAt (built [1, 2, 3]).heap (built [1, 2, 3]).self [1, 2, 3] 0 3 insertAliased ∧
      ¬ InsertedAt (built [1, 2, 3]).heap (built [1, 2, 3]).self [1, 2, 3] 0 3
        insertAliasedPos ∧
      Holds (heapN (2 ^ 31)) (vecN (2 ^ 31)) (List.range (2 ^ 31)) ∧
      ((vecN (2 ^ 31)).at_ (heapN (2 ^ 31)) 0).result = .ok 0 ∧
      insertLargePos.result = .ok ⟨1, 0⟩ ∧
      (insertLargePos.self.at_ insertLargePos.heap 1).result = .ok 1 ∧
      ¬ InsertedAt (heapN (2 ^ 31)) (vecN (2 ^ 31)) (List.range (2 ^ 31)) 0 7 insertLargePos ∧
      insertLarge.result = .error .undefined_behaviour := by
  refine ⟨by decide, by decide, by decide, by decide, by decide, ?_, ?_,
    holdsN _ (by decide), by decide, by decide, by decide, ?_, by decide⟩
  · intro hI
    exact absurd hI.2.2.2.1 (by decide)
  · intro hI
    exact absurd hI.2.2.2.1 (by decide)
  · intro hI
    exact absurd (hI.2.2.2.2.2 0 (le_refl _) (by decide)) (by decide)

/-- Removal within the range of the `int` counters, with the index bound
outside the heap: for a vector holding `xs` with `size ≤ 2 ^ 31` and an index
`k < size`, both `erase(k)` and `erase(begin() + k)` return normally and leave
the vector holding `xs` without its `k`-th element. -/
theorem erase_erases (h : Heap T) (v : vector) (xs : List T) (hv : Holds h v xs)
    (h31 : v.size ≤ 2 ^ 31) (k : Nat) (hk : k < v.size) :
    ErasedAt h v xs k (v.erase_ind h (.val k)) ∧
      ErasedAt h v xs k (v.erase_pos h (v.begin.add k)) := by
  constructor
  · obtain ⟨e, ho⟩ := erase_ind_spec h v xs hv h31 k hk
    apply erasedAt_intro hv hk
    · rw [e]; exact ⟨_, rfl⟩
    · rw [e]; exact ho
  · obtain ⟨e, ho⟩ := erase_pos_spec h v xs hv h31 k hk (v.begin.add k)
      (begin_add_num v (lt_of_lt_of_le hk h31))
    apply erasedAt_intro hv hk
    · rw [e]; exact ⟨_, rfl⟩
    · rw [e]; exact ho

/-- C2, on the code: on a well-formed vector of `2 ^ 31 + 5` elements
0, 1, 2, ... the call `erase(2 ^ 31 + 1)` returns normally, but the counter
`int i = ind` starts negative, so no element is moved and the last element is
destroyed instead of the one at the index: the size shrinks by one, yet index
`2 ^ 31 + 1` still holds its old element and not the one that followed it. On
the same vector `erase(begin() + 0)` is undefined behaviour: its counter
overflows before it reaches `curSize - 1`. -/
theorem erase_ind_large_drops_last :
    Holds (heapN (2 ^ 31 + 5)) (vecN (2 ^ 31 + 5)) (List.range (2 ^ 31 + 5)) ∧
      2 ^ 31 + 1 < (vecN (2 ^ 31 + 5)).size ∧
      ((vecN (2 ^ 31 + 5)).at_ (heapN (2 ^ 31 + 5)) (2 ^ 31 + 1)).result
        = .ok (2 ^ 31 + 1) ∧
      ((vecN (2 ^ 31 + 5)).at_ (heapN (2 ^ 31 + 5)) (2 ^ 31 + 2)).result
        = .ok (2 ^ 31 + 2) ∧
      eraseLarge.result = .ok ⟨1, -2147483647⟩ ∧
      eraseLarge.self.size + 1 = (vecN (2 ^ 31 + 5)).size ∧
      (eraseLarge.self.at_ eraseLarge.heap (2 ^ 31 + 1)).result = .ok (2 ^ 31 + 1) ∧
      ¬ ErasedAt (heapN (2 ^ 31 + 5)) (vecN (2 ^ 31 + 5)) (List.range (2 ^ 31 + 5))
        (2 ^ 31 + 1) eraseLarge ∧
      eraseLargePos.result = .error .undefined_behaviour := by
  refine ⟨holdsN _ (by decide), by decide, by decide, by decide, by decide, by decide,
    by decide, ?_, ?_⟩
  · intro hE
    exact absurd (hE.2.2.2.2 (2 ^ 31 + 2) (by decide) (by decide)) (by decide)
  · cases hr : eraseLargePos.result with
    | error e => rw [erase_pos_error hr]
    | ok it => exact absurd (erase_pos_ok_bound (by decide) (by decide) hr) (by decide)

/-- C3, on the code: after `push_back(1)`, `push_back(2)`, `push_back(3)` on a
new vector, erasing the last element through a cursor, `erase(begin() + 2)`,
returns the cursor at offset 1, whereas `end()` of the vector after the removal
is the cursor at offset 2; `operator==` on the two is false. -/
theorem erase_pos_last_not_end :
    (built [1, 2, 3]).result = .ok () ∧
      ((built [1, 2, 3]).self.erase_pos (built [1, 2, 3]).heap
        ((built [1, 2, 3]).self.begin.add 2)).result = .ok ⟨1, 1⟩ ∧
      ((built [1, 2, 3]).self.erase_pos (built [1, 2, 3]).heap
        ((built [1, 2, 3]).self.begin.add 2)).self.end_ = ⟨1, 2⟩ ∧
      iterator.eq ⟨1, 1⟩ ((built [1, 2, 3]).self.erase_pos (built [1, 2, 3]).heap
        ((built [1, 2, 3]).self.begin.add 2)).self.end_ = false := by
  decide

/-- C4, on the code: `erase(size - 1)` returns the cursor one before `end()`.
After `push_back(1)`, `push_back(2)`, `push_back(3)` on a new vector, `erase(2)`
returns offset 1 while `end()` is then at offset 2; after a single
`push_back(7)`, `erase(0)` returns offset -1 while `end()` is then at offset 0. -/
theorem erase_ind_last_not_end :
    ((built [1, 2, 3]).self.erase_ind (built [1, 2, 3]).heap (.val 2)).result = .ok ⟨1, 1⟩ ∧
      ((built [1, 2, 3]).self.erase_ind (built [1, 2, 3]).heap (.val 2)).self.end_ = ⟨1, 2⟩ ∧
      ((built [7]).self.erase_ind (built [7]).heap (.val 0)).result = .ok ⟨1, -1⟩ ∧
      ((built [7]).self.erase_ind (built [7]).heap (.val 0)).self.end_ = ⟨1, 0⟩ := by
  decide

/-- The cursor returned by a removal within the range of the `int` counters,
with the index bound outside the heap: when the erased element is not the last
one (`k + 1 < size ≤ 2 ^ 31`), `erase(k)` and `erase(begin() + k)` each return
a cursor equal to `begin() + k` of the resulting vector, and dereferencing it
yields the element that was at index `k + 1` before the removal. -/
theorem erase_returns_next (h : Heap T) (v : vector) (xs : List T) (hv : Holds h v xs)
    (h31 : v.size ≤ 2 ^ 31) (k : Nat) (hk : k + 1 < v.size) :
    ∃ y, (v.at_ h (k + 1)).result = .ok y ∧
      (∃ it, (v.erase_ind h (.val k)).result = .ok it ∧
        it = (v.erase_ind h (.val k)).self.begin.add k ∧
        iterator.eq it ((v.erase_ind h (.val k)).self.begin.add k) = true ∧
        it.deref (v.erase_ind h (.val k)).heap = .ok y) ∧
      (∃ it, (v.erase_pos h (v.begin.add k)).result = .ok it ∧
        it = (v.erase_pos h (v.begin.add k)).self.begin.add k ∧
        iterator.eq it ((v.erase_pos h (v.begin.add k)).self.begin.add k) = true ∧
        it.deref (v.erase_pos h (v.begin.add k)).heap = .ok y) := by
  have hs : v.curSize = xs.length := hv.size
  have hk1 : k + 1 < xs.length := by simp only [vector.size] at hk; omega
  have hk31 : k < 2 ^ 31 := by simp only [vector.size] at hk h31; omega
  have hy : xs[k + 1]? = some xs[k + 1] := List.getElem?_eq_getElem hk1
  have hy2 : (xs.eraseIdx k)[k]? = some xs[k + 1] := by
    rw [List.getElem?_eraseIdx, if_neg (by omega), hy]
  have hb : ∀ w : vector, w.storage = v.storage → w.begin.add (k : Int) = ⟨v.storage, (k : Int)⟩ := by
    intro w hw
    simp only [vector.begin, iterator.add, zero_add, wrapInt_of_lt hk31, hw]
  have heq : iterator.eq ⟨v.storage, (k : Int)⟩ ⟨v.storage, (k : Int)⟩ = true := by
    simp [iterator.eq]
  refine ⟨xs[k + 1], at_result_some h v xs hv hy, ?_, ?_⟩
  · obtain ⟨e, ho⟩ := erase_ind_spec h v xs hv h31 k (by simp only [vector.size] at hk; omega)
    rw [e]
    simp only
    rw [if_neg (by simp only [vector.size] at hk; omega),
      hb ⟨v.storage, v.curSize - 1, v.maxSize⟩ rfl]
    exact ⟨_, rfl, rfl, heq, deref_of_holds ho hy2⟩
  · obtain ⟨e, ho⟩ := erase_pos_spec h v xs hv h31 k (by simp only [vector.size] at hk; omega)
      (v.begin.add k) (begin_add_num v hk31)
    rw [e]
    simp only
    rw [if_neg (by simp only [vector.size] at hk; omega),
      hb ⟨v.storage, v.curSize - 1, v.maxSize⟩ rfl, hb v rfl]
    exact ⟨_, rfl, rfl, heq, deref_of_holds ho hy2⟩

/-- C5, on the code, at two inputs. On a `vector<size_t>` `v` after
`push_back(0)`, `push_back(5)`, `push_back(6)`, the call `v.erase(v[0])`, whose
index argument is 0 at the call, removes the element at index 0 but returns the
cursor at offset 5: `ind` refers to slot 0, which holds 5 after the shift, when
the return statement reads it. The cursor is not `begin() + 0` of the resulting
vector and dereferencing it reads raw memory. On a well-formed vector of
`2 ^ 31 + 5` elements `erase(2 ^ 31 + 1)` returns a cursor with the negative
offset `-2147483647`, which is not in the vector either. -/
theorem erase_ind_rereads_index :
    (built [0, 5, 6]).result = .ok () ∧
      ((built [0, 5, 6]).self.at_ (built [0, 5, 6]).heap 0).result = .ok 0 ∧
      0 + 1 < (built [0, 5, 6]).self.size ∧
      ((built [0, 5, 6]).self.at_ (built [0, 5, 6]).heap (0 + 1)).result = .ok 5 ∧
      eraseAliased.result = .ok ⟨1, 5⟩ ∧
      eraseAliased.self.contents eraseAliased.heap = [.ok 5, .ok 6] ∧
      eraseAliased.self.begin.add 0 = ⟨1, 0⟩ ∧
      iterator.eq ⟨1, 5⟩ (eraseAliased.self.begin.add 0) = false ∧
      iterator.deref eraseAliased.heap ⟨1, 5⟩ = .error .undefined_behaviour ∧
      eraseLarge.result = .ok ⟨1, -2147483647⟩ ∧
      iterator.deref eraseLarge.heap ⟨1, -2147483647⟩ = .error .undefined_behaviour := by
  decide

/-- C6: for a vector holding `xs` and an index `i`: if `i < size` then `at(i)`
and `operator[](i)` both return the `i`-th element of `xs`, so `at(size - 1)`
is the last element; if `i ≥ size` then both raise `index_out_of_bound`, so
`at(size)` raises. -/
theorem at_checked (h : Heap T) (v : vector) (xs : List T) (hv : Holds h v xs) (i : Nat) :
    (i < v.size → ∃ x, xs[i]? = some x ∧ (v.at_ h i).result = .ok x ∧
        (v.index h i).result = .ok x) ∧
      (v.size ≤ i → (v.at_ h i).result = .error .index_out_of_bound ∧
        (v.index h i).result = .error .index_out_of_bound) ∧
      (∀ x, xs.getLast? = some x → (v.at_ h (v.size - 1)).result = .ok x) ∧
      (v.at_ h v.size).result = .error .index_out_of_bound := by
  have hs : v.size = xs.length := hv.size
  have hidx : ∀ j, (v.index h j).result = (v.at_ h j).result := fun j => by
    rw [(at_spec h v xs hv j).2]
  have hge : ∀ j, v.size ≤ j → (v.at_ h j).result = .error .index_out_of_bound := by
    intro j hj
    rw [at_result h v xs hv j, List.getElem?_eq_none (by omega)]
  refine ⟨?_, ?_, ?_, hge _ (le_refl _)⟩
  · intro hi
    have hx : xs[i]? = some xs[i] := List.getElem?_eq_getElem (by omega)
    exact ⟨xs[i], hx, at_result_some h v xs hv hx, by rw [hidx]; exact at_result_some h v xs hv hx⟩
  · intro hi
    exact ⟨hge i hi, by rw [hidx]; exact hge i hi⟩
  · intro x hx
    apply at_result_some h v xs hv
    rw [hs, ← List.getLast?_eq_getElem?]
    exact hx

theorem at_checked_witness :
    (2 < vec3.size → ∃ x, [1, 2, 3][2]? = some x ∧ (vec3.at_ heap3 2).result = .ok x ∧
        (vec3.index heap3 2).result = .ok x) ∧
      (vec3.size ≤ 2 → (vec3.at_ heap3 2).result = .error .index_out_of_bound ∧
        (vec3.index heap3 2).result = .error .index_out_of_bound) ∧
      (∀ x, [1, 2, 3].getLast? = some x → (vec3.at_ heap3 (vec3.size - 1)).result = .ok x) ∧
      (vec3.at_ heap3 vec3.size).result = .error .index_out_of_bound :=
  at_checked heap3 vec3 [1, 2, 3] holds3 2

/-- C7, refuted as stated: after `push_back(1)`, `push_back(2)`, `push_back(3)`
on a new vector the index 3 satisfies `i ≥ size`, yet `insert(3, 9)` raises
nothing: it returns the cursor at offset 3 and the vector then reads 1, 2, 3, 9. -/
theorem insert_at_size_no_raise :
    3 ≥ (built [1, 2, 3]).self.size ∧
      ((built [1, 2, 3]).self.insert_ind bumpAllocator (built [1, 2, 3]).heap
        (.val 3) (.val 9)).result = .ok ⟨1, 3⟩ ∧
      ((built [1, 2, 3]).self.insert_ind bumpAllocator (built [1, 2, 3]).heap
        (.val 3) (.val 9)).result ≠ .error .index_out_of_bound ∧
      ((built [1, 2, 3]).self.insert_ind bumpAllocator (built [1, 2, 3]).heap
        (.val 3) (.val 9)).self.contents
        ((built [1, 2, 3]).self.insert_ind bumpAllocator (built [1, 2, 3]).heap
          (.val 3) (.val 9)).heap
        = [.ok 1, .ok 2, .ok 3, .ok 9] := by
  decide

/-- C7, amended: for every vector, every value `x` and every index `i ≥ size`,
`at(i)`, `operator[](i)` and `erase(i)` raise `index_out_of_bound`, and
`insert(i, x)` raises `index_out_of_bound` when `i > size`; `insert(size, x)`
does not raise `index_out_of_bound`. Nothing is assumed about the state of the
vector or about how `x` is bound. -/
theorem indexed_out_of_bound (A : Allocator) (h : Heap T) (v : vector) (i : Nat) (x : Arg T)
    (hi : v.size ≤ i) :
    (v.at_ h i).result = .error .index_out_of_bound ∧
      (v.index h i).result = .error .index_out_of_bound ∧
      (v.erase_ind h (.val i)).result = .error .index_out_of_bound ∧
      (v.size < i → (v.insert_ind A h (.val i) x).result = .error .index_out_of_bound) ∧
      (v.insert_ind A h (.val v.size) x).result ≠ .error .index_out_of_bound := by
  have hd : (decide (i < 0) || decide (i ≥ v.curSize)) = true := by
    simp only [vector.size] at hi; simp; omega
  refine ⟨?_, ?_, ?_, ?_, ?_⟩
  · simp only [vector.at_, hd, if_true]
  · simp only [vector.index, hd, if_true]
  · unfold vector.erase_ind
    simp only [Index.read]
    rw [if_pos (show i ≥ v.curSize from hi)]
  · intro hlt
    unfold vector.insert_ind
    simp only [Index.read]
    rw [if_pos (show i > v.curSize from hlt)]
  · intro he
    have := insert_ind_error
      (fun n hn => by cases hn; exact Nat.lt_irrefl _) he
    cases this

theorem indexed_out_of_bound_witness :
    vec3.size ≤ 4 ∧
      ((vec3.at_ heap3 4).result = .error .index_out_of_bound ∧
      (vec3.index heap3 4).result = .error .index_out_of_bound ∧
      (vec3.erase_ind heap3 (.val 4)).result = .error .index_out_of_bound ∧
      (vec3.size < 4 →
        (vec3.insert_ind bumpAllocator heap3 (.val 4) (.val 9)).result
          = .error .index_out_of_bound) ∧
      (vec3.insert_ind bumpAllocator heap3 (.val vec3.size) (.val 9)).result
        ≠ .error .index_out_of_bound) :=
  ⟨by decide, indexed_out_of_bound bumpAllocator heap3 vec3 4 (.val 9) (by decide)⟩

/-- C8: `insert(i, x)` raises `index_out_of_bound` if and only if `i > size`,
`erase(i)` raises `index_out_of_bound` if and only if `i ≥ size`, and whenever
either raises, the heap and the vector (size, capacity, elements, buffer) are
exactly as before the call; a failing `insert` on a full vector does not grow
it. Nothing is assumed about the state of the vector or about how `x` is bound. -/
theorem indexed_mutation_atomic (A : Allocator) (h : Heap T) (v : vector) (i : Nat)
    (x : Arg T) :
    ((v.insert_ind A h (.val i) x).result = .error .index_out_of_bound ↔ i > v.size) ∧
      ((v.erase_ind h (.val i)).result = .error .index_out_of_bound ↔ i ≥ v.size) ∧
      (i > v.size → (v.insert_ind A h (.val i) x).heap = h ∧
        (v.insert_ind A h (.val i) x).self = v) ∧
      (i ≥ v.size → (v.erase_ind h (.val i)).heap = h ∧ (v.erase_ind h (.val i)).self = v) ∧
      (i > v.size → v.size = v.maxSize →
        (v.insert_ind A h (.val i) x).self.maxSize = v.maxSize ∧
        (v.insert_ind A h (.val i) x).self.storage = v.storage ∧
        (v.insert_ind A h (.val i) x).heap.live = h.live) := by
  have hins : i > v.size →
      v.insert_ind A h (.val i) x = ⟨.error .index_out_of_bound, h, v⟩ := by
    intro hi
    unfold vector.insert_ind
    simp only [Index.read]
    rw [if_pos (show i > v.curSize from hi)]
  have hers : i ≥ v.size → v.erase_ind h (.val i) = ⟨.error .index_out_of_bound, h, v⟩ := by
    intro hi
    unfold vector.erase_ind
    simp only [Index.read]
    rw [if_pos (show i ≥ v.curSize from hi)]
  refine ⟨⟨?_, fun hi => by rw [hins hi]⟩, ⟨?_, fun hi => by rw [hers hi]⟩,
    fun hi => by rw [hins hi]; exact ⟨rfl, rfl⟩, fun hi => by rw [hers hi]; exact ⟨rfl, rfl⟩,
    fun hi _ => by rw [hins hi]; exact ⟨rfl, rfl, rfl⟩⟩
  · intro he
    by_contra hi
    have := insert_ind_error (fun n hn => by cases hn; exact hi) he
    cases this
  · intro he
    by_contra hi
    have := erase_ind_error (fun n hn => by cases hn; exact hi) he
    cases this

theorem indexed_mutation_atomic_witness :
    ((vec3.insert_ind bumpAllocator heap3 (.val 4) (.val 9)).result
        = .error .index_out_of_bound ↔ 4 > vec3.size) ∧
      ((vec3.erase_ind heap3 (.val 4)).result = .error .index_out_of_bound
        ↔ 4 ≥ vec3.size) ∧
      (4 > vec3.size → (vec3.insert_ind bumpAllocator heap3 (.val 4) (.val 9)).heap = heap3 ∧
        (vec3.insert_ind bumpAllocator heap3 (.val 4) (.val 9)).self = vec3) ∧
      (4 ≥ vec3.size → (vec3.erase_ind heap3 (.val 4)).heap = heap3 ∧
        (vec3.erase_ind heap3 (.val 4)).self = vec3) ∧
      (4 > vec3.size → vec3.size = vec3.maxSize →
        (vec3.insert_ind bumpAllocator heap3 (.val 4) (.val 9)).self.maxSize = vec3.maxSize ∧
        (vec3.insert_ind bumpAllocator heap3 (.val 4) (.val 9)).self.storage = vec3.storage ∧
        (vec3.insert_ind bumpAllocator heap3 (.val 4) (.val 9)).heap.live = heap3.live) :=
  indexed_mutation_atomic bumpAllocator heap3 vec3 4 (.val 9)

/-- Growth round trip within the range of the `int` counters: pushing the
elements of a list `xs` of length at most `2 ^ 31` in order with `push_back`
onto a freshly constructed vector returns normally every time and yields a
vector of size `xs.length` whose `at(i)` is `xs[i]` for every `i`. -/
theorem push_back_round_trip (A : Allocator) (hA : A.Fresh) (h : Heap T) (xs : List T)
    (hn : xs.length ≤ 2 ^ 31) :
    (pushAll A xs (vector.new A h).1 (vector.new A h).2).result = .ok () ∧
      (pushAll A xs (vector.new A h).1 (vector.new A h).2).self.size = xs.length ∧
      (∀ i x, xs[i]? = some x →
        ((pushAll A xs (vector.new A h).1 (vector.new A h).2).self.at_
          (pushAll A xs (vector.new A h).1 (vector.new A h).2).heap i).result = .ok x) ∧
      (pushAll A xs (vector.new A h).1 (vector.new A h).2).self.contents
        (pushAll A xs (vector.new A h).1 (vector.new A h).2).heap = xs.map .ok := by
  obtain ⟨hr, ho⟩ := pushAll_spec A hA xs (vector.new A h).1 (vector.new A h).2 []
    (new_spec A h).1 (by simpa using hn)
  rw [List.nil_append] at ho
  exact ⟨hr, ho.size, fun i x hx => at_result_some _ _ _ ho hx, contents_of_holds _ _ _ ho⟩

/-- C9, on the code: pushing `2 ^ 31` elements onto a freshly constructed vector
returns normally every time and yields a vector of that size, but pushing
`10 * 2 ^ 28 + 1` elements does not: the last `push_back` runs `doubleSpace` on
a full vector of capacity `10 * 2 ^ 28`, whose loop
`for (int i = 0; i < curSize; ++i)` overflows its counter before it reaches
`curSize`. -/
theorem push_back_large_undefined :
    (built (List.replicate (2 ^ 31) 0)).result = .ok () ∧
      (built (List.replicate (2 ^ 31) 0)).self.size = 2 ^ 31 ∧
      (built (List.replicate (10 * 2 ^ 28 + 1) 0)).result = .error .undefined_behaviour := by
  have hl : ([] : List Nat).length + (List.replicate (2 ^ 31) 0).length ≤ 2 ^ 31 := by
    rw [List.length_replicate, List.length_nil, Nat.zero_add]
  have hsp := pushAll_spec bumpAllocator bump_fresh (List.replicate (2 ^ 31) 0)
    (vector.new bumpAllocator emptyHeap).1 (vector.new bumpAllocator emptyHeap).2 []
    (new_spec bumpAllocator emptyHeap).1 hl
  have hs := hsp.2.size
  rw [List.nil_append, List.length_replicate] at hs
  have key : ∀ o : Outcome Nat Unit,
      o = pushAll bumpAllocator (List.replicate (10 * 2 ^ 28 + 1) 0)
        (vector.new bumpAllocator emptyHeap).1 (vector.new bumpAllocator emptyHeap).2 →
      o.result = .error .undefined_behaviour := by
    intro o ho
    cases hr : o.result with
    | error e =>
      rw [ho] at hr
      rw [pushAll_error bumpAllocator _ _ _ e hr]
    | ok r =>
      rw [ho] at hr
      obtain ⟨hreach, hsz⟩ := pushAll_ok_size bumpAllocator
        (List.replicate (10 * 2 ^ 28 + 1) 0) (vector.new bumpAllocator emptyHeap).1
        (vector.new bumpAllocator emptyHeap).2 (Reachable.new emptyHeap) hr
      have hcap := capacity_bound bumpAllocator _ hreach
      have hle := (reachable_inv bumpAllocator _ hreach).1
      rw [List.length_replicate] at hsz
      have h0 : (vector.new bumpAllocator (emptyHeap : Heap Nat)).2.curSize = 0 := rfl
      rw [h0] at hsz
      omega
  rw [size_curSize]
  unfold built
  exact ⟨hsp.1, hs, key _ rfl⟩

/-- C10: `pop_back` raises `container_is_empty` if and only if `size == 0`, and
then leaves the vector as it was, empty; on a non-empty vector it returns
normally, decreases the size by one and leaves the elements at the indices
below `size - 1` unchanged. After `push_back(1)`, `push_back(2)`,
`push_back(3)`, `insert(1, 9)`, `erase(0)` on a new vector the sequence is
9, 2, 3; two `pop_back` calls leave 9, a third leaves the vector empty and a
fourth raises `container_is_empty`. -/
theorem pop_back_behaviour (A : Allocator) (hA : A.Fresh) :
    (∀ (h : Heap T) (v : vector),
      ((v.pop_back h).result = .error .container_is_empty ↔ v.size = 0) ∧
      (v.size = 0 → (v.pop_back h).heap = h ∧ (v.pop_back h).self = v ∧
        (v.pop_back h).self.empty = true)) ∧
    (∀ (h : Heap T) (v : vector) (xs : List T), Holds h v xs → v.size ≠ 0 →
      (v.pop_back h).result = .ok () ∧
      (v.pop_back h).self.size + 1 = v.size ∧
      Holds (v.pop_back h).heap (v.pop_back h).self xs.dropLast ∧
      (∀ i, i + 1 < v.size →
        ((v.pop_back h).self.at_ (v.pop_back h).heap i).result = (v.at_ h i).result)) ∧
    (∀ h : Heap Nat,
      (scenario A h).self.contents (scenario A h).heap = [.ok 9, .ok 2, .ok 3] ∧
      (((scenario A h).next vector.pop_back).next vector.pop_back).result = .ok () ∧
      (((scenario A h).next vector.pop_back).next vector.pop_back).self.contents
        (((scenario A h).next vector.pop_back).next vector.pop_back).heap = [.ok 9] ∧
      ((((scenario A h).next vector.pop_back).next vector.pop_back).next
        vector.pop_back).result = .ok () ∧
      ((((scenario A h).next vector.pop_back).next vector.pop_back).next
        vector.pop_back).self.empty = true ∧
      (((((scenario A h).next vector.pop_back).next vector.pop_back).next
        vector.pop_back).next vector.pop_back).result = .error .container_is_empty) := by
  refine ⟨?_, ?_, ?_⟩
  · intro h v
    have h0 : v.size = 0 → v.pop_back h = ⟨.error .container_is_empty, h, v⟩ := by
      intro hz
      unfold vector.pop_back
      rw [if_pos (show v.curSize = 0 from hz)]
    refine ⟨⟨?_, fun hz => by rw [h0 hz]⟩, fun hz => ?_⟩
    · intro he
      by_contra hn
      have := pop_back_error (show v.curSize ≠ 0 from hn) he
      cases this
    · rw [h0 hz]
      refine ⟨rfl, rfl, ?_⟩
      simp only [vector.size] at hz
      simp [vector.empty, hz]
  · intro h v xs hv hn
    obtain ⟨e, ho⟩ := pop_back_spec h v xs hv hn
    have hs : v.curSize = xs.length := hv.size
    simp only [vector.size] at hn ⊢
    rw [e]
    refine ⟨rfl, by simp only; omega, ho, ?_⟩
    intro i hi
    rw [at_result _ _ _ ho i, at_result _ _ _ hv i, List.dropLast_eq_take,
      List.getElem?_take_of_lt (by omega)]
  · intro h
    obtain ⟨g1, v1, e1, H1⟩ := push_back_ok A hA _ _ _ (new_spec A h).1 (by decide) 1
    obtain ⟨g2, v2, e2, H2⟩ := push_back_ok A hA _ _ _ H1 (by decide) 2
    obtain ⟨g3, v3, e3, H3⟩ := push_back_ok A hA _ _ _ H2 (by decide) 3
    obtain ⟨i4, g4, v4, e4, H4⟩ := insert_ind_ok A hA _ _ _ H3 (by decide) 1 (by decide) 9
    obtain ⟨i5, g5, v5, e5, H5⟩ := erase_ind_ok _ _ _ H4 (by decide) 0 (by decide)
    obtain ⟨g6, v6, e6, H6⟩ := pop_back_ok _ _ _ H5 (by decide)
    obtain ⟨g7, v7, e7, H7⟩ := pop_back_ok _ _ _ H6 (by decide)
    obtain ⟨g8, v8, e8, H8⟩ := pop_back_ok _ _ _ H7 (by decide)
    have hs : scenario A h = ⟨.ok i5, g5, v5⟩ := by
      unfold scenario
      rw [e1, next_ok, e2, next_ok, e3, next_ok, e4, next_ok, e5]
    have h8 : v8.curSize = 0 := H8.size
    have e9 : v8.pop_back g8 = ⟨.error .container_is_empty, g8, v8⟩ := by
      unfold vector.pop_back
      rw [if_pos h8]
    rw [hs, next_ok, e6, next_ok, e7, next_ok, e8, next_ok, e9]
    refine ⟨contents_of_holds _ _ _ H5, rfl, contents_of_holds _ _ _ H7, rfl, ?_, rfl⟩
    simp [vector.empty, h8]

theorem pop_back_behaviour_witness :
    (∀ (h : Heap Nat) (v : vector),
      ((v.pop_back h).result = .error .container_is_empty ↔ v.size = 0) ∧
      (v.size = 0 → (v.pop_back h).heap = h ∧ (v.pop_back h).self = v ∧
        (v.pop_back h).self.empty = true)) ∧
    (∀ (h : Heap Nat) (v : vector) (xs : List Nat), Holds h v xs → v.size ≠ 0 →
      (v.pop_back h).result = .ok () ∧
      (v.pop_back h).self.size + 1 = v.size ∧
      Holds (v.pop_back h).heap (v.pop_back h).self xs.dropLast ∧
      (∀ i, i + 1 < v.size →
        ((v.pop_back h).self.at_ (v.pop_back h).heap i).result = (v.at_ h i).result)) ∧
    (∀ h : Heap Nat,
      (scenario bumpAllocator h).self.contents (scenario bumpAllocator h).heap
        = [.ok 9, .ok 2, .ok 3] ∧
      (((scenario bumpAllocator h).next vector.pop_back).next vector.pop_back).result
        = .ok () ∧
      (((scenario bumpAllocator h).next vector.pop_back).next vector.pop_back).self.contents
        (((scenario bumpAllocator h).next vector.pop_back).next vector.pop_back).heap
        = [.ok 9] ∧
      ((((scenario bumpAllocator h).next vector.pop_back).next vector.pop_back).next
        vector.pop_back).result = .ok () ∧
      ((((scenario bumpAllocator h).next vector.pop_back).next vector.pop_back).next
        vector.pop_back).self.empty = true ∧
      (((((scenario bumpAllocator h).next vector.pop_back).next vector.pop_back).next
        vector.pop_back).next vector.pop_back).result = .error .container_is_empty) :=
  pop_back_behaviour bumpAllocator bump_fresh

/-- Insert-then-erase within the range of the `int` counters, with arguments
bound outside the heap: for a vector holding `xs` with `size < 2 ^ 31`, an
index `k ≤ size` and a value `x`, `insert(k, x)` followed by `erase(k)` returns
normally both times and yields a vector whose size and element sequence are
those of the original, whether or not the insertion made the vector grow. -/
theorem insert_erase_round_trip (A : Allocator) (hA : A.Fresh) (h : Heap T) (v : vector)
    (xs : List T) (hv : Holds h v xs) (h31 : v.size < 2 ^ 31) (k : Nat) (hk : k ≤ v.size)
    (x : T) :
    (∃ it, ((v.insert_ind A h (.val k) (.val x)).next (fun g w => w.erase_ind g (.val k))).result = .ok it) ∧
      Holds ((v.insert_ind A h (.val k) (.val x)).next (fun g w => w.erase_ind g (.val k))).heap
        ((v.insert_ind A h (.val k) (.val x)).next (fun g w => w.erase_ind g (.val k))).self xs ∧
      ((v.insert_ind A h (.val k) (.val x)).next (fun g w => w.erase_ind g (.val k))).self.size = v.size ∧
      ((v.insert_ind A h (.val k) (.val x)).next (fun g w => w.erase_ind g (.val k))).self.contents
        ((v.insert_ind A h (.val k) (.val x)).next (fun g w => w.erase_ind g (.val k))).heap = v.contents h := by
  have hs : v.curSize = xs.length := hv.size
  have hkl : k ≤ xs.length := by simp only [vector.size] at hk; omega
  have hl : xs.length < 2 ^ 31 := by simp only [vector.size] at h31; omega
  obtain ⟨i1, g1, v1, e1, H1⟩ := insert_ind_ok A hA h v xs hv hl k hkl x
  obtain ⟨i2, g2, v2, e2, H2⟩ := erase_ind_ok g1 v1 _ H1
    (by rw [length_insert xs k hkl x]; omega) k (by rw [length_insert xs k hkl x]; omega)
  rw [eraseIdx_insert xs k hkl x] at H2
  rw [e1, next_ok, e2]
  refine ⟨⟨_, rfl⟩, H2, ?_, ?_⟩
  · have := H2.size
    simp only [vector.size]; omega
  · rw [contents_of_holds _ _ _ H2, contents_of_holds _ _ _ hv]

/-- C11, on the code, at two inputs. After ten `push_back` calls on a new vector
`v` the vector is full; `v.insert(0, v[2])` then runs `doubleSpace`, which
releases the buffer `value` refers to, and reads `value` afterwards: undefined
behaviour, so the round trip `insert(0, v[2])`, `erase(0)` does not return. On a
well-formed vector of `2 ^ 31` elements `insert(0, 7)` is undefined behaviour
as well (the counter `int i = curSize` starts negative), and so is the round
trip. -/
theorem insert_erase_undefined :
    (built (List.range 10)).self.size = (built (List.range 10)).self.maxSize ∧
      ((built (List.range 10)).self.at_ (built (List.range 10)).heap 2).result = .ok 2 ∧
      insertAliasedFull.result = .error .undefined_behaviour ∧
      (insertAliasedFull.next (fun g w => w.erase_ind g (.val 0))).result
        = .error .undefined_behaviour ∧
      Holds (heapN (2 ^ 31)) (vecN (2 ^ 31)) (List.range (2 ^ 31)) ∧
      insertLarge.result = .error .undefined_behaviour ∧
      (insertLarge.next (fun g w => w.erase_ind g (.val 0))).result
        = .error .undefined_behaviour := by
  refine ⟨by decide, by decide, by decide, by decide, holdsN _ (by decide), by decide,
    by decide⟩

/-- C13: for two cursors `a`, `b` of the same variant, `a - b` raises
`invalid_iterator` if and only if `a` and `b` carry the same buffer identity;
with different identities it returns normally with the `int` difference of the
offsets, which is `a.num - b.num` whenever that difference is an `int`. -/
theorem distance_as_coded (a b : iterator) (c d : const_iterator) :
    (a.distance b = .error .invalid_iterator ↔ a.beg = b.beg) ∧
      (a.beg ≠ b.beg → a.distance b = .ok (wrapInt (a.num - b.num))) ∧
      (a.beg ≠ b.beg → -2 ^ 31 ≤ a.num - b.num → a.num - b.num < 2 ^ 31 →
        a.distance b = .ok (a.num - b.num)) ∧
      (c.distance d = .error .invalid_iterator ↔ c.beg = d.beg) ∧
      (c.beg ≠ d.beg → c.distance d = .ok (wrapInt (c.num - d.num))) ∧
      (c.beg ≠ d.beg → -2 ^ 31 ≤ c.num - d.num → c.num - d.num < 2 ^ 31 →
        c.distance d = .ok (c.num - d.num)) := by
  refine ⟨?_, ?_, ?_, ?_, ?_, ?_⟩
  · unfold iterator.distance
    constructor
    · intro he
      by_contra hn
      rw [if_neg hn] at he
      cases he
    · intro he
      rw [if_pos he]
  · intro hn
    unfold iterator.distance
    rw [if_neg hn]
  · intro hn h0 h1
    unfold iterator.distance
    rw [if_neg hn, wrapInt_of_range h0 h1]
  · unfold const_iterator.distance
    constructor
    · intro he
      by_contra hn
      rw [if_neg hn] at he
      cases he
    · intro he
      rw [if_pos he]
  · intro hn
    unfold const_iterator.distance
    rw [if_neg hn]
  · intro hn h0 h1
    unfold const_iterator.distance
    rw [if_neg hn, wrapInt_of_range h0 h1]

theorem distance_as_coded_witness :
    ((iterator.mk 1 3).distance ⟨2, 1⟩ = .error .invalid_iterator ↔ (1 : Nat) = 2) ∧
      ((1 : Nat) ≠ 2 → (iterator.mk 1 3).distance ⟨2, 1⟩ = .ok (wrapInt (3 - 1))) ∧
      ((1 : Nat) ≠ 2 → -2 ^ 31 ≤ (3 : Int) - 1 → (3 : Int) - 1 < 2 ^ 31 →
        (iterator.mk 1 3).distance ⟨2, 1⟩ = .ok (3 - 1)) ∧
      ((const_iterator.mk 1 3).distance ⟨2, 1⟩ = .error .invalid_iterator ↔ (1 : Nat) = 2) ∧
      ((1 : Nat) ≠ 2 → (const_iterator.mk 1 3).distance ⟨2, 1⟩ = .ok (wrapInt (3 - 1))) ∧
      ((1 : Nat) ≠ 2 → -2 ^ 31 ≤ (3 : Int) - 1 → (3 : Int) - 1 < 2 ^ 31 →
        (const_iterator.mk 1 3).distance ⟨2, 1⟩ = .ok (3 - 1)) :=
  distance_as_coded ⟨1, 3⟩ ⟨2, 1⟩ ⟨1, 3⟩ ⟨2, 1⟩

/-- C14, on the code: after `push_back(1)`, `push_back(2)`, `push_back(3)` on a
new vector `v`, `v.end() - v.begin()` raises `invalid_iterator` instead of
returning 3, and so do `(v.begin() + 2) - (v.begin() + 1)` and
`v.cend() - v.cbegin()`; with a second vector `w` constructed afterwards,
`v.end() - w.begin()` raises nothing and returns 3. -/
theorem distance_same_vector_raises :
    (built [1, 2, 3]).self.end_.distance (built [1, 2, 3]).self.begin
        = .error .invalid_iterator ∧
      ((built [1, 2, 3]).self.begin.add 2).distance ((built [1, 2, 3]).self.begin.add 1)
        = .error .invalid_iterator ∧
      (built [1, 2, 3]).self.cend.distance (built [1, 2, 3]).self.cbegin
        = .error .invalid_iterator ∧
      (built [1, 2, 3]).self.end_.distance
        (vector.new bumpAllocator (built [1, 2, 3]).heap).2.begin = .ok 3 := by
  decide

/-- C18: `size ≤ capacity` holds for the freshly constructed vector and is kept
by copy construction, by assignment and by every operation of `Op` (`clear`,
`push_back`, `pop_back`, `insert` and `erase` by index and by cursor) that
returns normally or raises, for a capacity that is a `size_t`; hence it holds
in every reachable state. -/
theorem size_le_capacity (A : Allocator) :
    (∀ h : Heap T, (vector.new A h).2.size ≤ (vector.new A h).2.maxSize) ∧
      (∀ (h h1 : Heap T) (other v : vector), other.size ≤ other.maxSize →
        other.copy A h = .ok (h1, v) → v.size ≤ v.maxSize) ∧
      (∀ (h : Heap T) (v other : vector) (same : Bool), v.size ≤ v.maxSize →
        other.size ≤ other.maxSize → Defined (v.assign A h other same).result →
        (v.assign A h other same).self.size ≤ (v.assign A h other same).self.maxSize) ∧
      (∀ (h : Heap T) (v : vector) (op : Op T), v.size ≤ v.maxSize → v.maxSize < 2 ^ 64 →
        Defined (op.run A h v).result →
        (op.run A h v).self.size ≤ (op.run A h v).self.maxSize) ∧
      (∀ v, Reachable A T v → v.size ≤ v.maxSize) := by
  refine ⟨?_, ?_, ?_, ?_, ?_⟩
  · intro h
    exact Nat.zero_le _
  · intro h h1 other v hle hc
    rw [copy_ok hc]
    exact hle
  · intro h v other same hv ho _
    rcases assign_self A h v other same with hs | ⟨hc, hm⟩
    · rw [hs]; exact hv
    · simp only [vector.size]; rw [hc, hm]; exact ho
  · intro h v op hle hfit _
    exact (op_keeps_le A h v op hle hfit).1
  · intro v hv
    exact (reachable_inv A v hv).1

theorem size_le_capacity_witness :
    (Op.run bumpAllocator (vector.new bumpAllocator emptyHeap).1
        (vector.new bumpAllocator emptyHeap).2 (Op.push_back (.val 1))).self.size ≤
      (Op.run bumpAllocator (vector.new bumpAllocator emptyHeap).1
        (vector.new bumpAllocator emptyHeap).2 (Op.push_back (.val 1))).self.maxSize :=
  (size_le_capacity bumpAllocator).2.2.2.2 _
    (Reachable.step (vector.new bumpAllocator emptyHeap).1 _ (Op.push_back (.val 1))
      (Reachable.new emptyHeap) (by unfold Defined; decide))

/-- C19: for every successful `push_back(x)`, `insert(k, x)` or
`insert(pos, x)`, however the arguments are bound: if `size == capacity`
beforehand, the capacity afterwards is twice the previous capacity; if
`size < capacity` beforehand, the capacity and the buffer are unchanged, so
`begin()` is the same cursor before and after. -/
theorem growth_doubles (A : Allocator) (h : Heap T) (v : vector) (x : Arg T) (k : Index T)
    (pos : iterator) :
    ((∃ r, (v.push_back A h x).result = .ok r) → GrowthLaw v (v.push_back A h x).self) ∧
      ((∃ r, (v.insert_ind A h k x).result = .ok r) →
        GrowthLaw v (v.insert_ind A h k x).self) ∧
      ((∃ r, (v.insert_pos A h pos x).result = .ok r) →
        GrowthLaw v (v.insert_pos A h pos x).self) := by
  have key : ∀ (h1 : Heap T) (v1 w : vector), v.growIfFull A h = .ok (h1, v1) →
      h1.inBounds v1.storage (v1.curSize : Int) = true →
      w = { v1 with curSize := wrapSize (v1.curSize + 1) } → GrowthLaw v w := by
    intro h1 v1 w hg hb hw
    constructor
    · intro hf
      have hf1 : v.curSize = v.maxSize := hf
      obtain ⟨_, _, _, hfull⟩ := grow_facts hg hb (le_of_eq hf1)
      rw [hw]
      exact (hfull hf1).1
    · intro hlt
      have hlt1 : v.curSize < v.maxSize := hlt
      obtain ⟨_, _, hne, _⟩ := grow_facts hg hb (le_of_lt hlt1)
      obtain ⟨e1, _⟩ := hne (ne_of_lt hlt1)
      rw [hw, e1]
      exact ⟨rfl, rfl, rfl⟩
  refine ⟨?_, ?_, ?_⟩
  · rintro ⟨r, hr⟩
    obtain ⟨h1, v1, hg, hb, hs⟩ := push_back_ok_self hr
    exact key h1 v1 _ hg hb hs
  · rintro ⟨r, hr⟩
    obtain ⟨h1, v1, hg, hb, hs⟩ := insert_ind_ok_self hr
    exact key h1 v1 _ hg hb hs
  · rintro ⟨r, hr⟩
    obtain ⟨h1, v1, hg, hb, hs, _⟩ := insert_pos_ok_self hr
    exact key h1 v1 _ hg hb hs

theorem growth_doubles_witness :
    GrowthLaw (built (List.range 10)).self
        ((built (List.range 10)).self.push_back bumpAllocator
          (built (List.range 10)).heap (.val 77)).self ∧
      GrowthLaw vec3 (vec3.insert_ind bumpAllocator heap3 (.val 1) (.val 9)).self ∧
      GrowthLaw (built (List.range 10)).self
        ((built (List.range 10)).self.insert_pos bumpAllocator (built (List.range 10)).heap
          ((built (List.range 10)).self.begin.add 4) (.val 77)).self :=
  ⟨(growth_doubles bumpAllocator (built (List.range 10)).heap (built (List.range 10)).self
      (.val 77) (.val 0) ((built (List.range 10)).self.begin.add 4)).1 ⟨(), by decide⟩,
    (growth_doubles bumpAllocator heap3 vec3 (.val 9) (.val 1) (vec3.begin.add 1)).2.1
      ⟨⟨1, 1⟩, by decide⟩,
    (growth_doubles bumpAllocator (built (List.range 10)).heap (built (List.range 10)).self
      (.val 77) (.val 0) ((built (List.range 10)).self.begin.add 4)).2.2 ⟨⟨1, 4⟩, by decide⟩⟩

/-- C20: in every reachable state the capacity is `10 * 2 ^ j` for some `j`, so
it is at least 10 and never zero; a doubling of a reachable vector that returns
leaves twice the capacity and room for one more element; `erase`, `pop_back`
and `clear` never change the capacity. -/
theorem capacity_ten_times_power (A : Allocator) :
    (∀ v, Reachable A T v → (∃ j, v.maxSize = 10 * 2 ^ j) ∧ 10 ≤ v.maxSize ∧ v.maxSize ≠ 0) ∧
      (∀ (h h1 : Heap T) (v v1 : vector), Reachable A T v →
        v.doubleSpace A h = .ok (h1, v1) →
        v1.maxSize = 2 * v.maxSize ∧ v1.size < v1.maxSize) ∧
      (∀ (h : Heap T) (v : vector) (k : Index T) (pos : iterator),
        (v.erase_ind h k).self.maxSize = v.maxSize ∧
        (v.erase_pos h pos).self.maxSize = v.maxSize ∧
        (v.pop_back h).self.maxSize = v.maxSize ∧
        (v.clear h).self.maxSize = v.maxSize) := by
  have hten : ∀ v, Reachable A T v → 10 ≤ v.maxSize := by
    intro v hv
    obtain ⟨_, ⟨j, hj⟩, _⟩ := reachable_inv A v hv
    rw [hj]
    have : 1 ≤ 2 ^ j := Nat.one_le_two_pow
    omega
  refine ⟨?_, ?_, ?_⟩
  · intro v hv
    have := hten v hv
    exact ⟨(reachable_inv A v hv).2.1, this, by omega⟩
  · intro h h1 v v1 hv hd
    obtain ⟨hle, _, h32⟩ := reachable_inv A v hv
    have h10 := hten v hv
    obtain ⟨hc, hm, _, _, _⟩ := doubleSpace_ok hd
    rw [wrapSize_of_lt (by omega)] at hm
    simp only [vector.size]
    omega
  · intro h v k pos
    exact removal_keeps_capacity h v k pos

theorem capacity_ten_times_power_witness :
    (∃ j, (Op.run bumpAllocator (vector.new bumpAllocator emptyHeap).1
        (vector.new bumpAllocator emptyHeap).2 (Op.push_back (.val 1))).self.maxSize = 10 * 2 ^ j) ∧
      10 ≤ (Op.run bumpAllocator (vector.new bumpAllocator emptyHeap).1
        (vector.new bumpAllocator emptyHeap).2 (Op.push_back (.val 1))).self.maxSize ∧
      (Op.run bumpAllocator (vector.new bumpAllocator emptyHeap).1
        (vector.new bumpAllocator emptyHeap).2 (Op.push_back (.val 1))).self.maxSize ≠ 0 :=
  (capacity_ten_times_power bumpAllocator).1 _
    (Reachable.step (vector.new bumpAllocator emptyHeap).1 _ (Op.push_back (.val 1))
      (Reachable.new emptyHeap) (by unfold Defined; decide))

/-- C15, on the code: after ten `push_back` calls on a new vector the vector is
full (size 10, capacity 10, buffer 1). `insert(begin() + 4, 77)` then moves the
elements to the buffer 2 and returns the cursor it was given, tagged with
buffer 1: it is not equal to `begin() + 4` of the resulting vector, and
dereferencing it reads the released buffer, although `at(4)` is 77. -/
theorem insert_pos_full_not_begin_add :
    (built (List.range 10)).self.size = (built (List.range 10)).self.maxSize ∧
      ((built (List.range 10)).self.insert_pos bumpAllocator (built (List.range 10)).heap
        ((built (List.range 10)).self.begin.add 4) (.val 77)).result = .ok ⟨1, 4⟩ ∧
      ((built (List.range 10)).self.insert_pos bumpAllocator (built (List.range 10)).heap
        ((built (List.range 10)).self.begin.add 4) (.val 77)).self.begin.add 4 = ⟨2, 4⟩ ∧
      iterator.eq ⟨1, 4⟩
        (((built (List.range 10)).self.insert_pos bumpAllocator (built (List.range 10)).heap
          ((built (List.range 10)).self.begin.add 4) (.val 77)).self.begin.add 4) = false ∧
      iterator.deref
        ((built (List.range 10)).self.insert_pos bumpAllocator (built (List.range 10)).heap
          ((built (List.range 10)).self.begin.add 4) (.val 77)).heap ⟨1, 4⟩
        = .error .undefined_behaviour ∧
      (((built (List.range 10)).self.insert_pos bumpAllocator (built (List.range 10)).heap
        ((built (List.range 10)).self.begin.add 4) (.val 77)).self.at_
        ((built (List.range 10)).self.insert_pos bumpAllocator (built (List.range 10)).heap
          ((built (List.range 10)).self.begin.add 4) (.val 77)).heap 4).result = .ok 77 := by
  decide

/-- Deep copy within the range of the `int` counters: for a vector `a` holding
`xs` with `size < 2 ^ 31`, copy construction and assignment to a different
well-formed vector `b0` with `size < 2 ^ 31` return normally and produce a
vector with the size, the capacity and the element sequence of `a`, in a
buffer of its own, while `a` still holds `xs`. Any operation on `a`
(`push_back`, `pop_back`, `insert`, `erase`, `clear`, element overwrite),
however its arguments are bound, that returns normally or raises leaves every
other vector `b` with its size and its element sequence. -/
theorem deep_copy (A : Allocator) (hA : A.Fresh) (h : Heap T) (a : vector) (xs : List T)
    (ha : Holds h a xs) (h31 : a.size < 2 ^ 31) :
    (∃ h1 b, a.copy A h = .ok (h1, b) ∧ DeepCopy h a xs h1 b) ∧
      (∀ (b0 : vector) (ys : List T), Holds h b0 ys → b0.storage ≠ a.storage →
        b0.size < 2 ^ 31 →
        (b0.assign A h a false).result = .ok () ∧
        DeepCopy h a xs (b0.assign A h a false).heap (b0.assign A h a false).self) ∧
      (∀ (b : vector) (ys : List T), Holds h b ys → b.storage ≠ a.storage →
        (∀ op : Op T, Defined (op.run A h a).result → Independent h b ys (op.run A h a)) ∧
        (∀ k x, Defined (a.at_put h k x).result → Independent h b ys (a.at_put h k x))) := by
  refine ⟨?_, ?_, ?_⟩
  · obtain ⟨h1, e, hb, hfresh, hf⟩ := copy_spec A hA h a xs ha h31
    have ha1 : Holds h1 a xs :=
      ha.frame (hf (a.storage + 1)) (Nat.ne_of_lt (Nat.lt_succ_self _))
    refine ⟨h1, _, e, rfl, rfl, hb, ha1, fun hc => hfresh ?_, ?_, ?_⟩
    · have hc1 : A h.live a.maxSize = a.storage := hc
      rw [hc1]; exact ha.live
    · rw [contents_of_holds _ _ _ hb, contents_of_holds _ _ _ ha]
    · rw [contents_of_holds _ _ _ ha1, contents_of_holds _ _ _ ha]
  · intro b0 ys hb0 hne hb31
    obtain ⟨h1, e, hb, hqa, hf⟩ := assign_spec A hA h a b0 xs ys ha hb0 hne h31 hb31
    have ha1 : Holds h1 a xs := ha.frame hf (fun hc => hne hc.symm)
    rw [e]
    refine ⟨rfl, rfl, rfl, hb, ha1, hqa, ?_, ?_⟩
    · rw [contents_of_holds _ _ _ hb, contents_of_holds _ _ _ ha]
    · rw [contents_of_holds _ _ _ ha1, contents_of_holds _ _ _ ha]
  · intro b ys hb hne
    exact ⟨fun op _ => independent_of_away hb hne _ (op_away hA h a op),
      fun k x _ => independent_of_away hb hne _ (at_put_away h a k x)⟩

/-- C12, on the code: a well-formed vector of `2 ^ 31 + 5` elements cannot be
copied. With any allocator and in any heap, copy construction from it and
assignment from it to any other vector are undefined behaviour: the loop `for (int i = 0; i < curSize; ++i)` that copies the
elements overflows its counter before it reaches `curSize`. -/
theorem copy_large_undefined :
    Holds (heapN (2 ^ 31 + 5)) (vecN (2 ^ 31 + 5)) (List.range (2 ^ 31 + 5)) ∧
      (∀ (A : Allocator) (h : Heap Nat),
        (vecN (2 ^ 31 + 5)).copy A h = .error .undefined_behaviour) ∧
      (∀ (A : Allocator) (h : Heap Nat) (b : vector),
        (b.assign A h (vecN (2 ^ 31 + 5)) false).result = .error .undefined_behaviour) := by
  refine ⟨holdsN _ (by decide), ?_, ?_⟩
  · intro A h
    cases hr : (vecN (2 ^ 31 + 5)).copy A h with
    | error e => rw [copy_error hr]
    | ok r =>
      obtain ⟨h1, v⟩ := r
      exact absurd (copy_ok_bound hr) (by decide)
  · intro A h b
    cases hr : (b.assign A h (vecN (2 ^ 31 + 5)) false).result with
    | error e => rw [operator_assign_error hr]
    | ok r => exact absurd (assign_ok_bound hr) (by decide)

end sjtu
